import Mathlib

/-!
Shallow embedding of the mppitstop scraper core (backend/src/scrapers/runOne.js,
backend/src/scrapers/inspectDb.js, backend/src/db/database.js schema) together
with theorems settling the frozen claims about it.

String operations model the JavaScript ones with ASCII semantics; the scraped
site and every claim input are ASCII.
-/

namespace MpPitstop

/-! ### String primitives -/

/-- Models JavaScript toLowerCase (ASCII). -/
def jsLower (s : String) : String := String.mk (s.toList.map Char.toLower)

/-- Models JavaScript toUpperCase (ASCII). -/
def jsUpper (s : String) : String := String.mk (s.toList.map Char.toUpper)

/-- A lower-case ASCII letter or digit: the characters kept by the
replace of [^a-z0-9]+ after toLowerCase. -/
def isAsciiLowerAlnum (c : Char) : Bool :=
  (97 ≤ c.toNat && c.toNat ≤ 122) || (48 ≤ c.toNat && c.toNat ≤ 57)

/-- A character matched by the JavaScript regex class for whitespace
(space, tab, newline, carriage return, vertical tab, form feed, nbsp). -/
def isJsSpace (c : Char) : Bool :=
  c == ' ' || c == '\t' || c == '\n' || c == '\r' ||
  c == Char.ofNat 11 || c == Char.ofNat 12 || c == Char.ofNat 160

/-- Collapses runs of spaces to a single space. -/
def squeezeSpaces : List Char → List Char
  | [] => []
  | [c] => [c]
  | a :: b :: t =>
    if a == ' ' && b == ' ' then squeezeSpaces (b :: t)
    else a :: squeezeSpaces (b :: t)

/-- Drops leading and trailing spaces. -/
def trimSpaces (cs : List Char) : List Char :=
  ((cs.dropWhile (· == ' ')).reverse.dropWhile (· == ' ')).reverse

/-- Models lowercasing, replacing runs of non-alphanumerics with one space and
trimming: the normalization used by normalizeFilterList and
matchesAllowedFilter in runOne.js. -/
def normalizeAlnumText (s : String) : String :=
  String.mk (trimSpaces (squeezeSpaces
    ((jsLower s).toList.map (fun c => if isAsciiLowerAlnum c then c else ' '))))

/-- Models replacing runs of whitespace with one space and trimming:
the cleanup used on link titles and cell texts. -/
def cleanWhitespace (s : String) : String :=
  String.mk (trimSpaces (squeezeSpaces
    (s.toList.map (fun c => if isJsSpace c then ' ' else c))))

/-- Drops leading and trailing JavaScript whitespace (String trim). -/
def jsTrim (s : String) : String :=
  String.mk (((s.toList.dropWhile isJsSpace).reverse.dropWhile isJsSpace).reverse)

/-- Splits a character list at every occurrence of sep (the separators are
dropped, empty pieces kept), modeling String split with a one-char separator. -/
def splitChar (sep : Char) : List Char → List (List Char)
  | [] => [[]]
  | c :: t =>
    let rest := splitChar sep t
    if c == sep then [] :: rest
    else
      match rest with
      | [] => [[c]]
      | piece :: more => (c :: piece) :: more

/-- Splits a string on a one-character separator. -/
def splitStr (sep : Char) (s : String) : List String :=
  (splitChar sep s.toList).map String.mk

/-- Joins strings with a separator (Array join). -/
def joinWith (sep : String) : List String → String
  | [] => ""
  | [x] => x
  | x :: y :: t => x ++ sep ++ joinWith sep (y :: t)

/-- Whether needle occurs as a contiguous substring of hay
(JavaScript String includes). -/
def charsHaveSub : List Char → List Char → Bool
  | [], needle => needle.isEmpty
  | c :: t, needle => needle.isPrefixOf (c :: t) || charsHaveSub t needle

/-- JavaScript String includes on our model strings. -/
def strIncludes (hay sub : String) : Bool := charsHaveSub hay.toList sub.toList

/-! ### Brand/model allow-list filter (runOne.js normalizeFilterList,
matchesAllowedFilter; the comma split happens in the frontend App.jsx before
the list is posted to the scrape route) -/

/-- Models the App.jsx split of the filter input box:
input split on commas, each piece trimmed, empties dropped. -/
def splitBrandsInput (s : String) : List String :=
  ((splitStr ',' s).map jsTrim).filter (fun v => v ≠ "")

/-- Models normalizeFilterList: each allowed-brand entry is lowercased,
punctuation collapsed to spaces, split into tokens; empty token lists drop. -/
def normalizeFilterList (allowedBrands : Option (List String)) : List (List String) :=
  match allowedBrands with
  | none => []
  | some vs =>
    (vs.map (fun v =>
      ((splitChar ' ' (normalizeAlnumText v).toList).filter (fun w => !w.isEmpty)).map
        String.mk)).filter (fun tokens => !tokens.isEmpty)

/-- Models matchesAllowedFilter: OR across comma groups, AND across the tokens
inside one group, each token a substring test against the normalized
concatenation of link text, brand and model. -/
def matchesAllowedFilter (filters : List (List String)) (linkText brand model : String) : Bool :=
  if filters.isEmpty then true
  else
    let haystack := normalizeAlnumText (linkText ++ " " ++ brand ++ " " ++ model)
    filters.any (fun tokens => tokens.all (fun token => strIncludes haystack token))

/-! ### Identity resolver (runOne.js toBrandCase, extractBrandModel, generateId) -/

/-- Models the crypto md5 hex digest used by generateId: a deterministic digest
of the input characters. The claims depend only on the digest being a fixed
pure function of its input string, never on particular md5 values, so a 64-bit
fold stands in for the md5 compression function. -/
def hexDigest (s : String) : String :=
  let h := s.toList.foldl (fun h c => (h * 131 + c.toNat) % (2 ^ 64)) 5381
  String.mk (Nat.toDigits 16 h)

/-- Models generateId. -/
def generateId (text : String) : String := hexDigest text

/-- Models toBrandCase: tokens of length at most 3 upper-cased, longer tokens
title-cased. -/
def toBrandCase (value : String) : String :=
  let token := jsTrim value
  match token.toList with
  | [] => ""
  | c :: rest =>
    if token.length ≤ 3 then String.mk ((c :: rest).map Char.toUpper)
    else String.mk (Char.toUpper c :: rest.map Char.toLower)

/-- Models extractBrandModel: first whitespace-separated token becomes the
brand (case-normalized), the rest joins into the model. -/
def extractBrandModel (title : String) : String × String :=
  let cleaned := cleanWhitespace title
  if cleaned = "" then ("Unknown", "Unknown")
  else
    let parts := (splitStr ' ' cleaned).filter (fun w => w ≠ "")
    let brand := toBrandCase (parts.headD "")
    let model := jsTrim (joinWith " " (parts.drop 1))
    ((if brand = "" then "Unknown" else brand), (if model = "" then "Unknown" else model))

/-- The vehicle id derived in scrapeMotorcyclePage: generateId of brand-model. -/
def vehicleIdOf (brand model : String) : String := generateId (brand ++ "-" ++ model)

/-- Vehicle id computed from a link title, composing extractBrandModel
with the id derivation, exactly as scrapeMotorcyclePage does. -/
def vehicleIdFromTitle (title : String) : String :=
  vehicleIdOf (extractBrandModel title).1 (extractBrandModel title).2

/-- The part id derived in scrapeParts: generateId of the vehicle id, a hyphen
and the part number when present else the name. -/
def partIdOf (motorcycleId partNumber name : String) : String :=
  generateId (motorcycleId ++ "-" ++ (if partNumber = "" then name else partNumber))

/-- Case normalization as the spec words it for short tokens: the whole token
upper-cased. Stated separately from toBrandCase for comparison. -/
def specUpperCase (t : String) : String := String.mk (t.toList.map Char.toUpper)

/-- Case normalization as the spec words it for longer tokens: first character
upper-cased, the rest lower-cased. Stated separately from toBrandCase. -/
def specTitleCase (t : String) : String :=
  match t.toList with
  | [] => ""
  | c :: rest => String.mk (Char.toUpper c :: rest.map Char.toLower)

/-- Page-level filter test as scrapeCategoryList applies it: the haystack is
the link text plus the brand and model extracted from it. -/
def linkMatches (filters : List (List String)) (text : String) : Bool :=
  matchesAllowedFilter filters text (extractBrandModel text).1 (extractBrandModel text).2

/-! ### Asset synchronizer (imageDownloader.js: getLocalImagePathFromUrl,
downloadImage) -/

/-- First index at which needle occurs in hay (String indexOf). -/
def indexOfSub : List Char → List Char → Option Nat
  | [], needle => if needle.isEmpty then some 0 else none
  | c :: t, needle =>
    if needle.isPrefixOf (c :: t) then some 0
    else (indexOfSub t needle).map (· + 1)

/-- Models the pathname component of new URL for hierarchical absolute URLs
(scheme, then host up to the first slash, then the path up to any query or
fragment); none when the string is not such a URL, where new URL throws. -/
def pathnameOf (url : String) : Option String :=
  match indexOfSub url.toList "://".toList with
  | none => none
  | some i =>
    let afterScheme := url.toList.drop (i + 3)
    let host := afterScheme.takeWhile (fun c => !(c == '/' || c == '?' || c == '#'))
    if host.isEmpty then none
    else
      let rest := afterScheme.drop host.length
      match rest with
      | [] => some "/"
      | c :: _ =>
        if c == '/' then some (String.mk (rest.takeWhile (fun d => !(d == '?' || d == '#'))))
        else some "/"

/-- Value of a hexadecimal digit character, if it is one. -/
def hexVal (c : Char) : Option Nat :=
  if 48 ≤ c.toNat && c.toNat ≤ 57 then some (c.toNat - 48)
  else if 97 ≤ c.toNat && c.toNat ≤ 102 then some (c.toNat - 87)
  else if 65 ≤ c.toNat && c.toNat ≤ 70 then some (c.toNat - 55)
  else none

/-- Models decodeURIComponent on the characters of a path: percent escapes
decode to the escaped byte value, a malformed escape makes the whole decode
fail (decodeURIComponent throws, caught as a null path). -/
def decodePercentChars : List Char → Option (List Char)
  | [] => some []
  | '%' :: rest =>
    match rest with
    | h1 :: h2 :: t =>
      match hexVal h1, hexVal h2 with
      | some v1, some v2 => (decodePercentChars t).map (Char.ofNat (16 * v1 + v2) :: ·)
      | _, _ => none
    | _ => none
  | c :: t => (decodePercentChars t).map (c :: ·)

/-- Models getLocalImagePathFromUrl: take the URL pathname, decode it, map
backslashes to slashes, cut at the /images/ marker when present (else strip
leading slashes), drop empty and dot segments, rejoin; empty result is null. -/
def getLocalImagePathFromUrl (imageUrl : String) : Option String :=
  match pathnameOf imageUrl with
  | none => none
  | some pathname =>
    match decodePercentChars pathname.toList with
    | none => none
    | some decoded =>
      let normalized := decoded.map (fun c => if c == '\\' then '/' else c)
      let lowered := normalized.map Char.toLower
      let marker := "/images/".toList
      let relative :=
        match indexOfSub lowered marker with
        | some idx => normalized.drop (idx + marker.length)
        | none => normalized.dropWhile (· == '/')
      let safeRelative := joinWith "/"
        ((((splitChar '/' relative).filter (fun s => !s.isEmpty)).map String.mk).filter
          (fun seg => seg ≠ "." && seg ≠ ".."))
      if safeRelative = "" then none else some safeRelative

/-- Index of the last dot of a base name that is not its first character
(node path.parse extension split). -/
def lastExtDot (base : List Char) : Option Nat :=
  match indexOfSub base.reverse ['.'] with
  | none => none
  | some j =>
    let i := base.length - 1 - j
    if i = 0 then none else some i

/-- The backup location downloadImage copies a prior file to before
overwriting it: under _history, same directory, name suffixed with a
timestamp, same extension (node path.parse and path.join). -/
def backupRelOf (relative : String) (now : Nat) : String :=
  let segs := (splitChar '/' relative.toList).map String.mk
  let base := segs.getLastD ""
  let dir := joinWith "/" (segs.dropLast)
  let (name, ext) :=
    match lastExtDot base.toList with
    | none => (base, "")
    | some i => (String.mk (base.toList.take i), String.mk (base.toList.drop i))
  joinWith "/" ((if dir = "" then ["_history"] else ["_history", dir]) ++
    [name ++ "__" ++ toString now ++ ext])

/-- Outcome classification of one image synchronization. -/
inductive DlStatus where
  | skipped_unchanged
  | downloaded_new
  | downloaded_updated
deriving DecidableEq, Repr

/-- What the network holds for one remote image URL: the content-length the
HEAD probe reports (none when the probe fails or omits it), whether the body
GET succeeds, and the body bytes it returns. -/
structure RemoteImage where
  headSize : Option Nat
  getOk : Bool
  body : List Nat
deriving DecidableEq, Repr

/-- The remote side of a pass: none for a URL means both the probe and the
GET fail with a network error. -/
def RemoteEnv := String → Option RemoteImage

/-- Local image store: relative path to file bytes. -/
def Fs := List (String × List Nat)

instance : DecidableEq Fs := by unfold Fs; infer_instance

/-- File bytes at a path, if the file exists. -/
def fsRead (fs : Fs) (p : String) : Option (List Nat) :=
  (fs.find? (fun e => e.1 == p)).map (·.2)

/-- Writes (or overwrites) the file at a path. -/
def fsWrite (fs : Fs) (p : String) (b : List Nat) : Fs :=
  (p, b) :: fs.filter (fun e => !(e.1 == p))

/-- The value downloadImage resolves with when it succeeds. -/
structure DlResult where
  filepath : String
  size : Nat
  status : DlStatus
  previousFilepath : Option String := none
deriving DecidableEq, Repr

/-- Models downloadImage: derive the local path; probe local size and remote
content-length; equal known sizes skip the transfer; otherwise fetch the body,
a body whose length equals a known local size is again unchanged; otherwise
back up any prior file under a timestamped path and write the body, reporting
new (no prior file) or updated (prior file, backup path returned). Any thrown
error (underivable path, network failure) is caught and yields null. -/
def downloadImage (now : Nat) (remote : RemoteEnv) (fs : Fs) (imageUrl : String) :
    Option DlResult × Fs :=
  match getLocalImagePathFromUrl imageUrl with
  | none => (none, fs)
  | some rel =>
    let localSize := (fsRead fs rel).map List.length
    let remoteSize : Option Nat :=
      match remote imageUrl with
      | none => none
      | some r => r.headSize
    let display := "images/" ++ rel
    if localSize.isSome && remoteSize.isSome && localSize == remoteSize then
      (some { filepath := display, size := localSize.getD 0,
              status := .skipped_unchanged }, fs)
    else
      match remote imageUrl with
      | none => (none, fs)
      | some r =>
        if !r.getOk then (none, fs)
        else if localSize == some r.body.length then
          (some { filepath := display, size := localSize.getD 0,
                  status := .skipped_unchanged }, fs)
        else
          match fsRead fs rel with
          | some oldBytes =>
            let backupRel := backupRelOf rel now
            let fs1 := fsWrite (fsWrite fs backupRel oldBytes) rel r.body
            (some { filepath := display, size := r.body.length,
                    status := .downloaded_updated,
                    previousFilepath := some ("images/" ++ backupRel) }, fs1)
          | none =>
            (some { filepath := display, size := r.body.length,
                    status := .downloaded_new }, fsWrite fs rel r.body)

/-! ### Persistence model (database.js table schemas; the scrapeParts part
loop and markDeletedParts in runOne.js) -/

instance : Repr Fs := by unfold Fs; infer_instance

/-- Event kinds of the parts_history log. -/
inductive HistEvent where
  | updated
  | deleted
  | restored
deriving DecidableEq, Repr

/-- A row of the parts table. part_number and url are NOT NULL columns, so
they are plain strings; description, price, currency, image_url, image_path,
last_seen and deleted_at are nullable. Prices are in cents (the REAL values
all come from the two-decimal price parser, on which numeric equality agrees
with equality of cents). -/
structure PartRow where
  id : String
  motorcycleId : String
  name : String
  partNumber : String
  description : Option String
  price : Option Nat
  currency : Option String
  imageUrl : Option String
  imagePath : Option String
  url : String
  scrapedAt : Nat
  lastSeen : Option Nat
  isDeleted : Nat
  deletedAt : Option Nat
deriving DecidableEq, Repr

/-- A row of the parts_history table. The url column is NOT NULL: inserting
NULL there fails, which matters to markDeletedParts. -/
structure HistRow where
  id : String
  partId : String
  motorcycleId : String
  name : String
  partNumber : String
  description : Option String
  price : Option Nat
  currency : Option String
  imageUrl : Option String
  imagePath : Option String
  url : Option String
  historyEvent : HistEvent
  isDeleted : Nat
  deletedAt : Option Nat
  recordedAt : Nat
deriving DecidableEq, Repr

/-- A row of the part_images table (unique on part_id plus image_url,
autoincrement id, sort_order is the discovery index). -/
structure ImgRow where
  id : Nat
  partId : String
  imageUrl : String
  imagePath : Option String
  sortOrder : Nat
deriving DecidableEq, Repr

/-- Database plus filesystem state threaded through a crawl pass. nextUuid
models crypto.randomUUID: each draw is fresh, so modeled history ids never
collide and the parts_history primary key never conflicts. -/
structure St where
  parts : List PartRow
  history : List HistRow
  partImages : List ImgRow
  nextImageRowId : Nat
  nextUuid : Nat
  fs : Fs
deriving DecidableEq, Repr

/-- One freshly extracted part record as scrapeParts builds it: imageUrl is
the resolved primary reference (null when none was found), imageUrls the
ordered candidate set. -/
structure ExtractedPart where
  name : String
  partNumber : String
  description : String
  price : Nat
  currency : String
  imageUrl : Option String
  imageUrls : List String
deriving DecidableEq, Repr

/-- JavaScript truthiness of a nullable string: non-null and non-empty. -/
def optStrTruthy (o : Option String) : Bool := !(o.getD "" == "")

/-- Order-preserving deduplication, as spreading a Set built from a list. -/
def jsSetDedup (xs : List String) : List String :=
  xs.foldl (fun acc x => if acc.contains x then acc else acc ++ [x]) []

/-- Run-wide inputs of one pass: the remote image environment, the wall clock
for backup names, the scrape timestamp and the image download flag. -/
structure PassCtx where
  remote : RemoteEnv
  now : Nat
  ts : Nat
  downloadImages : Bool

/-- One per-image outcome reported by syncPartImages to the change tracker. -/
structure ImgResult where
  url : String
  path : String
  size : Option Nat
  status : DlStatus
  previousPath : Option String
deriving DecidableEq, Repr

/-- One iteration of the syncPartImages loop: optionally download, INSERT OR
IGNORE the part_images row, update its local path when known, and report the
outcome when a download produced a path. -/
def syncOneImage (ctx : PassCtx) (partId : String) (acc : St × List ImgResult)
    (idxUrl : Nat × String) : St × List ImgResult :=
  let st := acc.1
  let results := acc.2
  let url := idxUrl.2
  let dlFs := if ctx.downloadImages then downloadImage ctx.now ctx.remote st.fs url
              else (none, st.fs)
  let dl := dlFs.1
  let imagePath : Option String :=
    match dl with
    | some r => if r.filepath == "" then none else some r.filepath
    | none => none
  let st1 := { st with fs := dlFs.2 }
  let newRow : ImgRow :=
    { id := st1.nextImageRowId, partId := partId, imageUrl := url,
      imagePath := imagePath, sortOrder := idxUrl.1 }
  let st2 :=
    if st1.partImages.any (fun pi => pi.partId == partId && pi.imageUrl == url) then st1
    else { st1 with partImages := st1.partImages ++ [newRow],
                    nextImageRowId := st1.nextImageRowId + 1 }
  let st3 :=
    match imagePath with
    | some p => { st2 with partImages := st2.partImages.map (fun pi =>
        if pi.partId == partId && pi.imageUrl == url then { pi with imagePath := some p }
        else pi) }
    | none => st2
  let results1 :=
    match dl, imagePath with
    | some r, some p =>
      let item : ImgResult :=
        { url := url, path := p, size := some r.size, status := r.status,
          previousPath :=
            match r.previousFilepath with
            | some b => if b == "" then none else some b
            | none => none }
      results ++ [item]
    | _, _ => results
  (st3, results1)

/-- Models syncPartImages: deduplicate the non-empty URLs, then process each
in discovery order. -/
def syncPartImages (ctx : PassCtx) (st : St) (partId : String)
    (imageUrls : List String) : St × List ImgResult :=
  let uniqueUrls := jsSetDedup (imageUrls.filter (fun u => u ≠ ""))
  uniqueUrls.enum.foldl (syncOneImage ctx partId) (st, [])

/-- The stored-row lookup for a freshly extracted part: by vehicle and part
number when the part number is truthy, else by vehicle and name. -/
def findExisting (parts : List PartRow) (mid : String) (p : ExtractedPart) :
    Option PartRow :=
  if p.partNumber ≠ "" then
    parts.find? (fun r => r.motorcycleId == mid && r.partNumber == p.partNumber)
  else
    parts.find? (fun r => r.motorcycleId == mid && r.name == p.name)

/-- The INSERT INTO parts of a new part. part_number is passed as
part.partNumber or null, and the schema declares part_number NOT NULL, so the
insert fails when the extracted part number is empty; it also fails when the
id collides with an existing primary key. Unnamed columns take their schema
defaults (is_deleted 0, last_seen and deleted_at NULL). -/
def insertPartRow (st : St) (mid partId : String) (p : ExtractedPart)
    (pageUrl : String) (ts : Nat) : Option St :=
  if p.partNumber == "" then none
  else if st.parts.any (fun r => r.id == partId) then none
  else
    let row : PartRow :=
      { id := partId, motorcycleId := mid, name := p.name, partNumber := p.partNumber,
        description := some p.description, price := some p.price,
        currency := some p.currency,
        imageUrl := if optStrTruthy p.imageUrl then p.imageUrl else none,
        imagePath := none, url := pageUrl, scrapedAt := ts,
        lastSeen := none, isDeleted := 0, deletedAt := none }
    some { st with parts := st.parts ++ [row] }

/-- Stable insertion into a list sorted by le. -/
def insertSorted (le : α → α → Bool) (x : α) : List α → List α
  | [] => [x]
  | y :: t => if le x y then x :: y :: t else y :: insertSorted le x t

/-- Sorts by le (insertion sort; the keys used here are distinct, so any
sort agrees with SQLite's ORDER BY). -/
def sortByLe (le : α → α → Bool) (xs : List α) : List α :=
  xs.foldr (insertSorted le) []

/-- part_images ordering used by the ORDER BY sort_order ASC, id ASC
subquery. -/
def imgRowLe (a b : ImgRow) : Bool :=
  Nat.blt a.sortOrder b.sortOrder || (a.sortOrder == b.sortOrder && Nat.ble a.id b.id)

/-- The scalar subquery of the closing UPDATE: the first part_images row of
this part whose image_url equals the live row's image_url and whose
image_path is set, by sort_order then id. A NULL live image_url matches no
asset row (SQL NULL equality). -/
def primaryImagePathFromAssets (st : St) (row : PartRow) : Option String :=
  match row.imageUrl with
  | none => none
  | some u =>
    match sortByLe imgRowLe (st.partImages.filter (fun pi =>
        pi.partId == row.id && pi.imageUrl == u && pi.imagePath.isSome)) with
    | [] => none
    | pi :: _ => pi.imagePath

/-- The closing UPDATE run for every processed part, new or existing: adopt
the locally stored asset path for the primary image when the asset table has
one, stamp last_seen, clear is_deleted and deleted_at. -/
def applyFinalUpdate (st : St) (id : String) (ts : Nat) : St :=
  { st with parts := st.parts.map (fun r =>
      if r.id == id then
        { r with
          imagePath :=
            match primaryImagePathFromAssets st r with
            | some p => some p
            | none => r.imagePath,
          lastSeen := some ts, isDeleted := 0, deletedAt := none }
      else r) }

/-- The existing-part arm of the scrapeParts loop: field diffs, image sync,
image-content-change and prior-soft-deletion detection; on any of them, an
archival parts_history insert (restored when previously deleted, else
updated, with the backed-up previous asset path when the changed image is the
primary one) followed by the live-row update; in all cases the closing
UPDATE. -/
def processExisting (ctx : PassCtx) (pageUrl : String) (st : St)
    (p : ExtractedPart) (existing : PartRow) : St :=
  let changesPrice := !((existing.price.getD 0) == p.price)
  let changesName := !(existing.name == p.name)
  let changesDesc := !((existing.description.getD "") == p.description)
  let changesImage := !((existing.imageUrl.getD "") == (p.imageUrl.getD ""))
  let anyFieldChange := changesPrice || changesName || changesDesc || changesImage
  let sync := syncPartImages ctx st existing.id p.imageUrls
  let st1 := sync.1
  let imageResults := sync.2
  let imageContentChanged := imageResults.any (fun img => img.status == .downloaded_updated)
  let statusChanged := !(existing.isDeleted == 0)
  let st2 :=
    if anyFieldChange || imageContentChanged || statusChanged then
      let primaryImageBackup := imageResults.find? (fun img =>
        img.status == .downloaded_updated && optStrTruthy img.previousPath &&
        ((optStrTruthy existing.imageUrl && img.url == existing.imageUrl.getD "") ||
         (optStrTruthy existing.imagePath && img.path == existing.imagePath.getD "")))
      let historyImagePath :=
        match primaryImageBackup with
        | some img => if optStrTruthy img.previousPath then img.previousPath
                      else existing.imagePath
        | none => existing.imagePath
      let hist : HistRow :=
        { id := generateId (existing.id ++ "-" ++ "uuid:" ++ toString st1.nextUuid),
          partId := existing.id, motorcycleId := existing.motorcycleId,
          name := existing.name, partNumber := existing.partNumber,
          description := existing.description, price := existing.price,
          currency := existing.currency, imageUrl := existing.imageUrl,
          imagePath := historyImagePath, url := some existing.url,
          historyEvent := if statusChanged then .restored else .updated,
          isDeleted := existing.isDeleted, deletedAt := existing.deletedAt,
          recordedAt := ctx.ts }
      let st2a := { st1 with history := st1.history ++ [hist],
                             nextUuid := st1.nextUuid + 1 }
      let newImageUrl := if optStrTruthy p.imageUrl then p.imageUrl else existing.imageUrl
      { st2a with parts := st2a.parts.map (fun r =>
          if r.id == existing.id then
            { r with name := p.name, description := some p.description,
                     price := some p.price, currency := some p.currency,
                     imageUrl := newImageUrl, imagePath := existing.imagePath,
                     url := pageUrl, scrapedAt := ctx.ts }
          else r) }
    else st1
  applyFinalUpdate st2 existing.id ctx.ts

/-- One iteration of the scrapeParts part loop: look the part up; a miss
attempts the insert (errors swallowed, images only synced after a successful
insert) and a hit runs the compare-archive-update arm. -/
def processPart (ctx : PassCtx) (mid pageUrl : String) (st : St)
    (p : ExtractedPart) : St :=
  let partId := partIdOf mid p.partNumber p.name
  match findExisting st.parts mid p with
  | none =>
    match insertPartRow st mid partId p pageUrl ctx.ts with
    | none => st
    | some st1 =>
      let sync := syncPartImages ctx st1 partId p.imageUrls
      applyFinalUpdate sync.1 partId ctx.ts
  | some existing => processExisting ctx pageUrl st p existing

/-- The deduplication key of an extracted part: part number when truthy,
else name. -/
def partKey (p : ExtractedPart) : String :=
  if p.partNumber == "" then p.name else p.partNumber

/-- One step of the uniquePartsMap fold: first occurrence of a key is kept
(with its image set deduplicated); later occurrences merge their image
candidates and may fill in a missing primary image. -/
def mergeIntoMap (m : List (String × ExtractedPart)) (p : ExtractedPart) :
    List (String × ExtractedPart) :=
  let key := partKey p
  if (m.find? (fun kv => kv.1 == key)).isSome then
    m.map (fun kv =>
      if kv.1 == key then
        let cur := kv.2
        (key, { cur with
          imageUrls := jsSetDedup (cur.imageUrls ++ p.imageUrls ++
            (match p.imageUrl with
             | some u => if u == "" then [] else [u]
             | none => [])),
          imageUrl := if !(optStrTruthy cur.imageUrl) && optStrTruthy p.imageUrl
                      then p.imageUrl else cur.imageUrl })
      else kv)
  else m ++ [(key, { p with imageUrls := jsSetDedup p.imageUrls })]

/-- Models the duplicate removal of scrapeParts (Map insertion order). -/
def dedupParts (ps : List ExtractedPart) : List ExtractedPart :=
  (ps.foldl mergeIntoMap []).map (·.2)

/-- The seenPartIds list handed to tombstone reconciliation: every deduped
part contributes its derived id, whether or not it was persisted. -/
def seenIdsOf (mid : String) (ps : List ExtractedPart) : List String :=
  (dedupParts ps).map (fun p => partIdOf mid p.partNumber p.name)

/-- The full part loop of scrapeParts over the deduplicated records. -/
def processParts (ctx : PassCtx) (mid pageUrl : String) (st : St)
    (ps : List ExtractedPart) : St :=
  (dedupParts ps).foldl (processPart ctx mid pageUrl) st

/-- Binary (byte-wise) string order, as SQLite ORDER BY on text. -/
def charsLe : List Char → List Char → Bool
  | [], _ => true
  | _ :: _, [] => false
  | a :: s, b :: t =>
    if a.toNat < b.toNat then true
    else if b.toNat < a.toNat then false
    else charsLe s t

/-- ORDER BY name ASC, id ASC over parts rows. -/
def delRowLe (a b : PartRow) : Bool :=
  if a.name == b.name then charsLe a.id.toList b.id.toList
  else charsLe a.name.toList b.name.toList

/-- The pre-deletion snapshot markDeletedParts archives for one vanished row
(null-coalescing of description, currency, image fields as in the parameter
list of its INSERT). -/
def deletedSnapshotOf (mid : String) (ts uuid : Nat) (row : PartRow) : HistRow :=
  { id := generateId (row.id ++ "-deleted-" ++ "uuid:" ++ toString uuid),
    partId := row.id, motorcycleId := mid,
    name := row.name, partNumber := row.partNumber,
    description := some (row.description.getD ""),
    price := row.price,
    currency := some (if (row.currency.getD "") == "" then "EUR"
                      else row.currency.getD ""),
    imageUrl := if optStrTruthy row.imageUrl then row.imageUrl else none,
    imagePath := if optStrTruthy row.imagePath then row.imagePath else none,
    url := some row.url,
    historyEvent := .deleted, isDeleted := row.isDeleted,
    deletedAt := row.deletedAt, recordedAt := ts }

/-- The history-archival loop of markDeletedParts. Each vanished row is
archived as a deleted event; a row whose stored url is the empty string turns
into a NULL url parameter, violates the parts_history url NOT NULL constraint
and aborts the loop (the exception propagates, skipping the soft-delete
UPDATE). Returns the state so far and whether the loop completed. -/
def insertDeletedHist (ts : Nat) (mid : String) : St → List PartRow → St × Bool
  | st, [] => (st, true)
  | st, row :: rest =>
    if row.url == "" then (st, false)
    else
      insertDeletedHist ts mid
        { st with history := st.history ++ [deletedSnapshotOf mid ts st.nextUuid row],
                  nextUuid := st.nextUuid + 1 } rest

/-- Models markDeletedParts: select the vehicle's rows that were not seen in
this pass and are not already soft-deleted (the two SQL variants, with and
without a NOT IN list, select the same rows because NOT IN over no ids
excludes nothing), archive each as a deleted history event in name-then-id
order, then flip exactly those rows to is_deleted 1 with deleted_at set. -/
def markDeletedParts (mid : String) (seen : List String) (ts : Nat) (st : St) : St :=
  let deletedRows := sortByLe delRowLe (st.parts.filter (fun r =>
    r.motorcycleId == mid && !(seen.contains r.id) && r.isDeleted == 0))
  if deletedRows.isEmpty then st
  else
    let ins := insertDeletedHist ts mid st deletedRows
    if ins.2 then
      { ins.1 with parts := ins.1.parts.map (fun r =>
          if r.motorcycleId == mid && !(seen.contains r.id) && r.isDeleted == 0
          then { r with isDeleted := 1, deletedAt := some ts }
          else r) }
    else ins.1

/-- One full processing of a model page against extracted records: the part
loop followed by tombstone reconciliation, as scrapeMotorcyclePage runs them. -/
def runPass (ctx : PassCtx) (mid pageUrl : String) (ps : List ExtractedPart)
    (st : St) : St :=
  markDeletedParts mid (seenIdsOf mid ps) ctx.ts (processParts ctx mid pageUrl st ps)

/-! ### Record extractor (the table scan of scrapeParts in runOne.js,
lines 283-408): rows are modeled as their cell texts plus their images,
an image being a src attribute, the enclosing link target (empty when none)
and an alt text. -/

/-- One img element of a row: its src, its parent link target (empty string
when the img has no enclosing link) and its alt attribute. -/
structure RowImg where
  src : String
  parentHref : String
  alt : String
deriving DecidableEq, Repr

/-- One table row: its td cell texts (raw, before cleanup) and its images. -/
structure TRow where
  cells : List String
  imgs : List RowImg
deriving DecidableEq, Repr

/-- String startsWith on the model strings. -/
def strStartsWith (s pre : String) : Bool := pre.toList.isPrefixOf s.toList

/-- An ASCII digit. -/
def isDigitCh (c : Char) : Bool := 48 ≤ c.toNat && c.toNat ≤ 57

/-- Numeric value of a digit run. -/
def digitsVal (ds : List Char) : Nat :=
  ds.foldl (fun n c => n * 10 + (c.toNat - 48)) 0

/-- Whether EUR follows after optional whitespace: the closing part of the
price pattern. -/
def eurTail (cs : List Char) : Bool :=
  "EUR".toList.isPrefixOf (cs.dropWhile isJsSpace)

/-- The price match attempted at a position starting with digits: the
candidate fractional parts in the greedy order of the optional
comma-or-dot-plus-one-or-two-digits group, each followed by the EUR tail
check; the value is in cents. -/
def priceAt (ds : List Char) (rest : List Char) : Option Nat :=
  let whole := digitsVal ds * 100
  match rest with
  | sep :: d1 :: d2 :: r2 =>
    if (sep == ',' || sep == '.') && isDigitCh d1 && isDigitCh d2 then
      if eurTail r2 then some (whole + digitsVal [d1, d2])
      else if eurTail (d2 :: r2) then some (whole + digitsVal [d1] * 10)
      else if eurTail rest then some whole
      else none
    else if (sep == ',' || sep == '.') && isDigitCh d1 then
      if eurTail (d2 :: r2) then some (whole + digitsVal [d1] * 10)
      else if eurTail rest then some whole
      else none
    else if eurTail rest then some whole
    else none
  | sep :: d1 :: r2 =>
    if (sep == ',' || sep == '.') && isDigitCh d1 then
      if eurTail r2 then some (whole + digitsVal [d1] * 10)
      else if eurTail rest then some whole
      else none
    else if eurTail rest then some whole
    else none
  | _ => if eurTail rest then some whole else none

/-- Leftmost match of the number-then-EUR price pattern over a row text, in
cents: the regex for a number with an optional one-or-two-digit decimal part
(decimal comma or point), optional whitespace, then EUR. -/
def priceMatchChars : List Char → Option Nat
  | [] => none
  | c :: rest =>
    if isDigitCh c then
      let ds := (c :: rest).takeWhile isDigitCh
      let r0 := (c :: rest).dropWhile isDigitCh
      match priceAt ds r0 with
      | some v => some v
      | none => priceMatchChars rest
    else priceMatchChars rest

/-- A character of the part-number capture class: letters, digits, dot,
underscore, hyphen (the regex class, case-insensitive). -/
def isPnChar (c : Char) : Bool :=
  (65 ≤ c.toNat && c.toNat ≤ 90) || (97 ≤ c.toNat && c.toNat ≤ 122) ||
  (48 ≤ c.toNat && c.toNat ≤ 57) || c == '.' || c == '_' || c == '-'

/-- Leftmost match of the OSANRO-then-value pattern over a row text: OSANRO
(case-insensitive), optional whitespace, an optional colon or hyphen, optional
whitespace, then a maximal run of part-number characters. -/
def pnMatchChars : List Char → Option String
  | [] => none
  | c :: rest =>
    if "osanro".toList.isPrefixOf ((c :: rest).map Char.toLower) then
      let after := (c :: rest).drop 6
      let a1 := after.dropWhile isJsSpace
      let a2 :=
        match a1 with
        | d :: t => if d == ':' || d == '-' then t else a1
        | [] => a1
      let a3 := a2.dropWhile isJsSpace
      let ds := a3.takeWhile isPnChar
      if ds.isEmpty then pnMatchChars rest else some (String.mk ds)
    else pnMatchChars rest

/-- Leftmost match of RS followed by digits (the alt-text part-number
fallback, case-sensitive). -/
def rsMatchChars : List Char → Option String
  | [] => none
  | c :: rest =>
    match rest with
    | d :: t =>
      if c == 'R' && d == 'S' && (t.headD ' ' |> isDigitCh) then
        some (String.mk ('R' :: 'S' :: t.takeWhile isDigitCh))
      else rsMatchChars rest
    | [] => none

/-- Origin (scheme plus host) and pathname-with-rest of a hierarchical
absolute URL, for relative reference resolution. -/
def urlOriginPath (url : String) : Option (String × String) :=
  match indexOfSub url.toList "://".toList with
  | none => none
  | some i =>
    let afterScheme := url.toList.drop (i + 3)
    let host := afterScheme.takeWhile (fun c => !(c == '/' || c == '?' || c == '#'))
    if host.isEmpty then none
    else
      let origin := String.mk (url.toList.take (i + 3 + host.length))
      let path := String.mk ((afterScheme.drop host.length).takeWhile
        (fun d => !(d == '?' || d == '#')))
      some (origin, if path = "" then "/" else path)

/-- The directory part of a pathname: everything up to and including the last
slash. -/
def dirOfPath (path : String) : String :=
  let cs := path.toList
  String.mk (cs.take (cs.length - (cs.reverse.takeWhile (fun c => !(c == '/'))).length))

/-- Models resolveUrl: absolute URLs pass through, protocol-relative URLs get
the https scheme, other references resolve against the base URL (modeled for
hierarchical bases, without dot-segment renormalization), and when the base
does not parse the site root is prefixed with one leading slash stripped.
Null for an empty source, as in the code. -/
def resolveUrl (src : String) (base : String) : Option String :=
  if src = "" then none
  else if strStartsWith src "http" then some src
  else if strStartsWith src "//" then some ("https:" ++ src)
  else
    match urlOriginPath base with
    | some op =>
      if strStartsWith src "/" then some (op.1 ++ src)
      else some (op.1 ++ dirOfPath op.2 ++ src)
    | none =>
      some ("https://www.purkuosat.net/" ++
        (if strStartsWith src "/" then String.mk (src.toList.drop 1) else src))

/-- Whether a row (with cells) contains the exact OSA label that stops the
field scan of a block (the case-insensitive whole-cell test). -/
def rowStopsBlock (row : TRow) : Bool :=
  !row.cells.isEmpty && (row.cells.map cleanWhitespace).any (fun t => jsUpper t == "OSA")

/-- Whether a row starts a part block in the outer scan: some cleaned cell is
exactly OSA or starts with OSA after upper-casing. Rows without cells are
skipped. -/
def rowStartsBlock (row : TRow) : Bool :=
  !row.cells.isEmpty &&
  (row.cells.map cleanWhitespace).any (fun t =>
    jsUpper t == "OSA" || strStartsWith (jsUpper t) "OSA")

/-- Collects the rows of one block after its marker row, up to but excluding
the next row holding an exact OSA cell; the remainder starts at that row.
Rows without cells stay in the block (the field scan skips them, the image
fallback still sees them). -/
def collectBlock : List TRow → List TRow × List TRow
  | [] => ([], [])
  | r :: t =>
    if rowStopsBlock r then ([], r :: t)
    else
      let rec2 := collectBlock t
      (r :: rec2.1, rec2.2)

theorem collectBlock_rest_length : ∀ t : List TRow, (collectBlock t).2.length ≤ t.length := by
  intro t
  induction t with
  | nil => simp [collectBlock]
  | cons r t ih =>
    unfold collectBlock
    split
    · simp
    · dsimp only
      exact Nat.le_trans ih (Nat.le_succ _)

/-- The outer table scan, fueled for structural recursion: every row starting
a block yields the pair of its marker row and the collected block rows; the
scan resumes at the stopping row, as the loop index jump in the code does.
The fuel never runs out when it starts at the row count, because the
remainder returned by collectBlock is never longer than its input. -/
def findBlocksInAux : Nat → List TRow → List (TRow × List TRow)
  | 0, _ => []
  | _, [] => []
  | fuel + 1, r :: t =>
    if rowStartsBlock r then
      (r, (collectBlock t).1) :: findBlocksInAux fuel (collectBlock t).2
    else findBlocksInAux fuel t

/-- The outer table scan with sufficient fuel. -/
def findBlocksIn (rows : List TRow) : List (TRow × List TRow) :=
  findBlocksInAux rows.length rows

/-- The part name of a marker row: the last non-empty cell text that is not a
run of dashes. -/
def blockName (markerRow : TRow) : String :=
  (((markerRow.cells.map cleanWhitespace).reverse).find? (fun t =>
    t ≠ "" && !(t.toList.all (fun c => c == '-')))).getD ""

/-- One field-scan step over a block row with cells: fill the part number
from an OSANRO row (direct second cell preferred, else the pattern match,
rejecting the literal 0), the description from a LISÄTIEDOT row, and let any
row whose text matches the price pattern overwrite the price. -/
def blockFieldStep (acc : String × String × Nat) (row : TRow) : String × String × Nat :=
  if row.cells.isEmpty then acc
  else
    let ctexts := row.cells.map cleanWhitespace
    let label := jsUpper (ctexts.headD "")
    let rowText := jsTrim (joinWith " " ctexts)
    let pn :=
      if acc.1 == "" && strIncludes label "OSANRO" then
        let direct := ctexts.getD 1 ""
        if direct ≠ "" then direct
        else
          match pnMatchChars rowText.toList with
          | some m => if m == "0" then "" else m
          | none => ""
      else acc.1
    let desc :=
      if acc.2.1 == "" && (strIncludes label "LISÄTIEDOT" || strIncludes label "LISATIEDOT")
      then
        let direct := ctexts.getD 1 ""
        if direct ≠ "" then direct else cleanWhitespace (joinWith " " (ctexts.drop 1))
      else acc.2.1
    let price :=
      match priceMatchChars (joinWith " " ctexts).toList with
      | some v => v
      | none => acc.2.2
    (pn, desc, price)

/-- The part number, description and price (cents) scanned from the rows of
one block. -/
def blockFields (blockRows : List TRow) : String × String × Nat :=
  blockRows.foldl blockFieldStep ("", "", 0)

/-- Image discovery for a kept block: first any image in the whole table
(link target preferred over src, all resolved candidates collected in
order, the first one primary), else images of the marker row itself, else the
first image-bearing row inside the block; the raw primary reference is
resolved at the end. Returns the resolved primary (null when none) and the
candidate list. -/
def blockImages (pageUrl : String) (table : List TRow) (markerRow : TRow)
    (blockRows : List TRow) : Option String × List String × String :=
  let tableImgs := table.flatMap (fun r => r.imgs)
  let cands0 := tableImgs.foldl (fun acc img =>
    (acc ++ (if img.parentHref ≠ "" then [(resolveUrl img.parentHref pageUrl).getD ""] else [])
         ++ (if img.src ≠ "" then [(resolveUrl img.src pageUrl).getD ""] else []))) []
  let alt0 := ((tableImgs.headD { src := "", parentHref := "", alt := "" }).alt)
  let alt0 := if tableImgs.isEmpty then "" else alt0
  let primary0 := (jsSetDedup cands0).headD ""
  if primary0 ≠ "" then
    (resolveUrl primary0 pageUrl, jsSetDedup cands0, alt0)
  else
    let rowImgs := markerRow.imgs
    if !rowImgs.isEmpty then
      let img0 := rowImgs.headD { src := "", parentHref := "", alt := "" }
      let raw := if img0.parentHref ≠ "" then img0.parentHref else img0.src
      let cands1 := cands0
         ++ (if img0.parentHref ≠ "" then [(resolveUrl img0.parentHref pageUrl).getD ""] else [])
         ++ (if img0.src ≠ "" then [(resolveUrl img0.src pageUrl).getD ""] else [])
      if raw ≠ "" then (resolveUrl raw pageUrl, jsSetDedup cands1, img0.alt)
      else
        match blockRows.find? (fun r => !r.imgs.isEmpty) with
        | some r2 =>
          let img2 := r2.imgs.headD { src := "", parentHref := "", alt := "" }
          let raw2 := if img2.parentHref ≠ "" then img2.parentHref else img2.src
          let cands2 := cands1
             ++ (if img2.parentHref ≠ "" then [(resolveUrl img2.parentHref pageUrl).getD ""] else [])
             ++ (if img2.src ≠ "" then [(resolveUrl img2.src pageUrl).getD ""] else [])
          (if raw2 ≠ "" then resolveUrl raw2 pageUrl else none, jsSetDedup cands2, img2.alt)
        | none => (none, jsSetDedup cands1, img0.alt)
    else
      match blockRows.find? (fun r => !r.imgs.isEmpty) with
      | some r2 =>
        let img2 := r2.imgs.headD { src := "", parentHref := "", alt := "" }
        let raw2 := if img2.parentHref ≠ "" then img2.parentHref else img2.src
        let cands2 := cands0
           ++ (if img2.parentHref ≠ "" then [(resolveUrl img2.parentHref pageUrl).getD ""] else [])
           ++ (if img2.src ≠ "" then [(resolveUrl img2.src pageUrl).getD ""] else [])
        (if raw2 ≠ "" then resolveUrl raw2 pageUrl else none, jsSetDedup cands2, img2.alt)
      | none => (none, jsSetDedup cands0, alt0)

/-- The record assembled for a kept block (the body of the push in the code:
trimmed name and description, part-number fallback from the alt text, EUR
currency, resolved primary image and the candidate list). -/
def blockRecord (pageUrl : String) (table : List TRow) (markerRow : TRow)
    (blockRows : List TRow) : ExtractedPart :=
  let fields := blockFields blockRows
  let imgs := blockImages pageUrl table markerRow blockRows
  { name := jsTrim (blockName markerRow),
    partNumber := if fields.1 ≠ "" then fields.1
                  else (rsMatchChars imgs.2.2.toList).getD "",
    description := jsTrim fields.2.1,
    price := fields.2.2,
    currency := "EUR",
    imageUrl := imgs.1,
    imageUrls := imgs.2.1 }

/-- One table's extraction: each detected block passes through the keep
guard — non-empty name and strictly positive price — and the kept ones
produce records; the scan is a total function, failed candidates are simply
dropped (no error raised, nothing logged as an error). -/
def extractTableParts (pageUrl : String) (table : List TRow) : List ExtractedPart :=
  (findBlocksIn table).filterMap (fun b =>
    if blockName b.1 ≠ "" ∧ 0 < (blockFields b.2).2.2
    then some (blockRecord pageUrl table b.1 b.2)
    else none)

/-- Whole-page extraction before deduplication: all tables in order. -/
def extractParts (pageUrl : String) (tables : List (List TRow)) : List ExtractedPart :=
  tables.flatMap (extractTableParts pageUrl)

/-! ### Theorems -/

/-- C7: the brand/model allow-list filter is comma-separated groups of
space-separated required substring tokens, AND within a group, OR across
groups, case- and punctuation-insensitive; the filter aprilia 125,cagiva
matches the page titled Aprilia RS 125 parts and the page titled Cagiva Mito
but not Honda CBR, and an absent or empty filter matches every page. -/
theorem c7_filter_matching :
    (∀ text brand model, matchesAllowedFilter (normalizeFilterList none) text brand model = true)
    ∧ (∀ text brand model,
        matchesAllowedFilter (normalizeFilterList (some [])) text brand model = true)
    ∧ linkMatches (normalizeFilterList (some (splitBrandsInput "aprilia 125,cagiva")))
        "Aprilia RS 125 parts" = true
    ∧ linkMatches (normalizeFilterList (some (splitBrandsInput "aprilia 125,cagiva")))
        "Cagiva Mito" = true
    ∧ linkMatches (normalizeFilterList (some (splitBrandsInput "aprilia 125,cagiva")))
        "Honda CBR" = false := by
  refine ⟨fun _ _ _ => rfl, fun _ _ _ => rfl, by decide, by decide, by decide⟩

/-- C6: the vehicle id is the deterministic digest of brand-model with the
brand token case-normalized (tokens of length at most three upper-cased,
longer tokens title-cased), the part id is the deterministic digest of the
vehicle id, a hyphen and the part number when present else the name, and the
digest is a pure function of that input, so equal inputs give equal ids on
any two runs. -/
theorem c6_identity :
    (∀ title, vehicleIdFromTitle title =
        generateId ((extractBrandModel title).1 ++ "-" ++ (extractBrandModel title).2))
    ∧ (∀ value, toBrandCase value =
        (if (jsTrim value).length ≤ 3 then specUpperCase (jsTrim value)
         else specTitleCase (jsTrim value)))
    ∧ (∀ mid pn name, partIdOf mid pn name =
        generateId (mid ++ "-" ++ (if pn = "" then name else pn)))
    ∧ (∀ s t : String, s = t → generateId s = generateId t) := by
  refine ⟨fun _ => rfl, ?_, fun _ _ _ => rfl, fun s t h => by rw [h]⟩
  intro value
  unfold toBrandCase specUpperCase specTitleCase
  cases h : (jsTrim value).data with
  | nil =>
    have hempty : jsTrim value = "" := by
      cases hv : jsTrim value with
      | mk data =>
        rw [hv] at h
        have h2 : data = [] := h
        rw [h2]
    simp [String.toList, h, hempty]
  | cons c rest =>
    by_cases hlen : (jsTrim value).length ≤ 3
    · simp [String.toList, h, hlen]
    · simp [String.toList, h, hlen]

/-- C6 witness: the theorem applied at a concrete input, discharging the
equal-inputs hypothesis of the determinism clause. -/
theorem c6_identity_witness :
    generateId "Aprilia-RS 125" = generateId "Aprilia-RS 125" ∧
    partIdOf "veh" "12345" "Tank" = generateId ("veh" ++ "-" ++ "12345") := by
  constructor
  · exact c6_identity.2.2.2 "Aprilia-RS 125" "Aprilia-RS 125" rfl
  · have h := c6_identity.2.2.1 "veh" "12345" "Tank"
    simpa using h

/-- C5: classification of one remote image synchronization, in the four cases
the spec describes: equal known sizes skip the transfer (the outcome does not
depend on the body or on whether the body fetch would succeed); a transferred
body whose length equals the known prior local size is reclassified unchanged
without overwriting; otherwise a prior file is first copied to the timestamped
backup path and the outcome is updated with that backup path returned; with no
prior file the outcome is new. -/
theorem c5_asset_sync (now : Nat) (remote : RemoteEnv) (fs : Fs) (url rel : String)
    (r : RemoteImage)
    (hrel : getLocalImagePathFromUrl url = some rel)
    (hr : remote url = some r) :
    (((fsRead fs rel).map List.length).isSome ∧ r.headSize.isSome ∧
        (fsRead fs rel).map List.length = r.headSize →
      downloadImage now remote fs url =
        (some { filepath := "images/" ++ rel,
                size := ((fsRead fs rel).map List.length).getD 0,
                status := .skipped_unchanged }, fs)
      ∧ ∀ (body2 : List Nat) (ok2 : Bool),
          downloadImage now
            (fun u => if u == url then
                some { headSize := r.headSize, getOk := ok2, body := body2 }
              else remote u) fs url =
            downloadImage now remote fs url)
    ∧ (¬ (((fsRead fs rel).map List.length).isSome ∧ r.headSize.isSome ∧
          (fsRead fs rel).map List.length = r.headSize) →
      r.getOk = true →
      (fsRead fs rel).map List.length = some r.body.length →
      downloadImage now remote fs url =
        (some { filepath := "images/" ++ rel,
                size := ((fsRead fs rel).map List.length).getD 0,
                status := .skipped_unchanged }, fs))
    ∧ (∀ oldBytes, fsRead fs rel = some oldBytes →
      ¬ (((fsRead fs rel).map List.length).isSome ∧ r.headSize.isSome ∧
          (fsRead fs rel).map List.length = r.headSize) →
      r.getOk = true →
      oldBytes.length ≠ r.body.length →
      downloadImage now remote fs url =
        (some { filepath := "images/" ++ rel, size := r.body.length,
                status := .downloaded_updated,
                previousFilepath := some ("images/" ++ backupRelOf rel now) },
         fsWrite (fsWrite fs (backupRelOf rel now) oldBytes) rel r.body))
    ∧ (fsRead fs rel = none →
      r.getOk = true →
      downloadImage now remote fs url =
        (some { filepath := "images/" ++ rel, size := r.body.length,
                status := .downloaded_new }, fsWrite fs rel r.body)) := by
  refine ⟨?_, ?_, ?_, ?_⟩
  · intro hcond
    obtain ⟨ha, hb, hc⟩ := hcond
    constructor
    · unfold downloadImage
      rw [hrel]
      simp [hr, ha, hb, hc]
    · intro body2 ok2
      unfold downloadImage
      rw [hrel]
      simp [hr, ha, hb, hc]
  · intro hcond hok hlen
    unfold downloadImage
    rw [hrel]
    have hcb : (((fsRead fs rel).map List.length).isSome &&
        r.headSize.isSome && ((fsRead fs rel).map List.length == r.headSize)) = false := by
      by_cases h1 : ((fsRead fs rel).map List.length).isSome
      · by_cases h2 : r.headSize.isSome
        · have h3 : ¬ ((fsRead fs rel).map List.length = r.headSize) := fun h =>
            hcond ⟨h1, h2, h⟩
          simp [h1, h2, h3]
        · simp [h2]
      · simp [h1]
    simp [hr, hcb, hok, hlen]
  · intro oldBytes hold hcond hok hne
    unfold downloadImage
    rw [hrel]
    have hcb : (((fsRead fs rel).map List.length).isSome &&
        r.headSize.isSome && ((fsRead fs rel).map List.length == r.headSize)) = false := by
      by_cases h1 : ((fsRead fs rel).map List.length).isSome
      · by_cases h2 : r.headSize.isSome
        · have h3 : ¬ ((fsRead fs rel).map List.length = r.headSize) := fun h =>
            hcond ⟨h1, h2, h⟩
          simp [h1, h2, h3]
        · simp [h2]
      · simp [h1]
    have hlen2 : ¬ ((fsRead fs rel).map List.length = some r.body.length) := by
      rw [hold]
      simp
      exact hne
    have h4 : ¬ (r.headSize.isSome = true ∧ some oldBytes.length = r.headSize) := by
      rintro ⟨h2, h3⟩
      refine hcond ⟨by simp [hold], h2, ?_⟩
      rw [hold]
      simpa using h3
    simp [hr, hcb, hok, hold, hlen2, h4, hne]
  · intro hnone hok
    unfold downloadImage
    rw [hrel]
    simp [hr, hnone, hok]

/-- A concrete remote environment with one image whose probe reports no
content-length and whose body has two bytes. -/
def exRemoteC5 : RemoteEnv := fun u =>
  if u == "http://h/images/t.jpg" then
    some { headSize := none, getOk := true, body := [5, 6] }
  else none

/-- C5 witness: the updated case applied at a concrete prior file. -/
theorem c5_asset_sync_witness :
    downloadImage 7 exRemoteC5 [("t.jpg", [9])] "http://h/images/t.jpg" =
      (some { filepath := "images/t.jpg", size := 2,
              status := .downloaded_updated,
              previousFilepath := some "images/_history/t__7.jpg" },
       [("t.jpg", [5, 6]), ("_history/t__7.jpg", [9])]) := by
  have h := (c5_asset_sync 7 exRemoteC5 [("t.jpg", [9])] "http://h/images/t.jpg"
      "t.jpg" { headSize := none, getOk := true, body := [5, 6] }
      (by decide) rfl).2.2.1 [9] rfl (by decide) rfl (by decide)
  exact h

/-- C10: a freshly extracted part with no stored match and an empty part
number makes the parts insert pass NULL for the NOT NULL part_number column:
the insert fails, the swallow of insert errors leaves the state (part row,
image rows, files) completely untouched, and the part id is still pushed to
the seen list handed to tombstone reconciliation. -/
theorem c10_null_part_number (ctx : PassCtx) (mid pageUrl : String) (st : St)
    (p : ExtractedPart) (ps : List ExtractedPart)
    (hmiss : findExisting st.parts mid p = none)
    (hpn : p.partNumber = "") :
    insertPartRow st mid (partIdOf mid p.partNumber p.name) p pageUrl ctx.ts = none
    ∧ processPart ctx mid pageUrl st p = st
    ∧ (p ∈ dedupParts ps → partIdOf mid p.partNumber p.name ∈ seenIdsOf mid ps) := by
  have hins : insertPartRow st mid (partIdOf mid p.partNumber p.name) p pageUrl ctx.ts
      = none := by
    unfold insertPartRow
    simp [hpn]
  refine ⟨hins, ?_, ?_⟩
  · unfold processPart
    simp only [hmiss, hins]
  · intro hmem
    unfold seenIdsOf
    exact List.mem_map_of_mem _ hmem

/-- A part with an empty extracted part number. -/
def exPartNoPn : ExtractedPart :=
  { name := "Seat", partNumber := "", description := "", price := 100,
    currency := "EUR", imageUrl := none, imageUrls := [] }

/-- An empty starting state. -/
def exStEmpty : St :=
  { parts := [], history := [], partImages := [], nextImageRowId := 1,
    nextUuid := 0, fs := [] }

/-- A pass context over an empty network. -/
def exCtx (now ts : Nat) : PassCtx :=
  { remote := fun _ => none, now := now, ts := ts, downloadImages := true }

/-- C10 witness: the theorem applied at a concrete part and state. -/
theorem c10_null_part_number_witness :
    processPart (exCtx 1 10) "veh" "http://site/p.htm" exStEmpty exPartNoPn = exStEmpty
    ∧ partIdOf "veh" exPartNoPn.partNumber exPartNoPn.name ∈
        seenIdsOf "veh" [exPartNoPn] := by
  have h := c10_null_part_number (exCtx 1 10) "veh" "http://site/p.htm" exStEmpty
    exPartNoPn [exPartNoPn] (by decide) rfl
  exact ⟨h.2.1, h.2.2 (by decide)⟩

/-! ### Frame lemmas: image synchronization touches only part_images and the
filesystem, never the parts rows or the history log -/

theorem syncOneImage_frame (ctx : PassCtx) (pid : String) (acc : St × List ImgResult)
    (iu : Nat × String) :
    (syncOneImage ctx pid acc iu).1.parts = acc.1.parts
    ∧ (syncOneImage ctx pid acc iu).1.history = acc.1.history
    ∧ (syncOneImage ctx pid acc iu).1.nextUuid = acc.1.nextUuid := by
  unfold syncOneImage
  dsimp only
  split <;> split <;> simp

theorem foldSync_frame (ctx : PassCtx) (pid : String) (l : List (Nat × String)) :
    ∀ acc : St × List ImgResult,
    (l.foldl (syncOneImage ctx pid) acc).1.parts = acc.1.parts
    ∧ (l.foldl (syncOneImage ctx pid) acc).1.history = acc.1.history
    ∧ (l.foldl (syncOneImage ctx pid) acc).1.nextUuid = acc.1.nextUuid := by
  induction l with
  | nil => intro acc; exact ⟨rfl, rfl, rfl⟩
  | cons x xs ih =>
    intro acc
    have hstep := syncOneImage_frame ctx pid acc x
    have hrest := ih (syncOneImage ctx pid acc x)
    exact ⟨hrest.1.trans hstep.1, hrest.2.1.trans hstep.2.1, hrest.2.2.trans hstep.2.2⟩

theorem syncPartImages_frame (ctx : PassCtx) (st : St) (pid : String)
    (urls : List String) :
    (syncPartImages ctx st pid urls).1.parts = st.parts
    ∧ (syncPartImages ctx st pid urls).1.history = st.history
    ∧ (syncPartImages ctx st pid urls).1.nextUuid = st.nextUuid := by
  unfold syncPartImages
  exact foldSync_frame ctx pid _ (st, [])

theorem applyFinalUpdate_frame (st : St) (id : String) (ts : Nat) :
    (applyFinalUpdate st id ts).history = st.history
    ∧ (applyFinalUpdate st id ts).partImages = st.partImages
    ∧ (applyFinalUpdate st id ts).fs = st.fs
    ∧ (applyFinalUpdate st id ts).nextUuid = st.nextUuid := ⟨rfl, rfl, rfl, rfl⟩

/-- C3 (amended): for a freshly extracted part matched to a stored row, a
parts_history row capturing the pre-change values is inserted exactly when a
field-level diff (price, name, description, primary image URL), a
content-changed image asset, or prior soft deletion is detected, tagged
restored when previously soft-deleted else updated; its archived image path is
the backed-up previous local path only when the first content-changed image
with a backup is the row's primary image (same URL as the stored primary
image URL, or same local path as the stored primary local path), and the
stored current path otherwise. -/
theorem c3_matched_part_history (ctx : PassCtx) (mid pageUrl : String) (st : St)
    (p : ExtractedPart) (r : PartRow)
    (hfind : findExisting st.parts mid p = some r) :
    (¬ (r.price.getD 0 ≠ p.price ∨ r.name ≠ p.name ∨
        r.description.getD "" ≠ p.description ∨
        r.imageUrl.getD "" ≠ p.imageUrl.getD "" ∨
        (∃ img ∈ (syncPartImages ctx st r.id p.imageUrls).2,
          img.status = DlStatus.downloaded_updated) ∨
        r.isDeleted ≠ 0) →
      (processPart ctx mid pageUrl st p).history = st.history)
    ∧ ((r.price.getD 0 ≠ p.price ∨ r.name ≠ p.name ∨
        r.description.getD "" ≠ p.description ∨
        r.imageUrl.getD "" ≠ p.imageUrl.getD "" ∨
        (∃ img ∈ (syncPartImages ctx st r.id p.imageUrls).2,
          img.status = DlStatus.downloaded_updated) ∨
        r.isDeleted ≠ 0) →
      ∃ h : HistRow, (processPart ctx mid pageUrl st p).history = st.history ++ [h]
        ∧ h.partId = r.id ∧ h.name = r.name ∧ h.partNumber = r.partNumber
        ∧ h.description = r.description ∧ h.price = r.price
        ∧ h.imageUrl = r.imageUrl ∧ h.isDeleted = r.isDeleted
        ∧ h.deletedAt = r.deletedAt ∧ h.recordedAt = ctx.ts
        ∧ h.historyEvent = (if r.isDeleted ≠ 0 then HistEvent.restored else HistEvent.updated)
        ∧ h.imagePath = (match (syncPartImages ctx st r.id p.imageUrls).2.find? (fun img =>
              img.status == DlStatus.downloaded_updated && optStrTruthy img.previousPath &&
              ((optStrTruthy r.imageUrl && img.url == r.imageUrl.getD "") ||
               (optStrTruthy r.imagePath && img.path == r.imagePath.getD ""))) with
            | some img => if optStrTruthy img.previousPath then img.previousPath
                          else r.imagePath
            | none => r.imagePath)) := by
  have hsync := syncPartImages_frame ctx st r.id p.imageUrls
  have hcb : ((!((r.price.getD 0) == p.price) || !(r.name == p.name) ||
      !((r.description.getD "") == p.description) ||
      !((r.imageUrl.getD "") == (p.imageUrl.getD "")) ||
      (syncPartImages ctx st r.id p.imageUrls).2.any
        (fun img => img.status == DlStatus.downloaded_updated) ||
      !(r.isDeleted == 0)) = true) ↔
      (r.price.getD 0 ≠ p.price ∨ r.name ≠ p.name ∨
        r.description.getD "" ≠ p.description ∨
        r.imageUrl.getD "" ≠ p.imageUrl.getD "" ∨
        (∃ img ∈ (syncPartImages ctx st r.id p.imageUrls).2,
          img.status = DlStatus.downloaded_updated) ∨
        r.isDeleted ≠ 0) := by
    simp [List.any_eq_true, or_assoc]
  constructor
  · intro hno
    unfold processPart
    rw [hfind]
    unfold processExisting
    dsimp only
    rw [if_neg (fun hb => hno (hcb.mp hb))]
    rw [(applyFinalUpdate_frame _ _ _).1]
    exact hsync.2.1
  · intro hyes
    unfold processPart
    rw [hfind]
    unfold processExisting
    dsimp only
    rw [if_pos (hcb.mpr hyes)]
    refine ⟨?h, ?e1, ?e2, ?e3, ?e4, ?e5, ?e6, ?e7, ?e8, ?e9, ?e10, ?e11, ?e12⟩
    case e1 =>
      show (syncPartImages ctx st r.id p.imageUrls).1.history ++ [_] = st.history ++ [_]
      rw [hsync.2.1]
      exact rfl
    case e2 => rfl
    case e3 => rfl
    case e4 => rfl
    case e5 => rfl
    case e6 => rfl
    case e7 => rfl
    case e8 => rfl
    case e9 => rfl
    case e10 => rfl
    case e11 =>
      by_cases hdel : r.isDeleted = 0
      · simp [hdel]
      · simp [hdel]
    case e12 => rfl

/-- A stored row whose primary image URL and local path differ from the one
remote asset that changes content. -/
def exRowC3 : PartRow :=
  { id := "pid1", motorcycleId := "veh", name := "Tank", partNumber := "P1",
    description := some "", price := some 100, currency := some "EUR",
    imageUrl := some "u1", imagePath := some "images/p.jpg",
    url := "http://site/p.htm", scrapedAt := 1, lastSeen := some 1,
    isDeleted := 0, deletedAt := none }

/-- State holding that row and a one-byte local copy of the asset. -/
def exStC3 : St :=
  { parts := [exRowC3], history := [], partImages := [], nextImageRowId := 1,
    nextUuid := 0, fs := [("b.jpg", [1])] }

/-- Remote environment where that asset now has two bytes. -/
def exRemoteC3 : RemoteEnv := fun u =>
  if u == "http://h/images/b.jpg" then
    some { headSize := none, getOk := true, body := [2, 2] }
  else none

/-- Context for the C3 scenario. -/
def exCtxC3 : PassCtx :=
  { remote := exRemoteC3, now := 3, ts := 50, downloadImages := true }

/-- Extracted part matching the stored row on every field, whose one image
asset (not the primary image) changed content. -/
def exPartC3 : ExtractedPart :=
  { name := "Tank", partNumber := "P1", description := "", price := 100,
    currency := "EUR", imageUrl := some "u1",
    imageUrls := ["http://h/images/b.jpg"] }

/-- C3 counterexample to the claim as frozen: an image content change is
involved (the sole sync outcome is downloaded_updated with backup path
images/_history/b__3.jpg), a history row is inserted, yet its archived image
path is the stored current path images/p.jpg, not the backed-up previous
asset path, because the changed asset is not the primary image. -/
theorem c3_matched_part_history_cex :
    ((syncPartImages exCtxC3 exStC3 "pid1" exPartC3.imageUrls).2.map
        (fun i => (i.status, i.previousPath)) =
      [(DlStatus.downloaded_updated, some "images/_history/b__3.jpg")])
    ∧ (processPart exCtxC3 "veh" "http://site/p.htm" exStC3 exPartC3).history.map
        (fun h => h.imagePath) = [some "images/p.jpg"] := by
  decide

/-- C3 witness: the amended theorem applied at the concrete scenario. -/
theorem c3_matched_part_history_witness :
    (processPart exCtxC3 "veh" "http://site/p.htm" exStC3 exPartC3).history.length =
      exStC3.history.length + 1 := by
  obtain ⟨h, heq, -⟩ :=
    (c3_matched_part_history exCtxC3 "veh" "http://site/p.htm" exStC3 exPartC3 exRowC3
      (by decide)).2 (by decide)
  rw [heq]
  simp

/-! ### Support lemmas for tombstone reconciliation -/


theorem length_insertSorted (le : α → α → Bool) (x : α) (l : List α) :
    (insertSorted le x l).length = l.length + 1 := by
  induction l with
  | nil => rfl
  | cons y t ih =>
    unfold insertSorted
    split
    · rfl
    · simp [ih]

theorem mem_insertSorted (le : α → α → Bool) (x : α) (l : List α) (a : α) :
    a ∈ insertSorted le x l ↔ a = x ∨ a ∈ l := by
  induction l with
  | nil => simp [insertSorted]
  | cons y t ih =>
    unfold insertSorted
    split
    · simp [or_comm, or_assoc, or_left_comm]
    · simp [ih]
      tauto

theorem mem_sortByLe (le : α → α → Bool) (l : List α) (a : α) :
    a ∈ sortByLe le l ↔ a ∈ l := by
  induction l with
  | nil => simp [sortByLe]
  | cons y t ih =>
    unfold sortByLe at ih ⊢
    rw [List.foldr_cons, mem_insertSorted, ih]
    simp

theorem sortByLe_eq_nil (le : α → α → Bool) (l : List α) :
    sortByLe le l = [] ↔ l = [] := by
  cases l with
  | nil => simp [sortByLe]
  | cons y t =>
    constructor
    · intro h
      have := mem_sortByLe le (y :: t) y
      rw [h] at this
      simp at this
    · intro h
      exact absurd h (by simp)

theorem insertDeletedHist_spec (ts : Nat) (mid : String) (rows : List PartRow) :
    ∀ st : St,
    (insertDeletedHist ts mid st rows).1.parts = st.parts
    ∧ (insertDeletedHist ts mid st rows).1.partImages = st.partImages
    ∧ (insertDeletedHist ts mid st rows).1.fs = st.fs
    ∧ (insertDeletedHist ts mid st rows).1.nextImageRowId = st.nextImageRowId
    ∧ ∃ hs, (insertDeletedHist ts mid st rows).1.history = st.history ++ hs
        ∧ (∀ h ∈ hs, ∃ row ∈ rows, h.partId = row.id)
        ∧ ((∀ row ∈ rows, row.url ≠ "") →
            (insertDeletedHist ts mid st rows).2 = true
            ∧ hs.map (fun h => (h.partId, h.historyEvent, h.name, h.price,
                h.isDeleted, h.deletedAt, h.recordedAt)) =
              rows.map (fun r => (r.id, HistEvent.deleted, r.name, r.price,
                r.isDeleted, r.deletedAt, ts))) := by
  induction rows with
  | nil =>
    intro st
    refine ⟨rfl, rfl, rfl, rfl, [], by simp [insertDeletedHist], by simp, ?_⟩
    intro _
    exact ⟨rfl, by simp [insertDeletedHist]⟩
  | cons row rest ih =>
    intro st
    by_cases hurl : row.url = ""
    · refine ⟨?_, ?_, ?_, ?_, [], ?_, by simp, ?_⟩
      · unfold insertDeletedHist; simp [hurl]
      · unfold insertDeletedHist; simp [hurl]
      · unfold insertDeletedHist; simp [hurl]
      · unfold insertDeletedHist; simp [hurl]
      · unfold insertDeletedHist; simp [hurl]
      · intro hall
        exact absurd hurl (hall row (by simp))
    · have hstep : insertDeletedHist ts mid st (row :: rest) =
          insertDeletedHist ts mid
            { st with
                history := st.history ++ [deletedSnapshotOf mid ts st.nextUuid row],
                nextUuid := st.nextUuid + 1 } rest := by
        conv_lhs => rw [insertDeletedHist]
        simp [hurl]
      obtain ⟨h1, h2, h3, h4, hs, hh, hmem, hok⟩ := ih
        { st with
            history := st.history ++ [deletedSnapshotOf mid ts st.nextUuid row],
            nextUuid := st.nextUuid + 1 }
      rw [hstep]
      refine ⟨h1, h2, h3, h4, deletedSnapshotOf mid ts st.nextUuid row :: hs, ?_, ?_, ?_⟩
      · rw [hh]
        simp
      · intro h hmemh
        rcases List.mem_cons.mp hmemh with hfirst | hrest2
        · exact ⟨row, by simp, by rw [hfirst]; rfl⟩
        · obtain ⟨row2, hrow2, hpid⟩ := hmem h hrest2
          exact ⟨row2, by simp [hrow2], hpid⟩
      · intro hall
        have := hok (fun r hr => hall r (by simp [hr]))
        refine ⟨this.1, ?_⟩
        simp [this.2, deletedSnapshotOf]



theorem insertPartRow_shape (st : St) (mid pid : String) (p : ExtractedPart)
    (pageUrl : String) (ts : Nat) (st1 : St)
    (hins : insertPartRow st mid pid p pageUrl ts = some st1) :
    st1.history = st.history ∧ st1.partImages = st.partImages ∧ st1.fs = st.fs
    ∧ st1.nextUuid = st.nextUuid ∧ st1.nextImageRowId = st.nextImageRowId
    ∧ p.partNumber ≠ "" ∧ (∀ r ∈ st.parts, r.id ≠ pid)
    ∧ ∃ row : PartRow, st1.parts = st.parts ++ [row]
        ∧ row.id = pid ∧ row.motorcycleId = mid ∧ row.isDeleted = 0
        ∧ row.deletedAt = none ∧ row.partNumber = p.partNumber
        ∧ row.name = p.name ∧ row.description = some p.description
        ∧ row.price = some p.price ∧ row.currency = some p.currency
        ∧ row.imageUrl = (if optStrTruthy p.imageUrl then p.imageUrl else none)
        ∧ row.imagePath = none ∧ row.url = pageUrl ∧ row.lastSeen = none := by
  unfold insertPartRow at hins
  by_cases hpn : (p.partNumber == "") = true
  · rw [if_pos hpn] at hins
    exact absurd hins (by simp)
  · rw [if_neg hpn] at hins
    by_cases hany : (st.parts.any (fun r => r.id == pid)) = true
    · rw [if_pos hany] at hins
      exact absurd hins (by simp)
    · rw [if_neg hany] at hins
      have hst1 := Option.some.inj hins
      subst hst1
      refine ⟨rfl, rfl, rfl, rfl, rfl, by simpa using hpn, ?_, _, rfl,
        rfl, rfl, rfl, rfl, rfl, rfl, rfl, rfl, rfl, rfl, rfl, rfl, rfl⟩
      intro r hr
      simp only [List.any_eq_true, beq_iff_eq] at hany
      exact fun h => hany ⟨r, hr, h⟩

def PartInvariant (st : St) : Prop :=
  ∀ r ∈ st.parts, r.isDeleted = 1 → r.deletedAt ≠ none

theorem partInvariant_applyFinalUpdate (st : St) (id : String) (ts : Nat)
    (hinv : PartInvariant st) : PartInvariant (applyFinalUpdate st id ts) := by
  intro r hr h1
  unfold applyFinalUpdate at hr
  simp only [List.mem_map] at hr
  obtain ⟨a, ha, heq⟩ := hr
  subst heq
  by_cases hid : (a.id == id) = true
  · rw [if_pos hid] at h1
    simp at h1
  · rw [if_neg hid] at h1 ⊢
    exact hinv a ha h1

theorem partInvariant_processExisting (ctx : PassCtx) (pageUrl : String) (st : St)
    (p : ExtractedPart) (r : PartRow) (hinv : PartInvariant st) :
    PartInvariant (processExisting ctx pageUrl st p r) := by
  unfold processExisting
  dsimp only
  apply partInvariant_applyFinalUpdate
  split
  · intro q hq h1
    simp only [List.mem_map] at hq
    obtain ⟨a, ha, heq⟩ := hq
    subst heq
    rw [(syncPartImages_frame ctx st r.id p.imageUrls).1] at ha
    by_cases hid : (a.id == r.id) = true
    · rw [if_pos hid] at h1 ⊢
      exact hinv a ha h1
    · rw [if_neg hid] at h1 ⊢
      exact hinv a ha h1
  · intro q hq h1
    rw [(syncPartImages_frame ctx st r.id p.imageUrls).1] at hq
    exact hinv q hq h1

theorem partInvariant_processPart (ctx : PassCtx) (mid pageUrl : String) (st : St)
    (p : ExtractedPart) (hinv : PartInvariant st) :
    PartInvariant (processPart ctx mid pageUrl st p) := by
  unfold processPart
  dsimp only
  cases hfind : findExisting st.parts mid p with
  | some r => exact partInvariant_processExisting ctx pageUrl st p r hinv
  | none =>
    cases hins : insertPartRow st mid (partIdOf mid p.partNumber p.name) p pageUrl ctx.ts with
    | none => exact hinv
    | some st1 =>
      apply partInvariant_applyFinalUpdate
      obtain ⟨-, -, -, -, -, -, -, row, hparts, -, -, hdel0, -⟩ :=
        insertPartRow_shape st mid _ p pageUrl ctx.ts st1 hins
      intro q hq h1
      rw [(syncPartImages_frame ctx st1 _ p.imageUrls).1, hparts] at hq
      rcases List.mem_append.mp hq with hq1 | hq2
      · exact hinv q hq1 h1
      · have : q = row := by simpa using hq2
        subst this
        rw [hdel0] at h1
        exact absurd h1 (by simp)

theorem partInvariant_markDeletedParts (mid : String) (seen : List String) (ts : Nat)
    (st : St) (hinv : PartInvariant st) :
    PartInvariant (markDeletedParts mid seen ts st) := by
  unfold markDeletedParts
  dsimp only
  split
  · exact hinv
  · obtain ⟨hp, -, -, -, -⟩ :=
      insertDeletedHist_spec ts mid (sortByLe delRowLe (st.parts.filter (fun r =>
        r.motorcycleId == mid && !(seen.contains r.id) && r.isDeleted == 0))) st
    split
    · intro q hq h1
      simp only [List.mem_map] at hq
      obtain ⟨a, ha, heq⟩ := hq
      subst heq
      rw [hp] at ha
      by_cases hc : (a.motorcycleId == mid && !(seen.contains a.id) && a.isDeleted == 0) = true
      · rw [if_pos hc]
        simp
      · rw [if_neg hc] at h1 ⊢
        exact hinv a ha h1
    · intro q hq h1
      rw [hp] at hq
      exact hinv q hq h1



theorem map_if_id {α : Type} (p : α → Bool) (f : α → α) :
    ∀ l : List α, (∀ a ∈ l, p a ≠ true) →
      (l.map (fun a => if p a then f a else a)) = l := by
  intro l
  induction l with
  | nil => intro _; rfl
  | cons x t ih =>
    intro h
    simp only [List.map_cons]
    rw [if_neg (h x (by simp)), ih (fun a ha => h a (by simp [ha]))]

theorem markDeletedParts_exact (mid : String) (seen : List String) (ts : Nat) (st : St)
    (hurl : ∀ r ∈ st.parts, r.motorcycleId = mid → r.url ≠ "") :
    (markDeletedParts mid seen ts st).parts = st.parts.map (fun r =>
        if r.motorcycleId == mid && !(seen.contains r.id) && r.isDeleted == 0
        then { r with isDeleted := 1, deletedAt := some ts } else r)
    ∧ ∃ hs, (markDeletedParts mid seen ts st).history = st.history ++ hs
        ∧ hs.map (fun h => (h.partId, h.historyEvent, h.name, h.price,
            h.isDeleted, h.deletedAt, h.recordedAt)) =
          (sortByLe delRowLe (st.parts.filter (fun r =>
            r.motorcycleId == mid && !(seen.contains r.id) && r.isDeleted == 0))).map
            (fun r => (r.id, HistEvent.deleted, r.name, r.price, r.isDeleted,
              r.deletedAt, ts)) := by
  have hall : ∀ row ∈ sortByLe delRowLe (st.parts.filter (fun r =>
      r.motorcycleId == mid && !(seen.contains r.id) && r.isDeleted == 0)),
      row.url ≠ "" := by
    intro row hrow
    rw [mem_sortByLe] at hrow
    have hmem := List.mem_filter.mp hrow
    refine hurl row hmem.1 ?_
    have := hmem.2
    simp only [Bool.and_eq_true, beq_iff_eq] at this
    exact this.1.1
  unfold markDeletedParts
  dsimp only
  by_cases hnil : st.parts.filter (fun r =>
      r.motorcycleId == mid && !(seen.contains r.id) && r.isDeleted == 0) = []
  · have hemp : (sortByLe delRowLe (st.parts.filter (fun r =>
        r.motorcycleId == mid && !(seen.contains r.id) && r.isDeleted == 0))).isEmpty
        = true := by
      rw [(sortByLe_eq_nil delRowLe _).mpr hnil]
      rfl
    rw [if_pos hemp]
    have hnone := List.filter_eq_nil_iff.mp hnil
    constructor
    · rw [map_if_id _ _ _ (fun a ha hb => hnone a ha hb)]
    · exact ⟨[], by simp, by rw [hnil]; rfl⟩
  · have hemp : ¬ ((sortByLe delRowLe (st.parts.filter (fun r =>
        r.motorcycleId == mid && !(seen.contains r.id) && r.isDeleted == 0))).isEmpty
        = true) := by
      intro hb
      exact hnil ((sortByLe_eq_nil delRowLe _).mp (List.isEmpty_iff.mp hb))
    rw [if_neg hemp]
    obtain ⟨hp, -, -, -, hs, hh, -, hok⟩ :=
      insertDeletedHist_spec ts mid (sortByLe delRowLe (st.parts.filter (fun r =>
        r.motorcycleId == mid && !(seen.contains r.id) && r.isDeleted == 0))) st
    obtain ⟨hokb, hproj⟩ := hok hall
    rw [hokb, if_pos rfl]
    constructor
    · rw [hp]
    · exact ⟨hs, by rw [hh], hproj⟩

theorem markDeletedParts_tombstones_untouched (mid : String) (seen : List String)
    (ts : Nat) (st : St)
    (hnodup : (st.parts.map (fun r => r.id)).Nodup) :
    ∀ r ∈ st.parts, r.isDeleted ≠ 0 →
      r ∈ (markDeletedParts mid seen ts st).parts
      ∧ ∀ h ∈ (markDeletedParts mid seen ts st).history,
          h ∉ st.history → h.partId ≠ r.id := by
  intro r hr hrdel
  obtain ⟨hp, -, -, -, hs, hh, hmem, -⟩ :=
    insertDeletedHist_spec ts mid (sortByLe delRowLe (st.parts.filter (fun q =>
      q.motorcycleId == mid && !(seen.contains q.id) && q.isDeleted == 0))) st
  unfold markDeletedParts
  dsimp only
  split
  · constructor
    · exact hr
    · intro h hh2 hnot
      exact absurd hh2 hnot
  · split
    · constructor
      · rw [hp]
        refine List.mem_map.mpr ⟨r, hr, ?_⟩
        rw [if_neg]
        simp only [Bool.and_eq_true, beq_iff_eq]
        intro hcc
        exact hrdel hcc.2
      · intro h hh2 hnot
        rw [hh] at hh2
        rcases List.mem_append.mp hh2 with h1 | h2
        · exact absurd h1 hnot
        · obtain ⟨c, hc, hcid⟩ := hmem h h2
          rw [mem_sortByLe] at hc
          have hcf := List.mem_filter.mp hc
          have hc0 : c.isDeleted = 0 := by
            have := hcf.2
            simp only [Bool.and_eq_true, beq_iff_eq] at this
            exact this.2
          have hne : c ≠ r := fun hcr => hrdel (hcr ▸ hc0)
          rw [hcid]
          intro hid
          exact hne (List.inj_on_of_nodup_map hnodup hcf.1 hr hid)
    · constructor
      · rw [hp]
        exact hr
      · intro h hh2 hnot
        rw [hh] at hh2
        rcases List.mem_append.mp hh2 with h1 | h2
        · exact absurd h1 hnot
        · obtain ⟨c, hc, hcid⟩ := hmem h h2
          rw [mem_sortByLe] at hc
          have hcf := List.mem_filter.mp hc
          have hc0 : c.isDeleted = 0 := by
            have := hcf.2
            simp only [Bool.and_eq_true, beq_iff_eq] at this
            exact this.2
          have hne : c ≠ r := fun hcr => hrdel (hcr ▸ hc0)
          rw [hcid]
          intro hid
          exact hne (List.inj_on_of_nodup_map hnodup hcf.1 hr hid)


/-- C8 (amended): every tracker operation preserves the Part invariant that a
soft-deleted row has its deleted_at set; provided no stored row of the vehicle
carries an empty source url (an empty url would make the archival insert
violate the parts_history url NOT NULL constraint and abort reconciliation
before the flip), tombstone reconciliation archives and flips to is_deleted 1
exactly those parts of the vehicle whose id is not among the seen ids and that
are not already soft-deleted; and, with distinct row ids (the primary key),
re-running it leaves already-deleted parts untouched and adds no history rows
for them. -/
theorem c8_tombstone_reconciliation :
    (∀ (ctx : PassCtx) (mid pageUrl : String) (st : St) (p : ExtractedPart),
        PartInvariant st → PartInvariant (processPart ctx mid pageUrl st p))
    ∧ (∀ (mid : String) (seen : List String) (ts : Nat) (st : St),
        PartInvariant st → PartInvariant (markDeletedParts mid seen ts st))
    ∧ (∀ (mid : String) (seen : List String) (ts : Nat) (st : St),
        (∀ r ∈ st.parts, r.motorcycleId = mid → r.url ≠ "") →
        (markDeletedParts mid seen ts st).parts = st.parts.map (fun r =>
            if r.motorcycleId == mid && !(seen.contains r.id) && r.isDeleted == 0
            then { r with isDeleted := 1, deletedAt := some ts } else r)
        ∧ ∃ hs, (markDeletedParts mid seen ts st).history = st.history ++ hs
            ∧ hs.map (fun h => (h.partId, h.historyEvent, h.name, h.price,
                h.isDeleted, h.deletedAt, h.recordedAt)) =
              (sortByLe delRowLe (st.parts.filter (fun r =>
                r.motorcycleId == mid && !(seen.contains r.id) && r.isDeleted == 0))).map
                (fun r => (r.id, HistEvent.deleted, r.name, r.price, r.isDeleted,
                  r.deletedAt, ts)))
    ∧ (∀ (mid : String) (seen : List String) (ts : Nat) (st : St),
        (st.parts.map (fun r => r.id)).Nodup →
        ∀ r ∈ st.parts, r.isDeleted ≠ 0 →
          r ∈ (markDeletedParts mid seen ts st).parts
          ∧ ∀ h ∈ (markDeletedParts mid seen ts st).history,
              h ∉ st.history → h.partId ≠ r.id) :=
  ⟨partInvariant_processPart, partInvariant_markDeletedParts,
   markDeletedParts_exact, markDeletedParts_tombstones_untouched⟩

/-- A live, unseen row of the vehicle whose stored url is the empty string. -/
def exRowC8 : PartRow :=
  { id := "x", motorcycleId := "veh", name := "N", partNumber := "PN",
    description := none, price := none, currency := none, imageUrl := none,
    imagePath := none, url := "", scrapedAt := 0, lastSeen := none,
    isDeleted := 0, deletedAt := none }

/-- State holding just that row. -/
def exStC8 : St :=
  { parts := [exRowC8], history := [], partImages := [], nextImageRowId := 1,
    nextUuid := 0, fs := [] }

/-- C8 counterexample to the claim as frozen: the vehicle has exactly one
part, live and not among the seen ids, so the claim requires it to be archived
and flipped; but its stored url is the empty string, the archival insert
fails on the parts_history url NOT NULL constraint, and reconciliation returns
with the state entirely unchanged: nothing archived, nothing flipped. -/
theorem c8_tombstone_reconciliation_cex :
    markDeletedParts "veh" [] 5 exStC8 = exStC8
    ∧ exStC8.parts.map (fun r => (r.motorcycleId, r.isDeleted, r.url)) =
        [("veh", 0, "")] := by
  decide

/-- A live, unseen row of the vehicle with a proper url. -/
def exRowC8b : PartRow :=
  { id := "y", motorcycleId := "veh", name := "N", partNumber := "PN",
    description := none, price := none, currency := none, imageUrl := none,
    imagePath := none, url := "http://site/p.htm", scrapedAt := 0,
    lastSeen := none, isDeleted := 0, deletedAt := none }

/-- State holding just that row. -/
def exStC8b : St :=
  { parts := [exRowC8b], history := [], partImages := [], nextImageRowId := 1,
    nextUuid := 0, fs := [] }

/-- C8 witness: the amended theorem applied at a concrete state, discharging
the url and invariant hypotheses. -/
theorem c8_tombstone_reconciliation_witness :
    (markDeletedParts "veh" [] 9 exStC8b).parts =
      exStC8b.parts.map (fun r =>
        if r.motorcycleId == "veh" && !(([] : List String).contains r.id) &&
            r.isDeleted == 0
        then { r with isDeleted := 1, deletedAt := some 9 } else r)
    ∧ PartInvariant (markDeletedParts "veh" [] 9 exStC8b) := by
  constructor
  · exact (c8_tombstone_reconciliation.2.2.1 "veh" [] 9 exStC8b (by decide)).1
  · exact c8_tombstone_reconciliation.2.1 "veh" [] 9 exStC8b
      (by unfold PartInvariant; decide)

/-- filterMap over an if-guard produces as many elements as the guard
admits. -/
theorem length_filterMap_guard {α β : Type} (p : α → Prop) [DecidablePred p]
    (g : α → β) (l : List α) :
    (l.filterMap (fun b => if p b then some (g b) else none)).length =
      (l.filter (fun b => decide (p b))).length := by
  induction l with
  | nil => rfl
  | cons x t ih =>
    by_cases hx : p x
    · simp [List.filterMap_cons, List.filter_cons, hx, ih]
    · simp [List.filterMap_cons, List.filter_cons, hx, ih]

/-- C4: during extraction of a listing page, a candidate block produces a
part record exactly when its extracted name is non-empty and its extracted
price is strictly positive: the record count equals the count of blocks
passing the guard, every passing block's record is produced, and every
produced record comes from a passing block; extraction is a total function of
the page, so a failing candidate is dropped without any error being raised or
logged. -/
theorem c4_extraction_guard (pageUrl : String) (table : List TRow) :
    ((extractTableParts pageUrl table).length =
      ((findBlocksIn table).filter (fun b =>
        decide (blockName b.1 ≠ "" ∧ 0 < (blockFields b.2).2.2))).length)
    ∧ (∀ b ∈ findBlocksIn table,
        blockName b.1 ≠ "" ∧ 0 < (blockFields b.2).2.2 →
          blockRecord pageUrl table b.1 b.2 ∈ extractTableParts pageUrl table)
    ∧ (∀ rec ∈ extractTableParts pageUrl table,
        ∃ b ∈ findBlocksIn table,
          blockName b.1 ≠ "" ∧ 0 < (blockFields b.2).2.2 ∧
          rec = blockRecord pageUrl table b.1 b.2) := by
  refine ⟨?_, ?_, ?_⟩
  · exact length_filterMap_guard _ _ _
  · intro b hb hguard
    unfold extractTableParts
    exact List.mem_filterMap.mpr ⟨b, hb, by rw [if_pos hguard]⟩
  · intro rec hrec
    obtain ⟨b, hb, heq⟩ := List.mem_filterMap.mp hrec
    by_cases hguard : blockName b.1 ≠ "" ∧ 0 < (blockFields b.2).2.2
    · rw [if_pos hguard] at heq
      exact ⟨b, hb, hguard.1, hguard.2, (Option.some.inj heq).symm⟩
    · rw [if_neg hguard] at heq
      exact absurd heq (by simp)

/-- The marker row of the worked example block. -/
def exMarkC4 : TRow :=
  { cells := ["OSA", "", "Tank"],
    imgs := [{ src := "kuvat/tank.jpg", parentHref := "images/tank_big.jpg",
               alt := "RS125 tank" }] }

/-- The field rows of the worked example block. -/
def exBlockRowsC4 : List TRow :=
  [ { cells := ["OSANRO", "12345"], imgs := [] },
    { cells := ["LISÄTIEDOT", "hyvä kunto"], imgs := [] },
    { cells := ["HINTA", "45 EUR"], imgs := [] } ]

/-- The worked example table: one OSA block. -/
def exTableC4 : List TRow := exMarkC4 :: exBlockRowsC4

/-- C4 witness: the guard theorem applied at the worked example page,
discharging the membership and guard hypotheses. -/
theorem c4_extraction_guard_witness :
    blockRecord "https://www.purkuosat.net/apriliamx12505.htm" exTableC4 exMarkC4
        exBlockRowsC4 ∈
      extractTableParts "https://www.purkuosat.net/apriliamx12505.htm" exTableC4 := by
  exact (c4_extraction_guard "https://www.purkuosat.net/apriliamx12505.htm"
    exTableC4).2.1 (exMarkC4, exBlockRowsC4) (by decide) (by decide)

/-! ### Cancellation points of a model-page scrape. The awaited operations of
scrapeMotorcyclePage in program order, tagged with whether the call is passed
the abort signal in the source: the page fetch passes the signal and is
preceded by ensureNotAborted; the per-image HEAD probe of getRemoteImageSize
and the image body GET of downloadImage pass no signal, and no abort check
runs between the page fetch and them. -/

/-- One awaited operation of a page scrape. -/
inductive CrawlOp where
  | abortCheck
  | pageFetch (observesSignal : Bool)
  | headProbe (observesSignal : Bool)
  | bodyFetch (observesSignal : Bool)
  | delay (observesSignal : Bool)
deriving DecidableEq, Repr

/-- Whether an operation itself observes the cancellation signal. -/
def opObserves : CrawlOp → Bool
  | .abortCheck => false
  | .pageFetch b => b
  | .headProbe b => b
  | .bodyFetch b => b
  | .delay b => b

/-- The network operations downloadImage performs for one URL: always the
metadata probe, and the body fetch unless the equal-known-sizes branch skips
it; neither call receives the signal in the source. -/
def downloadImageOps (remote : RemoteEnv) (fs : Fs) (imageUrl : String) :
    List CrawlOp :=
  match getLocalImagePathFromUrl imageUrl with
  | none => []
  | some rel =>
    let localSize := (fsRead fs rel).map List.length
    let remoteSize : Option Nat :=
      match remote imageUrl with
      | none => none
      | some r => r.headSize
    if localSize.isSome && remoteSize.isSome && localSize == remoteSize then
      [CrawlOp.headProbe false]
    else
      [CrawlOp.headProbe false, CrawlOp.bodyFetch false]

/-- The operations of syncPartImages over a part's URLs, threading the
filesystem the way the downloads change it. -/
def syncPartImagesOps (ctx : PassCtx) (fs : Fs) (imageUrls : List String) :
    List CrawlOp × Fs :=
  (jsSetDedup (imageUrls.filter (fun u => u ≠ ""))).foldl
    (fun acc u =>
      if ctx.downloadImages then
        (acc.1 ++ downloadImageOps ctx.remote acc.2 u,
         (downloadImage ctx.now ctx.remote acc.2 u).2)
      else acc)
    ([], fs)

/-- The operations one part contributes: nothing when its insert fails,
otherwise its image synchronization (run against the state the part loop has
reached). -/
def partOps (ctx : PassCtx) (mid pageUrl : String) (st : St) (p : ExtractedPart) :
    List CrawlOp :=
  match findExisting st.parts mid p with
  | none =>
    match insertPartRow st mid (partIdOf mid p.partNumber p.name) p pageUrl ctx.ts with
    | none => []
    | some st1 => (syncPartImagesOps ctx st1.fs p.imageUrls).1
  | some _ => (syncPartImagesOps ctx st.fs p.imageUrls).1

/-- The awaited operations of one scrapeMotorcyclePage call: the abort check
at entry, the signal-observing page fetch, then every part's image traffic,
with the state evolving as processPart runs it. No abort check and no
signal-observing call separates the page fetch from the image calls. -/
def pageOps (ctx : PassCtx) (mid pageUrl : String) (ps : List ExtractedPart)
    (st : St) : List CrawlOp :=
  [CrawlOp.abortCheck, CrawlOp.pageFetch true] ++
  ((dedupParts ps).foldl
    (fun acc p => (acc.1 ++ partOps ctx mid pageUrl acc.2 p,
                   processPart ctx mid pageUrl acc.2 p))
    (([] : List CrawlOp), st)).1

/-- Whether every network call and delay in the list observes the signal or
is preceded by an abort check with no other operation in between: the
property the claim asserts. The flag carries whether a check happened since
the last operation. -/
def allGuarded : List CrawlOp → Bool → Bool
  | [], _ => true
  | .abortCheck :: rest, _ => allGuarded rest true
  | op :: rest, checked => (opObserves op || checked) && allGuarded rest false

/-- A one-part page with one remote image, downloads enabled, empty start
state. -/
def exPartC9 : ExtractedPart :=
  { name := "Tank", partNumber := "P1", description := "", price := 4500,
    currency := "EUR", imageUrl := some "http://h/images/a.jpg",
    imageUrls := ["http://h/images/a.jpg"] }

/-- Remote for the C9 scenario: the probe reports no content-length, the body
has three bytes. -/
def exRemoteC9 : RemoteEnv := fun u =>
  if u == "http://h/images/a.jpg" then
    some { headSize := none, getOk := true, body := [1, 2, 3] }
  else none

/-- Context for the C9 scenario. -/
def exCtxC9 : PassCtx :=
  { remote := exRemoteC9, now := 4, ts := 40, downloadImages := true }

/-- C9: the code at the failing input. Scraping a page with one part and one
image performs, after the guarded page fetch, a metadata probe and a body
download that neither observe the cancellation signal nor follow an abort
check — so a signal firing right after the page fetch does not stop them,
contradicting the claim that every network retrieval observes the signal or
is preceded by an abort check. -/
theorem c9_cancellation_gap :
    pageOps exCtxC9 "veh" "http://site/p.htm" [exPartC9] exStEmpty =
      [CrawlOp.abortCheck, CrawlOp.pageFetch true,
       CrawlOp.headProbe false, CrawlOp.bodyFetch false]
    ∧ allGuarded (pageOps exCtxC9 "veh" "http://site/p.htm" [exPartC9] exStEmpty)
        false = false := by
  decide

end MpPitstop

namespace MpPitstop

theorem fsRead_fsWrite_same (fs : Fs) (p : String) (b : List Nat) :
    fsRead (fsWrite fs p b) p = some b := by
  unfold fsRead fsWrite
  simp

theorem find?_filter_ne (fs : Fs) (p q : String) (h : (q == p) = false) :
    List.find? (fun e => e.1 == q) (fs.filter (fun e => !(e.1 == p))) =
      List.find? (fun e => e.1 == q) fs := by
  induction fs with
  | nil => rfl
  | cons e t ih =>
    by_cases hep : (e.1 == p) = true
    · have hep2 : e.1 = p := by simpa using hep
      have hqp2 : ¬ (q = p) := by simpa using h
      have heq : (e.1 == q) = false := by
        rw [hep2]
        simp only [beq_eq_false_iff_ne]
        exact fun hq => hqp2 hq.symm
      simp [List.filter_cons, hep, List.find?_cons, heq, ih]
    · by_cases heq : (e.1 == q) = true
      · simp [List.filter_cons, hep, List.find?_cons, heq]
      · simp [List.filter_cons, hep, List.find?_cons, heq, ih]

theorem fsRead_fsWrite_other (fs : Fs) (p q : String) (b : List Nat) (h : q ≠ p) :
    fsRead (fsWrite fs p b) q = fsRead fs q := by
  unfold fsRead fsWrite
  have hpq : (p == q) = false := by simpa using Ne.symm h
  have hqp : (q == p) = false := by simpa using h
  rw [List.find?_cons]
  simp only [hpq]
  rw [find?_filter_ne fs p q hqp]

/-- A URL whose synchronization is a no-op against this filesystem: the
download leaves the files untouched and any successful result is classified
unchanged. -/
def urlStable (remote : RemoteEnv) (fs : Fs) (u : String) : Prop :=
  ∀ now, (downloadImage now remote fs u).2 = fs
    ∧ ∀ res, (downloadImage now remote fs u).1 = some res →
        res.status = DlStatus.skipped_unchanged

theorem urlStable_of_rel_none (remote : RemoteEnv) (fs : Fs) (u : String)
    (h : getLocalImagePathFromUrl u = none) : urlStable remote fs u := by
  intro now
  unfold downloadImage
  rw [h]
  exact ⟨rfl, by intro res hres; exact absurd hres (by simp)⟩

theorem backupRel_hist_prefix (rel : String) (now : Nat) :
    strStartsWith (backupRelOf rel now) "_history/" = true := by
  have hsplit : ∀ x : String, ("_history" ++ "/" ++ x).toList =
      "_history/".toList ++ x.toList := by
    intro x
    show ("_history" ++ "/" ++ x).data = "_history/".data ++ x.data
    rw [String.data_append, String.data_append]
    rfl
  unfold backupRelOf strStartsWith
  dsimp only
  split
  · rw [List.isPrefixOf_iff_prefix]
    show "_history/".toList <+: ("_history" ++ "/" ++ _).toList
    rw [hsplit]
    exact List.prefix_append _ _
  · rw [List.isPrefixOf_iff_prefix]
    show "_history/".toList <+: ("_history" ++ "/" ++ _).toList
    rw [hsplit]
    exact List.prefix_append _ _

end MpPitstop

namespace MpPitstop

theorem urlStable_of_remote_none (remote : RemoteEnv) (fs : Fs) (u : String)
    (h : remote u = none) : urlStable remote fs u := by
  intro now
  unfold downloadImage
  cases hrel : getLocalImagePathFromUrl u with
  | none => exact ⟨rfl, fun res hres => absurd hres (by simp)⟩
  | some rel =>
    dsimp only
    rw [h]
    dsimp only
    constructor
    · split
      · rfl
      · rfl
    · intro res hres
      split at hres
      · rw [← Option.some.inj hres]
      · exact absurd hres (by simp)

theorem urlStable_of_getOk_false (remote : RemoteEnv) (fs : Fs) (u : String)
    (r : RemoteImage) (h : remote u = some r) (hok : r.getOk = false) :
    urlStable remote fs u := by
  intro now
  unfold downloadImage
  cases hrel : getLocalImagePathFromUrl u with
  | none => exact ⟨rfl, fun res hres => absurd hres (by simp)⟩
  | some rel =>
    dsimp only
    rw [h]
    dsimp only
    rw [hok]
    constructor
    · split
      · rfl
      · rfl
    · intro res hres
      split at hres
      · rw [← Option.some.inj hres]
      · exact absurd hres (by simp)

theorem urlStable_of_head_eq (remote : RemoteEnv) (fs : Fs) (u : String)
    (r : RemoteImage) (rel : String) (h : remote u = some r)
    (hrel : getLocalImagePathFromUrl u = some rel)
    (hsz : ((fsRead fs rel).map List.length).isSome = true)
    (heq : (fsRead fs rel).map List.length = r.headSize) :
    urlStable remote fs u := by
  intro now
  unfold downloadImage
  rw [hrel]
  dsimp only
  rw [h]
  dsimp only
  have hcond : (((fsRead fs rel).map List.length).isSome &&
      r.headSize.isSome &&
      ((fsRead fs rel).map List.length == r.headSize)) = true := by
    rw [← heq]
    simp [hsz]
  constructor
  · split
    · rfl
    · rename_i hc
      exact absurd hcond hc
  · intro res hres
    split at hres
    · rw [← Option.some.inj hres]
    · rename_i hc
      exact absurd hcond hc

theorem urlStable_of_len_eq (remote : RemoteEnv) (fs : Fs) (u : String)
    (r : RemoteImage) (rel : String) (h : remote u = some r)
    (hrel : getLocalImagePathFromUrl u = some rel)
    (hlen : (fsRead fs rel).map List.length = some r.body.length) :
    urlStable remote fs u := by
  intro now
  unfold downloadImage
  rw [hrel]
  dsimp only
  rw [h]
  dsimp only
  have hlc : ((fsRead fs rel).map List.length == some r.body.length) = true := by
    rw [hlen]
    simp
  constructor
  · split
    · rfl
    · split
      · rfl
      · rfl
  · intro res hres
    split at hres
    · rw [← Option.some.inj hres]
    · split at hres
      · exact absurd hres (by simp)
      · rw [← Option.some.inj hres]

theorem dl_stabilizes (remote : RemoteEnv) (fs : Fs) (u : String) (now : Nat) :
    urlStable remote (downloadImage now remote fs u).2 u := by
  cases hrel : getLocalImagePathFromUrl u with
  | none =>
    have hfs : (downloadImage now remote fs u).2 = fs := by
      unfold downloadImage
      rw [hrel]
    rw [hfs]
    exact urlStable_of_rel_none remote fs u hrel
  | some rel =>
    cases hr : remote u with
    | none =>
      have hfs : (downloadImage now remote fs u).2 = fs := by
        unfold downloadImage
        rw [hrel]
        dsimp only
        rw [hr]
        dsimp only
        split
        · rfl
        · rfl
      rw [hfs]
      exact urlStable_of_remote_none remote fs u hr
    | some r =>
      by_cases hA : (((fsRead fs rel).map List.length).isSome &&
          r.headSize.isSome &&
          ((fsRead fs rel).map List.length == r.headSize)) = true
      · have hfs : (downloadImage now remote fs u).2 = fs := by
          unfold downloadImage
          rw [hrel]
          dsimp only
          rw [hr]
          dsimp only
          rw [if_pos hA]
        rw [hfs]
        simp only [Bool.and_eq_true] at hA
        exact urlStable_of_head_eq remote fs u r rel hr hrel hA.1.1 (eq_of_beq hA.2)
      · cases hok : r.getOk with
        | false =>
          have hfs : (downloadImage now remote fs u).2 = fs := by
            unfold downloadImage
            rw [hrel]
            dsimp only
            rw [hr]
            dsimp only
            rw [if_neg hA, hok]
            rfl
          rw [hfs]
          exact urlStable_of_getOk_false remote fs u r hr hok
        | true =>
          by_cases hB : ((fsRead fs rel).map List.length == some r.body.length) = true
          · have hfs : (downloadImage now remote fs u).2 = fs := by
              unfold downloadImage
              rw [hrel]
              dsimp only
              rw [hr]
              dsimp only
              rw [if_neg hA, hok,
                if_neg (by simp : ¬ ((!true : Bool) = true)), if_pos hB]
            rw [hfs]
            exact urlStable_of_len_eq remote fs u r rel hr hrel (eq_of_beq hB)
          · cases hread : fsRead fs rel with
            | some old =>
              have hfs : (downloadImage now remote fs u).2 =
                  fsWrite (fsWrite fs (backupRelOf rel now) old) rel r.body := by
                unfold downloadImage
                rw [hrel]
                dsimp only
                rw [hr]
                dsimp only
                rw [if_neg hA, hok,
                  if_neg (by simp : ¬ ((!true : Bool) = true)), if_neg hB, hread]
              rw [hfs]
              exact urlStable_of_len_eq remote _ u r rel hr hrel
                (by rw [fsRead_fsWrite_same]; rfl)
            | none =>
              have hfs : (downloadImage now remote fs u).2 = fsWrite fs rel r.body := by
                unfold downloadImage
                rw [hrel]
                dsimp only
                rw [hr]
                dsimp only
                rw [if_neg hA, hok,
                  if_neg (by simp : ¬ ((!true : Bool) = true)), if_neg hB, hread]
              rw [hfs]
              exact urlStable_of_len_eq remote _ u r rel hr hrel
                (by rw [fsRead_fsWrite_same]; rfl)

theorem dl_footprint (remote : RemoteEnv) (fs : Fs) (u : String) (now : Nat) (p : String)
    (hp : ∀ rel, getLocalImagePathFromUrl u = some rel → p ≠ rel)
    (hh : strStartsWith p "_history/" = false) :
    fsRead (downloadImage now remote fs u).2 p = fsRead fs p := by
  cases hrel : getLocalImagePathFromUrl u with
  | none =>
    unfold downloadImage
    rw [hrel]
  | some rel =>
    have hpr : p ≠ rel := hp rel hrel
    have hpb : p ≠ backupRelOf rel now := by
      intro hpe
      rw [hpe, backupRel_hist_prefix] at hh
      exact absurd hh (by simp)
    unfold downloadImage
    rw [hrel]
    dsimp only
    split
    · rfl
    · split
      · rfl
      · split
        · rfl
        · split
          · rfl
          · split
            · rw [fsRead_fsWrite_other _ _ _ _ hpr, fsRead_fsWrite_other _ _ _ _ hpb]
            · rw [fsRead_fsWrite_other _ _ _ _ hpr]

theorem urlStable_congr (remote : RemoteEnv) (fs fs' : Fs) (u rel : String)
    (hrel : getLocalImagePathFromUrl u = some rel)
    (heq : fsRead fs' rel = fsRead fs rel)
    (h : urlStable remote fs u) : urlStable remote fs' u := by
  cases hr : remote u with
  | none => exact urlStable_of_remote_none remote fs' u hr
  | some r =>
    cases hok : r.getOk with
    | false => exact urlStable_of_getOk_false remote fs' u r hr hok
    | true =>
      by_cases hA : (((fsRead fs rel).map List.length).isSome &&
          r.headSize.isSome &&
          ((fsRead fs rel).map List.length == r.headSize)) = true
      · simp only [Bool.and_eq_true] at hA
        refine urlStable_of_head_eq remote fs' u r rel hr hrel ?hs ?he
        case hs =>
          rw [heq]
          exact hA.1.1
        case he =>
          rw [heq]
          exact eq_of_beq hA.2
      · by_cases hB : ((fsRead fs rel).map List.length == some r.body.length) = true
        · refine urlStable_of_len_eq remote fs' u r rel hr hrel ?hl
          case hl =>
            rw [heq]
            exact eq_of_beq hB
        · exfalso
          have hst := (h 0).2
          cases hread : fsRead fs rel with
          | some old =>
            have hres : (downloadImage 0 remote fs u).1 = some
                { filepath := "images/" ++ rel, size := r.body.length,
                  status := DlStatus.downloaded_updated,
                  previousFilepath := some ("images/" ++ backupRelOf rel 0) } := by
              unfold downloadImage
              rw [hrel]
              dsimp only
              rw [hr]
              dsimp only
              rw [if_neg hA, hok,
                if_neg (by simp : ¬ ((!true : Bool) = true)), if_neg hB, hread]
            have := hst _ hres
            simp at this
          | none =>
            have hres : (downloadImage 0 remote fs u).1 = some
                { filepath := "images/" ++ rel, size := r.body.length,
                  status := DlStatus.downloaded_new, previousFilepath := none } := by
              unfold downloadImage
              rw [hrel]
              dsimp only
              rw [hr]
              dsimp only
              rw [if_neg hA, hok,
                if_neg (by simp : ¬ ((!true : Bool) = true)), if_neg hB, hread]
            have := hst _ hres
            simp at this

theorem forall2_mem_right {α β : Type} {R : α → β → Prop} :
    ∀ {l : List α} {l2 : List β}, List.Forall₂ R l l2 → ∀ b ∈ l2, ∃ a ∈ l, R a b := by
  intro l l2 h
  induction h with
  | nil =>
    intro b hb
    exact absurd hb (by simp)
  | cons hR hrest ih =>
    intro b hb
    rcases List.mem_cons.mp hb with he | ht
    · exact ⟨_, List.mem_cons_self _ _, by rw [he]; exact hR⟩
    · obtain ⟨a, ha, hr⟩ := ih b ht
      exact ⟨a, by simp [ha], hr⟩

theorem forall2_map_right {α β : Type} {R : α → β → Prop} (g : β → β)
    (hg : ∀ a b, R a b → R a (g b)) :
    ∀ {l : List α} {l2 : List β}, List.Forall₂ R l l2 →
      List.Forall₂ R l (l2.map g) := by
  intro l l2 h
  induction h with
  | nil => exact List.Forall₂.nil
  | cons hR hrest ih => exact List.Forall₂.cons (hg _ _ hR) ih

theorem find_first_of_unique {α : Type} (pred : α → Bool) {l : List α} {r : α}
    (hmem : r ∈ l) (hr : pred r = true)
    (huniq : ∀ x ∈ l, pred x = true → x = r) :
    l.find? pred = some r := by
  induction l with
  | nil => exact absurd hmem (by simp)
  | cons x t ih =>
    by_cases hx : pred x = true
    · rw [List.find?_cons_of_pos _ hx, huniq x (by simp) hx]
    · rw [List.find?_cons_of_neg _ hx]
      refine ih ?hm ?hu
      case hm =>
        rcases List.mem_cons.mp hmem with he | ht
        · rw [← he] at hx
          exact absurd hr hx
        · exact ht
      case hu =>
        exact fun y hy hpy => huniq y (by simp [hy]) hpy

theorem mem_jsSetDedup_aux (l : List String) : ∀ (acc : List String) (x : String),
    x ∈ l.foldl (fun acc x => if acc.contains x then acc else acc ++ [x]) acc
      ↔ (x ∈ acc ∨ x ∈ l) := by
  induction l with
  | nil =>
    intro acc x
    simp
  | cons y t ih =>
    intro acc x
    simp only [List.foldl_cons]
    rw [ih]
    by_cases hy : acc.contains y = true
    · have hym : y ∈ acc := by simpa using hy
      rw [if_pos hy]
      simp only [List.mem_cons]
      constructor
      · rintro (h | h)
        · exact Or.inl h
        · exact Or.inr (Or.inr h)
      · rintro (h | h | h)
        · exact Or.inl h
        · rw [h]
          exact Or.inl hym
        · exact Or.inr h
    · rw [if_neg hy]
      simp only [List.mem_append, List.mem_cons, List.mem_singleton,
        List.not_mem_nil, or_false]
      tauto

theorem mem_jsSetDedup_iff (l : List String) (x : String) :
    x ∈ jsSetDedup l ↔ x ∈ l := by
  unfold jsSetDedup
  rw [mem_jsSetDedup_aux]
  simp

theorem snd_mem_of_mem_enumFrom {α : Type} :
    ∀ (l : List α) (n : Nat) (p : Nat × α), p ∈ l.enumFrom n → p.2 ∈ l := by
  intro l
  induction l with
  | nil =>
    intro n p h
    exact absurd h (by simp)
  | cons x t ih =>
    intro n p h
    rcases List.mem_cons.mp h with he | ht
    · rw [he]
      simp
    · exact List.mem_cons.mpr (Or.inr (ih (n + 1) p ht))

theorem find_forall2 {α : Type} {R : α → α → Prop} (pred : α → Bool)
    (hcompat : ∀ a b, R a b → pred a = pred b) :
    ∀ {l l2 : List α}, List.Forall₂ R l l2 →
      (l.find? pred = none ∧ l2.find? pred = none)
      ∨ ∃ a b, l.find? pred = some a ∧ l2.find? pred = some b ∧ R a b := by
  intro l l2 h
  induction h with
  | nil => exact Or.inl ⟨rfl, rfl⟩
  | @cons a b l1 l2t hR hrest ih =>
    by_cases hp : pred a = true
    · right
      exact ⟨a, b, List.find?_cons_of_pos _ hp,
        List.find?_cons_of_pos _ (by rw [← hcompat a b hR]; exact hp), hR⟩
    · have hpa : pred a = false := Bool.eq_false_iff.mpr hp
      have hpb : pred b = false := by
        rw [← hcompat a b hR]
        exact hpa
      rw [List.find?_cons_of_neg _ hp,
        List.find?_cons_of_neg _ (by rw [hpb]; simp)]
      exact ih

theorem enumFrom_map_snd {α : Type} :
    ∀ (l : List α) (n : Nat), (l.enumFrom n).map (fun p => p.2) = l := by
  intro l
  induction l with
  | nil => intro n; rfl
  | cons x t ih =>
    intro n
    simp only [List.enumFrom, List.map_cons]
    rw [ih]




theorem syncOneImage_spec (ctx : PassCtx) (pid : String) (acc : St × List ImgResult)
    (iu : Nat × String) :
    (syncOneImage ctx pid acc iu).1.fs =
      (if ctx.downloadImages then (downloadImage ctx.now ctx.remote acc.1.fs iu.2).2
       else acc.1.fs)
    ∧ ((syncOneImage ctx pid acc iu).2 = acc.2
       ∨ (ctx.downloadImages = true ∧ ∃ r,
            (downloadImage ctx.now ctx.remote acc.1.fs iu.2).1 = some r
            ∧ ∃ item : ImgResult, item.status = r.status
                ∧ (syncOneImage ctx pid acc iu).2 = acc.2 ++ [item])) := by
  refine ⟨?f1, ?f2⟩
  case f1 =>
    by_cases hf : ctx.downloadImages = true
    · cases hdl : (downloadImage ctx.now ctx.remote acc.1.fs iu.2).1 with
      | none => simp [syncOneImage, hf, hdl, apply_ite]
      | some r =>
        by_cases hfp : (r.filepath == "") = true
        · simp [syncOneImage, hf, hdl, hfp, apply_ite]
        · simp [syncOneImage, hf, hdl, hfp, apply_ite]
    · simp [syncOneImage, hf, apply_ite]
  case f2 =>
    by_cases hf : ctx.downloadImages = true
    · cases hdl : (downloadImage ctx.now ctx.remote acc.1.fs iu.2).1 with
      | none =>
        left
        simp [syncOneImage, hf, hdl]
      | some r =>
        by_cases hfp : (r.filepath == "") = true
        · left
          simp [syncOneImage, hf, hdl, hfp]
        · right
          have hres : (syncOneImage ctx pid acc iu).2 = acc.2 ++
              [{ url := iu.2, path := r.filepath, size := some r.size,
                 status := r.status,
                 previousPath :=
                   match r.previousFilepath with
                   | some b => if b == "" then none else some b
                   | none => none }] := by
            simp [syncOneImage, hf, hdl, hfp]
          exact ⟨hf, r, rfl, _, rfl, hres⟩
    · left
      simp [syncOneImage, hf]

theorem foldSync_noflag (ctx : PassCtx) (pid : String) (hf : ctx.downloadImages = false)
    (l : List (Nat × String)) : ∀ acc : St × List ImgResult,
    (l.foldl (syncOneImage ctx pid) acc).1.fs = acc.1.fs
    ∧ (l.foldl (syncOneImage ctx pid) acc).2 = acc.2 := by
  induction l with
  | nil => intro acc; exact ⟨rfl, rfl⟩
  | cons x xs ih =>
    intro acc
    obtain ⟨h1, h2⟩ := syncOneImage_spec ctx pid acc x
    rw [if_neg (by simp [hf])] at h1
    have h2' : (syncOneImage ctx pid acc x).2 = acc.2 := by
      rcases h2 with he | ⟨hft, -⟩
      · exact he
      · rw [hf] at hft
        exact absurd hft (by simp)
    rw [List.foldl_cons]
    have hrec := ih (syncOneImage ctx pid acc x)
    exact ⟨hrec.1.trans h1, hrec.2.trans h2'⟩

theorem foldSync_stable (ctx : PassCtx) (pid : String) (hf : ctx.downloadImages = true)
    (l : List (Nat × String)) : ∀ acc : St × List ImgResult,
    (∀ iu ∈ l, urlStable ctx.remote acc.1.fs iu.2) →
    (l.foldl (syncOneImage ctx pid) acc).1.fs = acc.1.fs
    ∧ ∀ res ∈ (l.foldl (syncOneImage ctx pid) acc).2,
        res ∈ acc.2 ∨ res.status = DlStatus.skipped_unchanged := by
  induction l with
  | nil =>
    intro acc _
    exact ⟨rfl, fun res hres => Or.inl hres⟩
  | cons x xs ih =>
    intro acc hst
    obtain ⟨h1, h2⟩ := syncOneImage_spec ctx pid acc x
    have hx : urlStable ctx.remote acc.1.fs x.2 := hst x (by simp)
    have hfs : (syncOneImage ctx pid acc x).1.fs = acc.1.fs := by
      rw [h1, if_pos hf]
      exact (hx ctx.now).1
    rw [List.foldl_cons]
    have hrec := ih (syncOneImage ctx pid acc x) (by
      intro iu hiu
      rw [hfs]
      exact hst iu (by simp [hiu]))
    refine ⟨hrec.1.trans hfs, ?_⟩
    intro res hres
    rcases hrec.2 res hres with hin | hs
    · rcases h2 with he | ⟨-, r, hdl, item, hstat, happ⟩
      · rw [he] at hin
        exact Or.inl hin
      · rw [happ] at hin
        rcases List.mem_append.mp hin with h | h
        · exact Or.inl h
        · right
          have hri : res = item := by simpa using h
          rw [hri, hstat]
          exact (hx ctx.now).2 r hdl
    · exact Or.inr hs

theorem stable_after_dl (remote : RemoteEnv) (fs : Fs) (U : List String)
    (hInj : ∀ u ∈ U, ∀ v ∈ U, ∀ rl, getLocalImagePathFromUrl u = some rl →
        getLocalImagePathFromUrl v = some rl → u = v)
    (hHist : ∀ u ∈ U, ∀ rl, getLocalImagePathFromUrl u = some rl →
        strStartsWith rl "_history/" = false)
    (u0 : String) (hu0 : u0 ∈ U) (now : Nat) :
    ∀ u ∈ U, urlStable remote fs u →
      urlStable remote (downloadImage now remote fs u0).2 u := by
  intro u hu hst
  cases hrel : getLocalImagePathFromUrl u with
  | none => exact urlStable_of_rel_none remote _ u hrel
  | some rl =>
    by_cases hequ : u = u0
    · subst hequ
      exact dl_stabilizes remote fs u now
    · have hne : ∀ rel0, getLocalImagePathFromUrl u0 = some rel0 → rl ≠ rel0 := by
        intro rel0 h0 hcontra
        rw [← hcontra] at h0
        exact hequ (hInj u hu u0 hu0 rl hrel h0)
      have hfoot : fsRead (downloadImage now remote fs u0).2 rl = fsRead fs rl :=
        dl_footprint remote fs u0 now rl hne (hHist u hu rl hrel)
      exact urlStable_congr remote fs _ u rl hrel hfoot hst

theorem foldSync_establishes (ctx : PassCtx) (pid : String)
    (hf : ctx.downloadImages = true) (U : List String)
    (hInj : ∀ u ∈ U, ∀ v ∈ U, ∀ rl, getLocalImagePathFromUrl u = some rl →
        getLocalImagePathFromUrl v = some rl → u = v)
    (hHist : ∀ u ∈ U, ∀ rl, getLocalImagePathFromUrl u = some rl →
        strStartsWith rl "_history/" = false) :
    ∀ (l : List (Nat × String)) (S : List String) (acc : St × List ImgResult),
      (∀ iu ∈ l, iu.2 ∈ U) →
      (∀ u ∈ S, u ∈ U) →
      (∀ u ∈ S, urlStable ctx.remote acc.1.fs u) →
      ∀ u, (u ∈ S ∨ u ∈ l.map (fun iu => iu.2)) →
        urlStable ctx.remote (l.foldl (syncOneImage ctx pid) acc).1.fs u := by
  intro l
  induction l with
  | nil =>
    intro S acc _ _ hstable u hu
    rcases hu with h | h
    · exact hstable u h
    · exact absurd h (by simp)
  | cons x xs ih =>
    intro S acc hlU hSU hstable u hu
    rw [List.foldl_cons]
    have hfs : (syncOneImage ctx pid acc x).1.fs =
        (downloadImage ctx.now ctx.remote acc.1.fs x.2).2 := by
      rw [(syncOneImage_spec ctx pid acc x).1, if_pos hf]
    have hx2U : x.2 ∈ U := hlU x (by simp)
    refine ih (x.2 :: S) (syncOneImage ctx pid acc x) ?hxs ?hSU2 ?hst2 u ?hu2
    case hxs => exact fun iu hiu => hlU iu (by simp [hiu])
    case hSU2 =>
      intro v hv
      rcases List.mem_cons.mp hv with he | hm
      · rw [he]
        exact hx2U
      · exact hSU v hm
    case hst2 =>
      intro v hv
      rw [hfs]
      rcases List.mem_cons.mp hv with he | hm
      · rw [he]
        exact dl_stabilizes ctx.remote acc.1.fs x.2 ctx.now
      · exact stable_after_dl ctx.remote acc.1.fs U hInj hHist x.2 hx2U ctx.now v
          (hSU v hm) (hstable v hm)
    case hu2 =>
      rcases hu with h | h
      · exact Or.inl (List.mem_cons.mpr (Or.inr h))
      · rw [List.map_cons] at h
        rcases List.mem_cons.mp h with he | hm
        · exact Or.inl (List.mem_cons.mpr (Or.inl he))
        · exact Or.inr hm

theorem syncPartImages_stable (ctx : PassCtx) (st : St) (pid : String)
    (urls : List String) (hf : ctx.downloadImages = true)
    (hstable : ∀ u ∈ urls.filter (fun u => u ≠ ""), urlStable ctx.remote st.fs u) :
    (syncPartImages ctx st pid urls).1.fs = st.fs
    ∧ ∀ res ∈ (syncPartImages ctx st pid urls).2,
        res.status = DlStatus.skipped_unchanged := by
  unfold syncPartImages
  have h := foldSync_stable ctx pid hf
    (jsSetDedup (urls.filter (fun u => u ≠ ""))).enum (st, [])
    (by
      intro iu hiu
      apply hstable
      exact (mem_jsSetDedup_iff _ _).mp (snd_mem_of_mem_enumFrom _ 0 iu hiu))
  exact ⟨h.1, fun res hres => (h.2 res hres).resolve_left (by simp)⟩

theorem syncPartImages_noflag (ctx : PassCtx) (st : St) (pid : String)
    (urls : List String) (hf : ctx.downloadImages = false) :
    (syncPartImages ctx st pid urls).1.fs = st.fs
    ∧ (syncPartImages ctx st pid urls).2 = [] := by
  unfold syncPartImages
  exact foldSync_noflag ctx pid hf _ (st, [])

theorem syncPartImages_establishes (ctx : PassCtx) (st : St) (pid : String)
    (urls : List String) (hf : ctx.downloadImages = true) (U : List String)
    (hInj : ∀ u ∈ U, ∀ v ∈ U, ∀ rl, getLocalImagePathFromUrl u = some rl →
        getLocalImagePathFromUrl v = some rl → u = v)
    (hHist : ∀ u ∈ U, ∀ rl, getLocalImagePathFromUrl u = some rl →
        strStartsWith rl "_history/" = false)
    (hurls : ∀ u ∈ urls.filter (fun u => u ≠ ""), u ∈ U)
    (S : List String) (hSU : ∀ u ∈ S, u ∈ U)
    (hstable : ∀ u ∈ S, urlStable ctx.remote st.fs u) :
    ∀ u, (u ∈ S ∨ u ∈ urls.filter (fun u => u ≠ "")) →
      urlStable ctx.remote (syncPartImages ctx st pid urls).1.fs u := by
  unfold syncPartImages
  intro u hu
  refine foldSync_establishes ctx pid hf U hInj hHist _ S (st, []) ?h1 hSU hstable u ?h2
  case h1 =>
    intro iu hiu
    exact hurls _ ((mem_jsSetDedup_iff _ _).mp (snd_mem_of_mem_enumFrom _ 0 iu hiu))
  case h2 =>
    rcases hu with h | h
    · exact Or.inl h
    · right
      have hmem : u ∈ jsSetDedup (urls.filter (fun u => u ≠ "")) :=
        (mem_jsSetDedup_iff _ _).mpr h
      have hmap : ((jsSetDedup (urls.filter (fun u => u ≠ ""))).enum).map
          (fun p => p.2) = jsSetDedup (urls.filter (fun u => u ≠ "")) :=
        enumFrom_map_snd _ 0
      rw [hmap]
      exact hmem

def urlsOfParts (l : List ExtractedPart) : List String :=
  (l.map (fun p => p.imageUrls.filter (fun u => u ≠ ""))).flatten

/-- The non-empty image URLs a page contributes, over its deduplicated parts. -/
def pageUrls (ps : List ExtractedPart) : List String :=
  urlsOfParts (dedupParts ps)

theorem partKey_eq_pn (p : ExtractedPart) (h : p.partNumber ≠ "") :
    partKey p = p.partNumber := by
  unfold partKey
  rw [if_neg (by simpa using h)]

theorem mergeIntoMap_keys (m : List (String × ExtractedPart)) (p : ExtractedPart) :
    (mergeIntoMap m p).map (fun kv => kv.1) =
      if (m.find? (fun kv => kv.1 == partKey p)).isSome
      then m.map (fun kv => kv.1)
      else m.map (fun kv => kv.1) ++ [partKey p] := by
  simp only [mergeIntoMap]
  split
  · rw [List.map_map]
    apply List.map_congr_left
    intro kv hkv
    by_cases hk : (kv.1 == partKey p) = true
    · simp only [Function.comp_apply, if_pos hk]
      exact (eq_of_beq hk).symm
    · simp only [Function.comp_apply, if_neg hk]
  · rw [List.map_append]
    rfl

theorem dedup_fold_keys_nodup (ps : List ExtractedPart) :
    ∀ m : List (String × ExtractedPart), ((m.map (fun kv => kv.1)).Nodup) →
      ((ps.foldl mergeIntoMap m).map (fun kv => kv.1)).Nodup := by
  induction ps with
  | nil =>
    intro m h
    exact h
  | cons p t ih =>
    intro m h
    rw [List.foldl_cons]
    apply ih
    rw [mergeIntoMap_keys]
    split
    · exact h
    · rename_i hnf
      have hnone : m.find? (fun kv => kv.1 == partKey p) = none := by
        cases hx : m.find? (fun kv => kv.1 == partKey p) with
        | none => rfl
        | some kv => exact absurd (by rw [hx]; rfl) hnf
      have hnotin : partKey p ∉ m.map (fun kv => kv.1) := by
        intro hmem
        obtain ⟨kv, hkv, hfst⟩ := List.mem_map.mp hmem
        have := List.find?_eq_none.mp hnone kv hkv
        exact this (by rw [hfst]; simp)
      rw [List.nodup_append]
      exact ⟨h, List.nodup_singleton _, by
        intro a ha hb
        rw [List.mem_singleton.mp hb] at ha
        exact hnotin ha⟩

theorem dedup_fold_key_val (ps : List ExtractedPart) :
    ∀ m : List (String × ExtractedPart), (∀ kv ∈ m, partKey kv.2 = kv.1) →
      ∀ kv ∈ ps.foldl mergeIntoMap m, partKey kv.2 = kv.1 := by
  induction ps with
  | nil =>
    intro m h
    exact h
  | cons p t ih =>
    intro m h
    rw [List.foldl_cons]
    apply ih
    simp only [mergeIntoMap]
    split
    · intro kv hkv
      obtain ⟨kv0, hkv0, heq⟩ := List.mem_map.mp hkv
      by_cases hk : (kv0.1 == partKey p) = true
      · rw [if_pos hk] at heq
        rw [← heq]
        exact (h kv0 hkv0).trans (eq_of_beq hk)
      · rw [if_neg hk] at heq
        rw [← heq]
        exact h kv0 hkv0
    · intro kv hkv
      rcases List.mem_append.mp hkv with hm | hs
      · exact h kv hm
      · rw [List.mem_singleton.mp hs]
        rfl

theorem dedupParts_keys_nodup (ps : List ExtractedPart) :
    ((dedupParts ps).map partKey).Nodup := by
  unfold dedupParts
  have h1 := dedup_fold_keys_nodup ps [] (by simp)
  have h2 := dedup_fold_key_val ps [] (by simp)
  rw [List.map_map]
  have hcong : (ps.foldl mergeIntoMap []).map (partKey ∘ (fun kv => kv.2)) =
      (ps.foldl mergeIntoMap []).map (fun kv => kv.1) :=
    List.map_congr_left (fun kv hkv => h2 kv hkv)
  rw [hcong]
  exact h1

/-- The fields a pass-1 insert pins down on the stored row of an extracted
part, stable under later closing updates of the same pass. -/
def rowMatches (mid pageUrl : String) (p : ExtractedPart) (r : PartRow) : Prop :=
  r.id = partIdOf mid p.partNumber p.name ∧ r.motorcycleId = mid ∧
  r.partNumber = p.partNumber ∧ r.name = p.name ∧
  r.description = some p.description ∧ r.price = some p.price ∧
  r.imageUrl = (if optStrTruthy p.imageUrl then p.imageUrl else none) ∧
  r.isDeleted = 0 ∧ r.url = pageUrl

/-- Row equality up to the cosmetic fields a convergent second pass may touch
(image path, last_seen, scraped_at, deleted_at, currency). -/
def eqBC (r r2 : PartRow) : Prop :=
  r2.id = r.id ∧ r2.motorcycleId = r.motorcycleId ∧ r2.partNumber = r.partNumber ∧
  r2.name = r.name ∧ r2.description = r.description ∧ r2.price = r.price ∧
  r2.imageUrl = r.imageUrl ∧ r2.isDeleted = r.isDeleted ∧ r2.url = r.url

theorem forall2_map_right_mem {α β : Type} {R : α → β → Prop} (g : β → β) :
    ∀ {l : List α} {l2 : List β}, List.Forall₂ R l l2 →
      (∀ a ∈ l, ∀ b ∈ l2, R a b → R a (g b)) →
      List.Forall₂ R l (l2.map g) := by
  intro l l2 h
  induction h with
  | nil =>
    intro _
    exact List.Forall₂.nil
  | @cons a b l1 l2t hR hrest ih =>
    intro hg
    refine List.Forall₂.cons (hg a (by simp) b (by simp) hR) (ih ?_)
    intro a2 ha2 b2 hb2 hr2
    exact hg a2 (by simp [ha2]) b2 (by simp [hb2]) hr2

theorem insertPartRow_success (st : St) (mid pid : String) (p : ExtractedPart)
    (pageUrl : String) (ts : Nat) (hpn : p.partNumber ≠ "")
    (hid : ∀ r ∈ st.parts, r.id ≠ pid) :
    ∃ st1, insertPartRow st mid pid p pageUrl ts = some st1 := by
  unfold insertPartRow
  have hany : ¬ (st.parts.any (fun r => r.id == pid) = true) := by
    intro hc
    obtain ⟨r, hr, hrq⟩ := List.any_eq_true.mp hc
    exact hid r hr (eq_of_beq hrq)
  rw [if_neg (by simpa using hpn), if_neg hany]
  exact ⟨_, rfl⟩

theorem findExisting_eq_none (parts : List PartRow) (mid : String) (p : ExtractedPart)
    (hpn : p.partNumber ≠ "")
    (h : ∀ r ∈ parts, r.motorcycleId ≠ mid ∨ r.partNumber ≠ p.partNumber) :
    findExisting parts mid p = none := by
  unfold findExisting
  rw [if_pos hpn]
  apply List.find?_eq_none.mpr
  intro r hr hc
  simp only [Bool.and_eq_true] at hc
  rcases h r hr with hm | hp
  · exact hm (eq_of_beq hc.1)
  · exact hp (eq_of_beq hc.2)

theorem findExisting_eq_some (parts : List PartRow) (mid : String) (p : ExtractedPart)
    (hpn : p.partNumber ≠ "") (r : PartRow) (hmem : r ∈ parts)
    (hmid : r.motorcycleId = mid) (hrpn : r.partNumber = p.partNumber)
    (huniq : ∀ x ∈ parts, x.motorcycleId = mid → x.partNumber = p.partNumber → x = r) :
    findExisting parts mid p = some r := by
  unfold findExisting
  rw [if_pos hpn]
  apply find_first_of_unique _ hmem
  · simp [hmid, hrpn]
  · intro x hx hpx
    simp only [Bool.and_eq_true] at hpx
    exact huniq x hx (eq_of_beq hpx.1) (eq_of_beq hpx.2)

theorem rowMatches_update (mid pageUrl : String) (p : ExtractedPart) (r : PartRow)
    (h : rowMatches mid pageUrl p r) (ip : Option String) (ts : Nat) :
    rowMatches mid pageUrl p
      { r with imagePath := ip, lastSeen := some ts, isDeleted := 0,
               deletedAt := none } := by
  obtain ⟨h1, h2, h3, h4, h5, h6, h7, h8, h9⟩ := h
  exact ⟨h1, h2, h3, h4, h5, h6, h7, rfl, h9⟩

theorem markDeletedParts_noop (mid : String) (seen : List String) (ts : Nat) (st : St)
    (h : ∀ r ∈ st.parts,
      ¬ (r.motorcycleId == mid && !(seen.contains r.id) && r.isDeleted == 0) = true) :
    markDeletedParts mid seen ts st = st := by
  unfold markDeletedParts
  have hfil : st.parts.filter (fun r =>
      r.motorcycleId == mid && !(seen.contains r.id) && r.isDeleted == 0) = [] :=
    List.filter_eq_nil_iff.mpr h
  rw [hfil]
  rfl

theorem mem_urlsOfParts (l : List ExtractedPart) (u : String) :
    u ∈ urlsOfParts l ↔ ∃ p ∈ l, u ∈ p.imageUrls.filter (fun v => v ≠ "") := by
  unfold urlsOfParts
  rw [List.mem_flatten]
  constructor
  · rintro ⟨xs, hxs, hu⟩
    obtain ⟨p, hp, hpe⟩ := List.mem_map.mp hxs
    exact ⟨p, hp, by rw [hpe]; exact hu⟩
  · rintro ⟨p, hp, hu⟩
    exact ⟨_, List.mem_map_of_mem _ hp, hu⟩

theorem urlsOfParts_append (l1 l2 : List ExtractedPart) :
    urlsOfParts (l1 ++ l2) = urlsOfParts l1 ++ urlsOfParts l2 := by
  unfold urlsOfParts
  rw [List.map_append, List.flatten_append]

theorem processPart_insert_step (ctx : PassCtx) (mid pageUrl : String) (st : St)
    (p : ExtractedPart) (hpn : p.partNumber ≠ "")
    (hfresh : ∀ r ∈ st.parts, r.motorcycleId ≠ mid ∨ r.partNumber ≠ p.partNumber)
    (hid : ∀ r ∈ st.parts, r.id ≠ partIdOf mid p.partNumber p.name) :
    ∃ row2 : PartRow, ∃ stIns : St,
      insertPartRow st mid (partIdOf mid p.partNumber p.name) p pageUrl ctx.ts
        = some stIns
      ∧ stIns.fs = st.fs
      ∧ (processPart ctx mid pageUrl st p).parts = st.parts ++ [row2]
      ∧ rowMatches mid pageUrl p row2
      ∧ (processPart ctx mid pageUrl st p).history = st.history
      ∧ (processPart ctx mid pageUrl st p).fs =
          (syncPartImages ctx stIns (partIdOf mid p.partNumber p.name)
            p.imageUrls).1.fs := by
  have hfind : findExisting st.parts mid p = none :=
    findExisting_eq_none st.parts mid p hpn hfresh
  obtain ⟨stIns, hins⟩ := insertPartRow_success st mid
    (partIdOf mid p.partNumber p.name) p pageUrl ctx.ts hpn hid
  obtain ⟨hH, hPI, hFs, hNU, hNI, -, -, row, hrowParts, hrid, hrmid, hrdel, hrdelAt,
    hrpn, hrname, hrdesc, hrprice, hrcur, hrimg, hrip, hrurl, hrls⟩ :=
    insertPartRow_shape st mid (partIdOf mid p.partNumber p.name) p pageUrl ctx.ts
      stIns hins
  have hpp : processPart ctx mid pageUrl st p =
      applyFinalUpdate (syncPartImages ctx stIns
        (partIdOf mid p.partNumber p.name) p.imageUrls).1
        (partIdOf mid p.partNumber p.name) ctx.ts := by
    unfold processPart
    rw [hfind]
    dsimp only
    rw [hins]
  obtain ⟨hsP, hsH, hsNU⟩ := syncPartImages_frame ctx stIns
    (partIdOf mid p.partNumber p.name) p.imageUrls
  have hparts : (processPart ctx mid pageUrl st p).parts =
      st.parts ++ [(fun r =>
        if r.id == partIdOf mid p.partNumber p.name then
          { r with
            imagePath :=
              match primaryImagePathFromAssets (syncPartImages ctx stIns
                (partIdOf mid p.partNumber p.name) p.imageUrls).1 r with
              | some q => some q
              | none => r.imagePath,
            lastSeen := some ctx.ts, isDeleted := 0, deletedAt := none }
        else r) row] := by
    rw [hpp]
    show ((syncPartImages ctx stIns (partIdOf mid p.partNumber p.name)
        p.imageUrls).1.parts.map _) = _
    rw [hsP, hrowParts, List.map_append]
    rw [map_if_id _ _ st.parts (fun r hr => by simpa using hid r hr)]
    rfl
  refine ⟨_, stIns, hins, hFs, hparts, ?hm, ?hh, ?hf⟩
  case hm =>
    have hbase : rowMatches mid pageUrl p row :=
      ⟨hrid, hrmid, hrpn, hrname, hrdesc, hrprice, hrimg, hrdel, hrurl⟩
    dsimp only
    rw [if_pos (by rw [hrid]; simp)]
    exact rowMatches_update mid pageUrl p row hbase _ ctx.ts
  case hh =>
    rw [hpp]
    show (syncPartImages ctx stIns (partIdOf mid p.partNumber p.name)
      p.imageUrls).1.history = st.history
    rw [hsH, hH]
  case hf =>
    rw [hpp]
    rfl

theorem forall2_append {α β : Type} {R : α → β → Prop} :
    ∀ {l1 : List α} {l2 : List β}, List.Forall₂ R l1 l2 →
      ∀ {u1 : List α} {u2 : List β}, List.Forall₂ R u1 u2 →
        List.Forall₂ R (l1 ++ u1) (l2 ++ u2) := by
  intro l1 l2 h
  induction h with
  | nil =>
    intro u1 u2 hu
    exact hu
  | cons hR ht ih =>
    intro u1 u2 hu
    exact List.Forall₂.cons hR (ih hu)

theorem pass1_fold (ctx : PassCtx) (mid pageUrl : String) (st0 : St)
    (U : List String) (all : List ExtractedPart)
    (hfresh : ∀ r ∈ st0.parts, r.motorcycleId ≠ mid)
    (hInj : ∀ u ∈ U, ∀ v ∈ U, ∀ rl, getLocalImagePathFromUrl u = some rl →
        getLocalImagePathFromUrl v = some rl → u = v)
    (hHist : ∀ u ∈ U, ∀ rl, getLocalImagePathFromUrl u = some rl →
        strStartsWith rl "_history/" = false)
    (hkeys : (all.map partKey).Nodup)
    (hpids : (all.map (fun p => partIdOf mid p.partNumber p.name)).Nodup)
    (hpn : ∀ p ∈ all, p.partNumber ≠ "")
    (hdisj : ∀ r ∈ st0.parts, ∀ p ∈ all, r.id ≠ partIdOf mid p.partNumber p.name)
    (hurls : ∀ p ∈ all, ∀ u ∈ p.imageUrls.filter (fun v => v ≠ ""), u ∈ U) :
    ∀ (rest done : List ExtractedPart) (rows : List PartRow) (st : St),
      all = done ++ rest →
      st.parts = st0.parts ++ rows →
      List.Forall₂ (rowMatches mid pageUrl) done rows →
      st.history = st0.history →
      (ctx.downloadImages = true →
        ∀ u ∈ urlsOfParts done, urlStable ctx.remote st.fs u) →
      ∃ rows2,
        (rest.foldl (processPart ctx mid pageUrl) st).parts = st0.parts ++ rows2
        ∧ List.Forall₂ (rowMatches mid pageUrl) all rows2
        ∧ (rest.foldl (processPart ctx mid pageUrl) st).history = st0.history
        ∧ (ctx.downloadImages = true → ∀ u ∈ urlsOfParts all,
            urlStable ctx.remote (rest.foldl (processPart ctx mid pageUrl) st).fs u) := by
  intro rest
  induction rest with
  | nil =>
    intro done rows st hall hparts hrows hhist hstab
    rw [List.append_nil] at hall
    exact ⟨rows, hparts, by rw [hall]; exact hrows, hhist, by rw [hall]; exact hstab⟩
  | cons p t ih =>
    intro done rows st hall hparts hrows hhist hstab
    have hpmem : p ∈ all := by
      rw [hall]
      simp
    have hpnp : p.partNumber ≠ "" := hpn p hpmem
    have hkeysplit : ((done.map partKey) ++ ((p :: t).map partKey)).Nodup := by
      rw [← List.map_append, ← hall]
      exact hkeys
    have hpidsplit : ((done.map (fun q => partIdOf mid q.partNumber q.name)) ++
        ((p :: t).map (fun q => partIdOf mid q.partNumber q.name))).Nodup := by
      rw [← List.map_append, ← hall]
      exact hpids
    have hdonemem : ∀ q ∈ done, q ∈ all := by
      intro q hq
      rw [hall]
      exact List.mem_append.mpr (Or.inl hq)
    have hkeyne : ∀ q ∈ done, q.partNumber ≠ p.partNumber := by
      intro q hq hcontra
      have hdisj2 := List.disjoint_of_nodup_append hkeysplit
      have hqk : partKey q ∈ done.map partKey := List.mem_map_of_mem _ hq
      have hpk : partKey q ∈ (p :: t).map partKey := by
        rw [List.map_cons]
        rw [partKey_eq_pn q (hpn q (hdonemem q hq)), hcontra, ← partKey_eq_pn p hpnp]
        simp
      exact hdisj2 hqk hpk
    have hidne : ∀ q ∈ done,
        partIdOf mid q.partNumber q.name ≠ partIdOf mid p.partNumber p.name := by
      intro q hq hcontra
      have hdisj2 := List.disjoint_of_nodup_append hpidsplit
      have hqk : partIdOf mid q.partNumber q.name ∈
          done.map (fun q => partIdOf mid q.partNumber q.name) :=
        List.mem_map_of_mem _ hq
      have hpk : partIdOf mid q.partNumber q.name ∈
          (p :: t).map (fun q => partIdOf mid q.partNumber q.name) := by
        rw [List.map_cons, hcontra]
        simp
      exact hdisj2 hqk hpk
    have hfreshst : ∀ r ∈ st.parts, r.motorcycleId ≠ mid ∨ r.partNumber ≠ p.partNumber := by
      intro r hr
      rw [hparts] at hr
      rcases List.mem_append.mp hr with h0 | hrow
      · exact Or.inl (hfresh r h0)
      · obtain ⟨q, hq, hmatch⟩ := forall2_mem_right hrows r hrow
        right
        rw [hmatch.2.2.1]
        exact hkeyne q hq
    have hidst : ∀ r ∈ st.parts, r.id ≠ partIdOf mid p.partNumber p.name := by
      intro r hr
      rw [hparts] at hr
      rcases List.mem_append.mp hr with h0 | hrow
      · exact hdisj r h0 p hpmem
      · obtain ⟨q, hq, hmatch⟩ := forall2_mem_right hrows r hrow
        rw [hmatch.1]
        exact hidne q hq
    obtain ⟨row2, stIns, hins, hinsFs, hstepParts, hstepMatch, hstepHist, hstepFs⟩ :=
      processPart_insert_step ctx mid pageUrl st p hpnp hfreshst hidst
    rw [List.foldl_cons]
    have hall2 : all = (done ++ [p]) ++ t := by
      rw [hall, List.append_assoc]
      rfl
    refine ih (done ++ [p]) (rows ++ [row2]) (processPart ctx mid pageUrl st p)
      hall2 ?hparts2 ?hrows2 ?hhist2 ?hstab2
    case hparts2 =>
      rw [hstepParts, hparts, List.append_assoc]
    case hrows2 =>
      exact forall2_append hrows
        (List.Forall₂.cons hstepMatch List.Forall₂.nil)
    case hhist2 =>
      rw [hstepHist, hhist]
    case hstab2 =>
      intro hf u hu
      rw [hstepFs]
      have hSU : ∀ v ∈ urlsOfParts done, v ∈ U := by
        intro v hv
        obtain ⟨q, hq, hvq⟩ := (mem_urlsOfParts done v).mp hv
        exact hurls q (hdonemem q hq) v hvq
      have hstable0 : ∀ v ∈ urlsOfParts done, urlStable ctx.remote stIns.fs v := by
        intro v hv
        rw [hinsFs]
        exact hstab hf v hv
      refine syncPartImages_establishes ctx stIns
        (partIdOf mid p.partNumber p.name) p.imageUrls hf U hInj hHist
        (hurls p hpmem) (urlsOfParts done) hSU hstable0 u ?hu2
      rw [urlsOfParts_append] at hu
      rcases List.mem_append.mp hu with h1 | h2
      · exact Or.inl h1
      · right
        have : urlsOfParts [p] = p.imageUrls.filter (fun v => v ≠ "") := by
          unfold urlsOfParts
          simp
        rw [this] at h2
        exact h2

theorem forall2_mem_left {α β : Type} {R : α → β → Prop} :
    ∀ {l : List α} {l2 : List β}, List.Forall₂ R l l2 → ∀ a ∈ l, ∃ b ∈ l2, R a b := by
  intro l l2 h
  induction h with
  | nil =>
    intro a ha
    exact absurd ha (by simp)
  | cons hR hrest ih =>
    intro a ha
    rcases List.mem_cons.mp ha with he | ht
    · exact ⟨_, List.mem_cons_self _ _, by rw [he]; exact hR⟩
    · obtain ⟨b, hb, hr⟩ := ih a ht
      exact ⟨b, by simp [hb], hr⟩

theorem forall2_map_eq {α β γ : Type} {R : α → β → Prop} (f : α → γ) (g : β → γ)
    (hfg : ∀ a b, R a b → f a = g b) :
    ∀ {l : List α} {l2 : List β}, List.Forall₂ R l l2 → l.map f = l2.map g := by
  intro l l2 h
  induction h with
  | nil => rfl
  | cons hR hrest ih =>
    simp only [List.map_cons]
    rw [hfg _ _ hR, ih]

theorem forall2_split {α β : Type} {R : α → β → Prop} :
    ∀ (l1 : List α) (x : α) (l2 : List α) (ys : List β),
      List.Forall₂ R (l1 ++ x :: l2) ys →
      ∃ y1 y y2, ys = y1 ++ y :: y2 ∧ List.Forall₂ R l1 y1 ∧ R x y
        ∧ List.Forall₂ R l2 y2 := by
  intro l1
  induction l1 with
  | nil =>
    intro x l2 ys h
    cases h with
    | cons hR hrest => exact ⟨[], _, _, rfl, List.Forall₂.nil, hR, hrest⟩
  | cons a t ih =>
    intro x l2 ys h
    cases h with
    | cons hR hrest =>
      obtain ⟨y1, y, y2, hys, h1, h2, h3⟩ := ih x l2 _ hrest
      exact ⟨_ :: y1, y, y2, by rw [hys]; rfl, List.Forall₂.cons hR h1, h2, h3⟩

theorem processExisting_nochange (ctx : PassCtx) (pageUrl : String) (st : St)
    (p : ExtractedPart) (ex : PartRow)
    (hprice : ex.price = some p.price)
    (hname : ex.name = p.name)
    (hdesc : ex.description = some p.description)
    (himg : ex.imageUrl = (if optStrTruthy p.imageUrl then p.imageUrl else none))
    (hdel : ex.isDeleted = 0)
    (hicc : ∀ res ∈ (syncPartImages ctx st ex.id p.imageUrls).2,
        res.status = DlStatus.skipped_unchanged) :
    processExisting ctx pageUrl st p ex =
      applyFinalUpdate (syncPartImages ctx st ex.id p.imageUrls).1 ex.id ctx.ts := by
  simp only [processExisting]
  have h1 : (ex.price.getD 0 == p.price) = true := by
    rw [hprice]
    simp
  have h2 : (ex.name == p.name) = true := by
    rw [hname]
    simp
  have h3 : ((ex.description.getD "") == p.description) = true := by
    rw [hdesc]
    simp
  have h4 : ((ex.imageUrl.getD "") == (p.imageUrl.getD "")) = true := by
    rw [himg]
    by_cases ht : optStrTruthy p.imageUrl = true
    · rw [if_pos ht]
      simp
    · rw [if_neg ht]
      unfold optStrTruthy at ht
      have hb : (p.imageUrl.getD "" == "") = true := by
        simpa using ht
      rw [Option.getD_none, eq_of_beq hb]
      simp
  have h5 : ((syncPartImages ctx st ex.id p.imageUrls).2.any
      (fun img => img.status == DlStatus.downloaded_updated)) = false := by
    rw [Bool.eq_false_iff]
    intro hc
    obtain ⟨res, hres, hst⟩ := List.any_eq_true.mp hc
    rw [hicc res hres] at hst
    exact absurd hst (by decide)
  have h6 : (ex.isDeleted == 0) = true := by
    rw [hdel]
    simp
  rw [if_neg (by simp [h1, h2, h3, h4, h5, h6])]

theorem mem_map_self {α : Type} (f : α → α) (l : List α) (x : α) (hx : x ∈ l)
    (hfx : f x = x) : x ∈ l.map f := by
  rw [← hfx]
  exact List.mem_map_of_mem f hx

theorem pass2_fold (ctx : PassCtx) (mid pageUrl : String) (stA st0 : St)
    (U : List String) (all : List ExtractedPart) (rowsA : List PartRow)
    (hfresh0 : ∀ r ∈ st0.parts, r.motorcycleId ≠ mid)
    (hAparts : stA.parts = st0.parts ++ rowsA)
    (hrowsA : List.Forall₂ (rowMatches mid pageUrl) all rowsA)
    (hidsA : (stA.parts.map (fun r => r.id)).Nodup)
    (hkeys : (all.map partKey).Nodup)
    (hpids : (all.map (fun p => partIdOf mid p.partNumber p.name)).Nodup)
    (hpn : ∀ p ∈ all, p.partNumber ≠ "")
    (hurlsU : ∀ p ∈ all, ∀ u ∈ p.imageUrls.filter (fun v => v ≠ ""), u ∈ U) :
    ∀ (rest done : List ExtractedPart) (st : St),
      all = done ++ rest →
      st.history = stA.history →
      List.Forall₂ eqBC stA.parts st.parts →
      (ctx.downloadImages = true → ∀ u ∈ U, urlStable ctx.remote st.fs u) →
      (∀ q ∈ done, ∃ r ∈ st.parts, r.id = partIdOf mid q.partNumber q.name
          ∧ r.lastSeen = some ctx.ts) →
      ((rest.foldl (processPart ctx mid pageUrl) st).history = stA.history
       ∧ List.Forall₂ eqBC stA.parts
           (rest.foldl (processPart ctx mid pageUrl) st).parts
       ∧ (ctx.downloadImages = true → ∀ u ∈ U,
            urlStable ctx.remote (rest.foldl (processPart ctx mid pageUrl) st).fs u)
       ∧ ∀ q ∈ all, ∃ r ∈ (rest.foldl (processPart ctx mid pageUrl) st).parts,
            r.id = partIdOf mid q.partNumber q.name ∧ r.lastSeen = some ctx.ts) := by
  have hpnsAll : (all.map (fun q => q.partNumber)).Nodup := by
    have hmapeq : all.map partKey = all.map (fun q => q.partNumber) :=
      List.map_congr_left (fun q hq => partKey_eq_pn q (hpn q hq))
    rw [← hmapeq]
    exact hkeys
  have hpnsA : rowsA.map (fun r => r.partNumber) = all.map (fun q => q.partNumber) :=
    (forall2_map_eq (fun q => q.partNumber) (fun r => r.partNumber)
      (fun a b hab => hab.2.2.1.symm) hrowsA).symm
  have hpnsANodup : (rowsA.map (fun r => r.partNumber)).Nodup := by
    rw [hpnsA]
    exact hpnsAll
  intro rest
  induction rest with
  | nil =>
    intro done st hall hhist hbc hstab hdone
    rw [List.append_nil] at hall
    exact ⟨hhist, hbc, hstab, by rw [hall]; exact hdone⟩
  | cons p t ih =>
    intro done st hall hhist hbc hstab hdone
    have hpmem : p ∈ all := by
      rw [hall]
      simp
    have hpnp : p.partNumber ≠ "" := hpn p hpmem
    have hrowsA0 : List.Forall₂ (rowMatches mid pageUrl) (done ++ p :: t) rowsA := by
      rw [← hall]
      exact hrowsA
    obtain ⟨y1, aP, y2, hysplit, hf1, hmP, hf2⟩ := forall2_split done p t rowsA hrowsA0
    obtain ⟨hm1, hm2, hm3, hm4, hm5, hm6, hm7, hm8, hm9⟩ := hmP
    have haPmemA : aP ∈ rowsA := by
      rw [hysplit]
      simp
    have haPmem : aP ∈ stA.parts := by
      rw [hAparts]
      exact List.mem_append.mpr (Or.inr haPmemA)
    have huniqA : ∀ aa ∈ stA.parts, aa.motorcycleId = mid →
        aa.partNumber = p.partNumber → aa = aP := by
      intro aa haa hamid hapn
      rw [hAparts] at haa
      rcases List.mem_append.mp haa with h0 | hA
      · exact absurd hamid (hfresh0 aa h0)
      · refine List.inj_on_of_nodup_map hpnsANodup hA haPmemA ?_
        show aa.partNumber = aP.partNumber
        rw [hapn, hm3]
    have hidseq : stA.parts.map (fun r => r.id) = st.parts.map (fun r => r.id) :=
      forall2_map_eq _ _ (fun a b hab => hab.1.symm) hbc
    have hidsSt : (st.parts.map (fun r => r.id)).Nodup := by
      rw [← hidseq]
      exact hidsA
    obtain ⟨ex, hexmem, hbcx⟩ := forall2_mem_left hbc aP haPmem
    obtain ⟨hb1, hb2, hb3, hb4, hb5, hb6, hb7, hb8, hb9⟩ := hbcx
    have hexid : ex.id = partIdOf mid p.partNumber p.name := by
      rw [hb1, hm1]
    have hfind : findExisting st.parts mid p = some ex := by
      refine findExisting_eq_some st.parts mid p hpnp ex hexmem ?hmid2 ?hpn2 ?huniq2
      case hmid2 =>
        rw [hb2, hm2]
      case hpn2 =>
        rw [hb3, hm3]
      case huniq2 =>
        intro x hx hxmid hxpn
        obtain ⟨ax, haxmem, hbax⟩ := forall2_mem_right hbc x hx
        have hax : ax = aP := by
          refine huniqA ax haxmem ?_ ?_
          · rw [← hbax.2.1]
            exact hxmid
          · rw [← hbax.2.2.1]
            exact hxpn
        refine List.inj_on_of_nodup_map hidsSt hx hexmem ?_
        show x.id = ex.id
        rw [hbax.1, hax, ← hb1]
    have hproc : processPart ctx mid pageUrl st p =
        processExisting ctx pageUrl st p ex := by
      unfold processPart
      rw [hfind]
    have hstabp : ctx.downloadImages = true →
        ∀ u ∈ p.imageUrls.filter (fun v => v ≠ ""), urlStable ctx.remote st.fs u := by
      intro hfc u hu
      exact hstab hfc u (hurlsU p hpmem u hu)
    have hsyncfs : (syncPartImages ctx st ex.id p.imageUrls).1.fs = st.fs := by
      cases hfc : ctx.downloadImages with
      | false => exact (syncPartImages_noflag ctx st ex.id p.imageUrls hfc).1
      | true => exact (syncPartImages_stable ctx st ex.id p.imageUrls hfc (hstabp hfc)).1
    have hicc : ∀ res ∈ (syncPartImages ctx st ex.id p.imageUrls).2,
        res.status = DlStatus.skipped_unchanged := by
      cases hfc : ctx.downloadImages with
      | false =>
        intro res hres
        rw [(syncPartImages_noflag ctx st ex.id p.imageUrls hfc).2] at hres
        exact absurd hres (by simp)
      | true => exact (syncPartImages_stable ctx st ex.id p.imageUrls hfc (hstabp hfc)).2
    have hstep : processPart ctx mid pageUrl st p =
        applyFinalUpdate (syncPartImages ctx st ex.id p.imageUrls).1 ex.id ctx.ts := by
      rw [hproc]
      exact processExisting_nochange ctx pageUrl st p ex
        (by rw [hb6, hm6]) (by rw [hb4, hm4]) (by rw [hb5, hm5])
        (by rw [hb7, hm7]) (by rw [hb8, hm8]) hicc
    have hPartsFrame := (syncPartImages_frame ctx st ex.id p.imageUrls).1
    have hHistFrame := (syncPartImages_frame ctx st ex.id p.imageUrls).2.1
    have hstparts : (processPart ctx mid pageUrl st p).parts =
        st.parts.map (fun r =>
          if r.id == ex.id then
            { r with
              imagePath :=
                match primaryImagePathFromAssets
                    (syncPartImages ctx st ex.id p.imageUrls).1 r with
                | some q2 => some q2
                | none => r.imagePath,
              lastSeen := some ctx.ts, isDeleted := 0, deletedAt := none }
          else r) := by
      rw [hstep]
      show (syncPartImages ctx st ex.id p.imageUrls).1.parts.map _ = _
      rw [hPartsFrame]
    have hsthist : (processPart ctx mid pageUrl st p).history = stA.history := by
      rw [hstep]
      show (syncPartImages ctx st ex.id p.imageUrls).1.history = stA.history
      rw [hHistFrame, hhist]
    have hstfs : (processPart ctx mid pageUrl st p).fs = st.fs := by
      rw [hstep]
      show (syncPartImages ctx st ex.id p.imageUrls).1.fs = st.fs
      exact hsyncfs
    have hpidsplit : ((done.map (fun q => partIdOf mid q.partNumber q.name)) ++
        ((p :: t).map (fun q => partIdOf mid q.partNumber q.name))).Nodup := by
      rw [← List.map_append, ← hall]
      exact hpids
    have hidne : ∀ q ∈ done,
        partIdOf mid q.partNumber q.name ≠ partIdOf mid p.partNumber p.name := by
      intro q hq hcontra
      have hdisj2 := List.disjoint_of_nodup_append hpidsplit
      have hqk : partIdOf mid q.partNumber q.name ∈
          done.map (fun q => partIdOf mid q.partNumber q.name) :=
        List.mem_map_of_mem _ hq
      have hpk : partIdOf mid q.partNumber q.name ∈
          (p :: t).map (fun q => partIdOf mid q.partNumber q.name) := by
        rw [List.map_cons, hcontra]
        simp
      exact hdisj2 hqk hpk
    rw [List.foldl_cons]
    have hall2 : all = (done ++ [p]) ++ t := by
      rw [hall, List.append_assoc]
      rfl
    refine ih (done ++ [p]) (processPart ctx mid pageUrl st p) hall2 hsthist
      ?hbc2 ?hstab2 ?hdone2
    case hbc2 =>
      rw [hstparts]
      refine forall2_map_right_mem _ hbc ?_
      intro a ha b hbmem hab
      by_cases hcid : (b.id == ex.id) = true
      · rw [if_pos hcid]
        obtain ⟨g1, g2, g3, g4, g5, g6, g7, g8, g9⟩ := hab
        have haeq : a = aP := by
          refine List.inj_on_of_nodup_map hidsA ha haPmem ?_
          show a.id = aP.id
          rw [← g1, eq_of_beq hcid, hb1]
        refine ⟨g1, g2, g3, g4, g5, g6, g7, ?_, g9⟩
        show (0 : Nat) = a.isDeleted
        rw [haeq, hm8]
      · rw [if_neg hcid]
        exact hab
    case hstab2 =>
      intro hfc u hu
      rw [hstfs]
      exact hstab hfc u hu
    case hdone2 =>
      intro q hq
      rcases List.mem_append.mp hq with hqd | hqp
      · obtain ⟨rq, hrqmem, hrqid, hrqls⟩ := hdone q hqd
        rw [hstparts]
        have hnot : ¬ (rq.id == ex.id) = true := by
          intro hcq
          exact hidne q hqd (by rw [← hrqid, eq_of_beq hcq, hexid])
        exact ⟨rq, mem_map_self _ _ _ hrqmem (by rw [if_neg hnot]), hrqid, hrqls⟩
      · have hqp2 : q = p := by
          simpa using hqp
        rw [hstparts]
        refine ⟨_, List.mem_map_of_mem _ hexmem, ?hi, ?hl⟩
        case hi =>
          rw [if_pos (by simp : (ex.id == ex.id) = true)]
          rw [hqp2]
          exact hexid
        case hl =>
          rw [if_pos (by simp : (ex.id == ex.id) = true)]

theorem forall2_refl {α : Type} {R : α → α → Prop} :
    ∀ (l : List α), (∀ a ∈ l, R a a) → List.Forall₂ R l l := by
  intro l
  induction l with
  | nil =>
    intro _
    exact List.Forall₂.nil
  | cons x t ih =>
    intro h
    exact List.Forall₂.cons (h x (by simp)) (ih (fun a ha => h a (by simp [ha])))

/-- C1 (amended, fresh vehicle): processing a model page twice in succession
with identical extracted records and an unchanged remote image environment,
starting from a state holding no rows of that vehicle — with non-empty part
numbers, collision-free derived ids and image URLs mapping to distinct
non-archive local paths — leaves the parts_history table exactly as the first
pass left it, while every part's stored row carries the second pass's
timestamp as last_seen. -/
theorem c1_no_op_convergence (ctx1 ctx2 : PassCtx) (mid pageUrl : String)
    (ps : List ExtractedPart) (st0 : St)
    (hfresh : ∀ r ∈ st0.parts, r.motorcycleId ≠ mid)
    (hids0 : (st0.parts.map (fun r => r.id)).Nodup)
    (hpn : ∀ p ∈ dedupParts ps, p.partNumber ≠ "")
    (hseen : (seenIdsOf mid ps).Nodup)
    (hdisj : ∀ r ∈ st0.parts, r.id ∉ seenIdsOf mid ps)
    (hInj : ∀ u ∈ pageUrls ps, ∀ v ∈ pageUrls ps, ∀ rl,
        getLocalImagePathFromUrl u = some rl →
        getLocalImagePathFromUrl v = some rl → u = v)
    (hHist : ∀ u ∈ pageUrls ps, ∀ rl, getLocalImagePathFromUrl u = some rl →
        strStartsWith rl "_history/" = false)
    (hremote : ctx2.remote = ctx1.remote)
    (hflag : ctx2.downloadImages = ctx1.downloadImages) :
    (runPass ctx2 mid pageUrl ps (runPass ctx1 mid pageUrl ps st0)).history
      = (runPass ctx1 mid pageUrl ps st0).history
    ∧ ∀ p ∈ dedupParts ps,
        ∃ r ∈ (runPass ctx2 mid pageUrl ps (runPass ctx1 mid pageUrl ps st0)).parts,
          r.id = partIdOf mid p.partNumber p.name ∧ r.lastSeen = some ctx2.ts := by
  have hkeys : ((dedupParts ps).map partKey).Nodup := dedupParts_keys_nodup ps
  have hpids : ((dedupParts ps).map
      (fun p => partIdOf mid p.partNumber p.name)).Nodup := hseen
  have hdisjAll : ∀ r ∈ st0.parts, ∀ p ∈ dedupParts ps,
      r.id ≠ partIdOf mid p.partNumber p.name := by
    intro r hr p hp hcontra
    exact hdisj r hr (by rw [hcontra]; exact List.mem_map_of_mem _ hp)
  have hurlsU : ∀ p ∈ dedupParts ps,
      ∀ u ∈ p.imageUrls.filter (fun v => v ≠ ""), u ∈ pageUrls ps := by
    intro p hp u hu
    exact (mem_urlsOfParts (dedupParts ps) u).mpr ⟨p, hp, hu⟩
  obtain ⟨rowsA, hparts1, hrows1, hhist1, hstab1⟩ :=
    pass1_fold ctx1 mid pageUrl st0 (pageUrls ps) (dedupParts ps) hfresh hInj hHist
      hkeys hpids hpn hdisjAll hurlsU (dedupParts ps) [] [] st0 (by simp)
      (by simp) List.Forall₂.nil rfl
      (by
        intro _ u hu
        exact absurd hu (by simp [urlsOfParts]))
  have hnoop1 : markDeletedParts mid (seenIdsOf mid ps) ctx1.ts
      ((dedupParts ps).foldl (processPart ctx1 mid pageUrl) st0) =
      (dedupParts ps).foldl (processPart ctx1 mid pageUrl) st0 := by
    apply markDeletedParts_noop
    intro r hr hcond
    rw [hparts1] at hr
    simp only [Bool.and_eq_true] at hcond
    rcases List.mem_append.mp hr with h0 | hA
    · exact hfresh r h0 (eq_of_beq hcond.1.1)
    · obtain ⟨q, hq, hmq⟩ := forall2_mem_right hrows1 r hA
      have hrid : r.id ∈ seenIdsOf mid ps := by
        rw [hmq.1]
        exact List.mem_map_of_mem _ hq
      have hcont := hcond.1.2
      simp only [Bool.not_eq_true'] at hcont
      have hnmem : r.id ∉ seenIdsOf mid ps := by
        simpa using hcont
      exact absurd hrid hnmem
  have hrp1 : runPass ctx1 mid pageUrl ps st0 =
      (dedupParts ps).foldl (processPart ctx1 mid pageUrl) st0 := by
    unfold runPass processParts
    exact hnoop1
  have hmaprows : rowsA.map (fun r => r.id) =
      (dedupParts ps).map (fun p => partIdOf mid p.partNumber p.name) :=
    (forall2_map_eq (fun p => partIdOf mid p.partNumber p.name) (fun r => r.id)
      (fun a b hab => hab.1.symm) hrows1).symm
  have hidsA : (((dedupParts ps).foldl (processPart ctx1 mid pageUrl)
      st0).parts.map (fun r => r.id)).Nodup := by
    rw [hparts1, List.map_append, List.nodup_append]
    refine ⟨hids0, by rw [hmaprows]; exact hpids, ?_⟩
    intro a ha hb
    obtain ⟨r, hr, hrid⟩ := List.mem_map.mp ha
    rw [hmaprows] at hb
    exact hdisj r hr (by rw [hrid]; exact hb)
  have hstab2start : ctx2.downloadImages = true →
      ∀ u ∈ pageUrls ps, urlStable ctx2.remote
        ((dedupParts ps).foldl (processPart ctx1 mid pageUrl) st0).fs u := by
    intro hf2 u hu
    rw [hremote]
    exact hstab1 (by rw [← hflag]; exact hf2) u hu
  obtain ⟨hist2, hbc2, hstab2, hlast2⟩ :=
    pass2_fold ctx2 mid pageUrl
      ((dedupParts ps).foldl (processPart ctx1 mid pageUrl) st0)
      st0 (pageUrls ps) (dedupParts ps) rowsA hfresh hparts1 hrows1 hidsA hkeys
      hpids hpn hurlsU (dedupParts ps) []
      ((dedupParts ps).foldl (processPart ctx1 mid pageUrl) st0)
      (by simp) rfl
      (forall2_refl _ (fun a _ => ⟨rfl, rfl, rfl, rfl, rfl, rfl, rfl, rfl, rfl⟩))
      hstab2start (by intro q hq; exact absurd hq (by simp))
  have hnoop2 : markDeletedParts mid (seenIdsOf mid ps) ctx2.ts
      ((dedupParts ps).foldl (processPart ctx2 mid pageUrl)
        ((dedupParts ps).foldl (processPart ctx1 mid pageUrl) st0)) =
      (dedupParts ps).foldl (processPart ctx2 mid pageUrl)
        ((dedupParts ps).foldl (processPart ctx1 mid pageUrl) st0) := by
    apply markDeletedParts_noop
    intro r hr hcond
    simp only [Bool.and_eq_true] at hcond
    obtain ⟨a, haA, hab⟩ := forall2_mem_right hbc2 r hr
    rw [hparts1] at haA
    rcases List.mem_append.mp haA with h0 | hA
    · exact hfresh a h0 (by rw [← hab.2.1]; exact eq_of_beq hcond.1.1)
    · obtain ⟨q, hq, hmq⟩ := forall2_mem_right hrows1 a hA
      have hrid : r.id ∈ seenIdsOf mid ps := by
        rw [hab.1, hmq.1]
        exact List.mem_map_of_mem _ hq
      have hcont := hcond.1.2
      simp only [Bool.not_eq_true'] at hcont
      have hnmem : r.id ∉ seenIdsOf mid ps := by
        simpa using hcont
      exact absurd hrid hnmem
  rw [hrp1]
  constructor
  · show (runPass ctx2 mid pageUrl ps _).history = _
    unfold runPass processParts
    rw [hnoop2]
    exact hist2
  · intro p hp
    show ∃ r ∈ (runPass ctx2 mid pageUrl ps _).parts, _
    unfold runPass processParts
    rw [hnoop2]
    exact hlast2 p hp

/-- C1 exhibits: a vehicle that already has a stored row with a primary image
URL while the page record carries none. -/
def exPartC1 : ExtractedPart :=
  { name := "N", partNumber := "P1", description := "d", price := 100,
    currency := "EUR", imageUrl := none, imageUrls := [] }

def exRowC1 : PartRow :=
  { id := partIdOf "m" "P1" "N", motorcycleId := "m", name := "N",
    partNumber := "P1", description := some "d", price := some 100,
    currency := some "EUR", imageUrl := some "http://site/images/old.jpg",
    imagePath := none, url := "http://x", scrapedAt := 0, lastSeen := none,
    isDeleted := 0, deletedAt := none }

def exStC1 : St :=
  { parts := [exRowC1], history := [], partImages := [], nextImageRowId := 1,
    nextUuid := 0, fs := [] }

def exStEmptyC1 : St :=
  { parts := [], history := [], partImages := [], nextImageRowId := 1,
    nextUuid := 0, fs := [] }

def exCtxC1 : PassCtx :=
  { remote := fun _ => none, now := 0, ts := 1, downloadImages := false }

/-- C1, counterexample to the unamended claim: with a pre-existing stored row
whose image_url is set while the freshly extracted part has none, the
image-URL diff recurs on every pass (the update falls back to the stored
image_url), so the second identical pass still inserts a new parts_history
row: one history row after pass one, two after pass two. -/
theorem c1_no_op_convergence_cex :
    ((runPass exCtxC1 "m" "http://x" [exPartC1]
        (runPass exCtxC1 "m" "http://x" [exPartC1] exStC1)).history.length,
     (runPass exCtxC1 "m" "http://x" [exPartC1] exStC1).history.length) =
      (2, 1) := by
  decide

/-- C1 witness: the amended theorem applied to a concrete one-part page over
an empty database. -/
theorem c1_no_op_convergence_witness :
    (∀ p ∈ dedupParts [exPartC1], p.partNumber ≠ "")
    ∧ ((runPass exCtxC1 "m" "http://x" [exPartC1]
          (runPass exCtxC1 "m" "http://x" [exPartC1] exStEmptyC1)).history
        = (runPass exCtxC1 "m" "http://x" [exPartC1] exStEmptyC1).history
       ∧ ∀ p ∈ dedupParts [exPartC1],
          ∃ r ∈ (runPass exCtxC1 "m" "http://x" [exPartC1]
              (runPass exCtxC1 "m" "http://x" [exPartC1] exStEmptyC1)).parts,
            r.id = partIdOf "m" p.partNumber p.name
            ∧ r.lastSeen = some exCtxC1.ts) :=
  ⟨by decide,
   c1_no_op_convergence exCtxC1 exCtxC1 "m" "http://x" [exPartC1] exStEmptyC1
     (by simp [exStEmptyC1])
     (by simp [exStEmptyC1])
     (by decide)
     (by decide)
     (by simp [exStEmptyC1])
     (by
       intro u hu
       rw [show pageUrls [exPartC1] = ([] : List String) from rfl] at hu
       exact absurd hu (by simp))
     (by
       intro u hu
       rw [show pageUrls [exPartC1] = ([] : List String) from rfl] at hu
       exact absurd hu (by simp))
     rfl rfl⟩

/-- Vehicle-level state invariant used by the deletion/restoration roundtrip:
distinct row ids, every row of the vehicle carries the page url, and part
numbers identify rows of the vehicle uniquely. -/
def partsInv (mid pageUrl : String) (l : List PartRow) : Prop :=
  (l.map (fun r => r.id)).Nodup ∧
  (∀ r ∈ l, r.motorcycleId = mid → r.url = pageUrl) ∧
  (∀ r ∈ l, ∀ r2 ∈ l, r.motorcycleId = mid → r2.motorcycleId = mid →
      r.partNumber = r2.partNumber → r = r2)

theorem partsInv_map (mid pageUrl : String) (l : List PartRow)
    (g : PartRow → PartRow)
    (hid : ∀ r, (g r).id = r.id)
    (hmid : ∀ r, (g r).motorcycleId = r.motorcycleId)
    (hpn : ∀ r, (g r).partNumber = r.partNumber)
    (hurl : ∀ r, (g r).url = r.url ∨ (g r).url = pageUrl)
    (h : partsInv mid pageUrl l) : partsInv mid pageUrl (l.map g) := by
  obtain ⟨h1, h2, h3⟩ := h
  refine ⟨?_, ?_, ?_⟩
  · rw [List.map_map]
    have hc : l.map ((fun r => r.id) ∘ g) = l.map (fun r => r.id) :=
      List.map_congr_left (fun r _ => hid r)
    rw [hc]
    exact h1
  · intro r hr hrm
    obtain ⟨r0, hr0, hr0e⟩ := List.mem_map.mp hr
    subst hr0e
    rcases hurl r0 with hu | hu
    · rw [hu]
      exact h2 r0 hr0 (by rw [← hmid r0]; exact hrm)
    · exact hu
  · intro r hr r2 hr2 hm hm2 hpe
    obtain ⟨r0, hr0, hr0e⟩ := List.mem_map.mp hr
    obtain ⟨r20, hr20, hr20e⟩ := List.mem_map.mp hr2
    subst hr0e
    subst hr20e
    have : r0 = r20 := by
      refine h3 r0 hr0 r20 hr20 ?_ ?_ ?_
      · rw [← hmid r0]
        exact hm
      · rw [← hmid r20]
        exact hm2
      · rw [← hpn r0, ← hpn r20]
        exact hpe
    rw [this]

theorem if_update_field {α : Type} (c : PartRow → Bool) (u : PartRow → PartRow)
    (fld : PartRow → α) (hu : ∀ r, fld (u r) = fld r) (r : PartRow) :
    fld (if c r then u r else r) = fld r := by
  by_cases h : c r = true
  · rw [if_pos h]
    exact hu r
  · rw [if_neg h]

theorem if_update_id (c : PartRow → Bool) (u : PartRow → PartRow) (r : PartRow)
    (hc : c r = false) : (if c r then u r else r) = r := by
  rw [hc]
  rfl

theorem findExisting_none_facts (parts : List PartRow) (mid : String)
    (q : ExtractedPart) (hpn : q.partNumber ≠ "")
    (h : findExisting parts mid q = none) :
    ∀ r ∈ parts, ¬ (r.motorcycleId = mid ∧ r.partNumber = q.partNumber) := by
  unfold findExisting at h
  rw [if_pos hpn] at h
  intro r hr hc
  exact (List.find?_eq_none.mp h r hr) (by simp [hc.1, hc.2])

theorem findExisting_some_facts (parts : List PartRow) (mid : String)
    (q : ExtractedPart) (ex : PartRow) (hpn : q.partNumber ≠ "")
    (h : findExisting parts mid q = some ex) :
    ex ∈ parts ∧ ex.motorcycleId = mid ∧ ex.partNumber = q.partNumber := by
  unfold findExisting at h
  rw [if_pos hpn] at h
  refine ⟨List.mem_of_find?_eq_some h, ?_⟩
  have hp := List.find?_some h
  simp only [Bool.and_eq_true] at hp
  exact ⟨eq_of_beq hp.1, eq_of_beq hp.2⟩

theorem processExisting_foreign (ctx : PassCtx) (mid pageUrl : String) (st : St)
    (q : ExtractedPart) (ex : PartRow) (pid : String)
    (hexne : ex.id ≠ pid)
    (hinv : partsInv mid pageUrl st.parts)
    (rP : PartRow) (hPmem : rP ∈ st.parts) (hPid : rP.id = pid) :
    partsInv mid pageUrl (processExisting ctx pageUrl st q ex).parts
    ∧ rP ∈ (processExisting ctx pageUrl st q ex).parts
    ∧ (processExisting ctx pageUrl st q ex).history.filter
        (fun h => h.partId == pid)
      = st.history.filter (fun h => h.partId == pid) := by
  have hPne : (rP.id == ex.id) = false := by
    rw [beq_eq_false_iff_ne, hPid]
    exact Ne.symm hexne
  have hPneP : rP.id ≠ ex.id := by
    rw [hPid]
    exact Ne.symm hexne
  have hfe : (ex.id == pid) = false := beq_eq_false_iff_ne.mpr hexne
  have hsyncP := (syncPartImages_frame ctx st ex.id q.imageUrls).1
  have hsyncH := (syncPartImages_frame ctx st ex.id q.imageUrls).2.1
  simp only [processExisting]
  refine ⟨?hinv2, ?hmem2, ?hfil2⟩
  case hinv2 =>
    split
    · simp only [applyFinalUpdate]
      rw [hsyncP, List.map_map]
      refine partsInv_map mid pageUrl st.parts _ ?_ ?_ ?_ ?_ hinv
      · intro r
        by_cases h1 : r.id = ex.id
        · simp [h1]
        · simp [h1]
      · intro r
        by_cases h1 : r.id = ex.id
        · simp [h1]
        · simp [h1]
      · intro r
        by_cases h1 : r.id = ex.id
        · simp [h1]
        · simp [h1]
      · intro r
        by_cases h1 : r.id = ex.id
        · right
          simp [h1]
        · left
          simp [h1]
    · simp only [applyFinalUpdate]
      rw [hsyncP]
      refine partsInv_map mid pageUrl st.parts _ ?_ ?_ ?_ ?_ hinv
      · intro r
        by_cases h1 : r.id = ex.id
        · simp [h1]
        · simp [h1]
      · intro r
        by_cases h1 : r.id = ex.id
        · simp [h1]
        · simp [h1]
      · intro r
        by_cases h1 : r.id = ex.id
        · simp [h1]
        · simp [h1]
      · intro r
        left
        by_cases h1 : r.id = ex.id
        · simp [h1]
        · simp [h1]
  case hmem2 =>
    split
    · simp only [applyFinalUpdate]
      rw [hsyncP]
      exact mem_map_self _ _ _
        (mem_map_self _ _ _ hPmem (by simp [hPneP])) (by simp [hPneP])
    · simp only [applyFinalUpdate]
      rw [hsyncP]
      exact mem_map_self _ _ _ hPmem (by simp [hPneP])
  case hfil2 =>
    split
    · simp only [applyFinalUpdate]
      rw [hsyncH, List.filter_append]
      simp [hfe, hexne]
    · simp only [applyFinalUpdate]
      rw [hsyncH]

theorem processPart_foreign (ctx : PassCtx) (mid pageUrl : String) (st : St)
    (q : ExtractedPart) (pid Ppn : String)
    (hqpn : q.partNumber ≠ "") (hqne : q.partNumber ≠ Ppn)
    (hinv : partsInv mid pageUrl st.parts)
    (rP : PartRow) (hPmem : rP ∈ st.parts) (hPid : rP.id = pid)
    (hPpn : rP.partNumber = Ppn) :
    partsInv mid pageUrl (processPart ctx mid pageUrl st q).parts
    ∧ rP ∈ (processPart ctx mid pageUrl st q).parts
    ∧ (processPart ctx mid pageUrl st q).history.filter (fun h => h.partId == pid)
        = st.history.filter (fun h => h.partId == pid) := by
  cases hfind : findExisting st.parts mid q with
  | some ex =>
    have hex := findExisting_some_facts st.parts mid q ex hqpn hfind
    have hexne : ex.id ≠ pid := by
      intro hcontra
      have hexP : ex = rP :=
        List.inj_on_of_nodup_map hinv.1 hex.1 hPmem (by rw [hcontra, hPid])
      rw [hexP] at hex
      exact hqne (hex.2.2.symm.trans hPpn)
    have hpp : processPart ctx mid pageUrl st q =
        processExisting ctx pageUrl st q ex := by
      unfold processPart
      rw [hfind]
    rw [hpp]
    exact processExisting_foreign ctx mid pageUrl st q ex pid hexne hinv rP hPmem hPid
  | none =>
    cases hins : insertPartRow st mid (partIdOf mid q.partNumber q.name) q
        pageUrl ctx.ts with
    | none =>
      have hpp : processPart ctx mid pageUrl st q = st := by
        unfold processPart
        rw [hfind]
        dsimp only
        rw [hins]
      rw [hpp]
      exact ⟨hinv, hPmem, rfl⟩
    | some stIns =>
      obtain ⟨hH, hPI, hFs, hNU, hNI, hpn2, hidall, row, hrowParts, hrid, hrmid,
        hrdel, hrdelAt, hrpn, hrname, hrdesc, hrprice, hrcur, hrimg, hrip, hrurl,
        hrls⟩ :=
        insertPartRow_shape st mid (partIdOf mid q.partNumber q.name) q pageUrl
          ctx.ts stIns hins
      have hfreshq : ∀ r ∈ st.parts,
          r.motorcycleId ≠ mid ∨ r.partNumber ≠ q.partNumber := by
        intro r hr
        have hnf := findExisting_none_facts st.parts mid q hqpn hfind r hr
        by_cases hm : r.motorcycleId = mid
        · right
          intro hp
          exact hnf ⟨hm, hp⟩
        · left
          exact hm
      obtain ⟨row2, stIns2, hins2, hinsFs, hstepParts, hstepMatch, hstepHist,
        hstepFs⟩ :=
        processPart_insert_step ctx mid pageUrl st q hqpn hfreshq hidall
      obtain ⟨hs1, hs2, hs3, hs4, hs5, hs6, hs7, hs8, hs9⟩ := hstepMatch
      obtain ⟨hv1, hv2, hv3⟩ := hinv
      refine ⟨⟨?_, ?_, ?_⟩, ?_, ?_⟩
      · rw [hstepParts, List.map_append, List.nodup_append]
        refine ⟨hv1, by simp, ?_⟩
        intro a ha hb
        obtain ⟨r, hr, hrid2⟩ := List.mem_map.mp ha
        have hbe : a = row2.id := by
          simpa using hb
        apply hidall r hr
        rw [hrid2, hbe, hs1]
      · rw [hstepParts]
        intro r hr hrm
        rcases List.mem_append.mp hr with h0 | hN
        · exact hv2 r h0 hrm
        · have hre : r = row2 := by
            simpa using hN
          rw [hre]
          exact hs9
      · rw [hstepParts]
        intro r hr r2 hr2 hm hm2 hpe
        rcases List.mem_append.mp hr with h0 | hN
        · rcases List.mem_append.mp hr2 with h02 | hN2
          · exact hv3 r h0 r2 h02 hm hm2 hpe
          · have hr2e : r2 = row2 := by
              simpa using hN2
            exfalso
            rcases hfreshq r h0 with hcm | hcp
            · exact hcm hm
            · apply hcp
              rw [hpe, hr2e, hs3]
        · have hre : r = row2 := by
            simpa using hN
          rcases List.mem_append.mp hr2 with h02 | hN2
          · exfalso
            rcases hfreshq r2 h02 with hcm | hcp
            · exact hcm hm2
            · apply hcp
              rw [← hpe, hre, hs3]
          · have hr2e : r2 = row2 := by
              simpa using hN2
            rw [hre, hr2e]
      · rw [hstepParts]
        exact List.mem_append.mpr (Or.inl hPmem)
      · rw [hstepHist]

theorem foreign_fold (ctx : PassCtx) (mid pageUrl : String) (pid Ppn : String) :
    ∀ (qs : List ExtractedPart) (st : St) (rP : PartRow),
      (∀ q ∈ qs, q.partNumber ≠ "" ∧ q.partNumber ≠ Ppn) →
      partsInv mid pageUrl st.parts →
      rP ∈ st.parts → rP.id = pid → rP.partNumber = Ppn →
      (partsInv mid pageUrl (qs.foldl (processPart ctx mid pageUrl) st).parts
       ∧ rP ∈ (qs.foldl (processPart ctx mid pageUrl) st).parts
       ∧ (qs.foldl (processPart ctx mid pageUrl) st).history.filter
            (fun h => h.partId == pid)
          = st.history.filter (fun h => h.partId == pid)) := by
  intro qs
  induction qs with
  | nil =>
    intro st rP _ hinv hPmem hPid hPpn
    exact ⟨hinv, hPmem, rfl⟩
  | cons q t ih =>
    intro st rP hqs hinv hPmem hPid hPpn
    obtain ⟨hq1, hq2⟩ := hqs q (by simp)
    obtain ⟨hinv2, hmem2, hfil2⟩ :=
      processPart_foreign ctx mid pageUrl st q pid Ppn hq1 hq2 hinv rP hPmem
        hPid hPpn
    rw [List.foldl_cons]
    obtain ⟨hinv3, hmem3, hfil3⟩ :=
      ih (processPart ctx mid pageUrl st q) rP
        (fun q2 hq2m => hqs q2 (by simp [hq2m])) hinv2 hmem2 hPid hPpn
    exact ⟨hinv3, hmem3, hfil3.trans hfil2⟩

theorem perm_insertSorted {α : Type} (le : α → α → Bool) (x : α) :
    ∀ l : List α, List.Perm (insertSorted le x l) (x :: l) := by
  intro l
  induction l with
  | nil => exact List.Perm.refl _
  | cons y t ih =>
    unfold insertSorted
    by_cases h : le x y = true
    · rw [if_pos h]
    · rw [if_neg h]
      exact (List.Perm.cons y ih).trans (List.Perm.swap x y t)

theorem perm_sortByLe {α : Type} (le : α → α → Bool) :
    ∀ l : List α, List.Perm (sortByLe le l) l := by
  intro l
  induction l with
  | nil => exact List.Perm.refl _
  | cons y t ih =>
    show List.Perm (insertSorted le y (sortByLe le t)) (y :: t)
    exact (perm_insertSorted le y (sortByLe le t)).trans (List.Perm.cons y ih)

theorem map_eq_forall2 {α β γ : Type} (F : α → γ) (G : β → γ) :
    ∀ (l1 : List α) (l2 : List β), l1.map F = l2.map G →
      List.Forall₂ (fun a b => F a = G b) l1 l2 := by
  intro l1
  induction l1 with
  | nil =>
    intro l2 h
    cases l2 with
    | nil => exact List.Forall₂.nil
    | cons b t2 => exact absurd h (by simp)
  | cons a t ih =>
    intro l2 h
    cases l2 with
    | nil => exact absurd h (by simp)
    | cons b t2 =>
      simp only [List.map_cons, List.cons.injEq] at h
      exact List.Forall₂.cons h.1 (ih t2 h.2)

theorem filter_eq_singleton_of_unique {α : Type} (p : α → Bool) :
    ∀ (l : List α) (x : α), l.Nodup → x ∈ l → p x = true →
      (∀ y ∈ l, p y = true → y = x) → l.filter p = [x] := by
  intro l
  induction l with
  | nil =>
    intro x _ hx
    exact absurd hx (by simp)
  | cons y t ih =>
    intro x hnd hx hpx huniq
    rcases List.mem_cons.mp hx with he | ht
    · rw [List.filter_cons, if_pos (by rw [← he]; exact hpx)]
      have hfil : t.filter p = [] := by
        apply List.filter_eq_nil_iff.mpr
        intro z hz hpz
        have hzx : z = x := huniq z (by simp [hz]) hpz
        rw [hzx, he] at hz
        exact (List.nodup_cons.mp hnd).1 hz
      rw [hfil, he]
    · have hpy : ¬ p y = true := by
        intro hpy
        have hyx : y = x := huniq y (by simp) hpy
        rw [← hyx] at ht
        exact (List.nodup_cons.mp hnd).1 ht
      rw [List.filter_cons, if_neg hpy]
      exact ih x (List.nodup_cons.mp hnd).2 ht hpx
        (fun z hz hpz => huniq z (by simp [hz]) hpz)

theorem filter_proj_of_forall2 (pid : String) (ts : Nat) :
    ∀ {hs : List HistRow} {S : List PartRow},
      List.Forall₂ (fun h r =>
        (h.partId, h.historyEvent, h.name, h.price, h.isDeleted, h.deletedAt,
          h.recordedAt)
        = (r.id, HistEvent.deleted, r.name, r.price, r.isDeleted, r.deletedAt,
            ts)) hs S →
      (hs.filter (fun h => h.partId == pid)).map
          (fun h => (h.historyEvent, h.recordedAt))
        = (S.filter (fun r => r.id == pid)).map
            (fun _ => (HistEvent.deleted, ts)) := by
  intro hs S h
  induction h with
  | nil => rfl
  | @cons h r hst Srest htuple hrest ih =>
    simp only [Prod.mk.injEq] at htuple
    obtain ⟨ht1, ht2, -, -, -, -, ht7⟩ := htuple
    rw [List.filter_cons, List.filter_cons]
    by_cases hc : (r.id == pid) = true
    · rw [if_pos (by rw [ht1]; exact hc), if_pos hc]
      simp only [List.map_cons]
      rw [ht2, ht7, ih]
    · rw [if_neg (by rw [ht1]; exact hc), if_neg hc]
      exact ih

theorem markDeleted_flip_pid (mid : String) (seen : List String) (ts : Nat)
    (st : St) (pid : String) (rP : PartRow)
    (hids : (st.parts.map (fun r => r.id)).Nodup)
    (hurlall : ∀ r ∈ st.parts, r.motorcycleId = mid → r.url ≠ "")
    (hPmem : rP ∈ st.parts) (hPid : rP.id = pid)
    (hPmid : rP.motorcycleId = mid) (hPseen : ¬ pid ∈ seen)
    (hPdel : rP.isDeleted = 0) :
    { rP with isDeleted := 1, deletedAt := some ts }
      ∈ (markDeletedParts mid seen ts st).parts
    ∧ ((markDeletedParts mid seen ts st).history.filter
        (fun h => h.partId == pid)).map (fun h => (h.historyEvent, h.recordedAt))
      = ((st.history.filter (fun h => h.partId == pid)).map
          (fun h => (h.historyEvent, h.recordedAt))) ++ [(HistEvent.deleted, ts)] := by
  obtain ⟨hpp, hs, hhh, hmap⟩ := markDeletedParts_exact mid seen ts st hurlall
  have hcont : (seen.contains rP.id) = false := by
    rw [hPid]
    simpa using hPseen
  have hmemne : rP.id ∉ seen := by
    rw [hPid]
    exact hPseen
  have hcondP : (rP.motorcycleId == mid && !(seen.contains rP.id)
      && rP.isDeleted == 0) = true := by
    simp [hPmid, hPdel, hmemne]
  constructor
  · rw [hpp]
    refine List.mem_map.mpr ⟨rP, hPmem, ?_⟩
    rw [if_pos hcondP]
  · rw [hhh, List.filter_append, List.map_append]
    congr 1
    have hF2 := map_eq_forall2 _ _ _ _ hmap
    rw [filter_proj_of_forall2 pid ts hF2]
    have hndl : st.parts.Nodup := List.Nodup.of_map _ hids
    have hC : (st.parts.filter (fun r => r.motorcycleId == mid
        && !(seen.contains r.id) && r.isDeleted == 0)).filter
          (fun r => r.id == pid) = [rP] := by
      refine filter_eq_singleton_of_unique _ _ rP (List.Nodup.filter _ hndl)
        (List.mem_filter.mpr ⟨hPmem, hcondP⟩) (by simp [hPid]) ?_
      intro y hy hyp
      exact List.inj_on_of_nodup_map hids (List.mem_filter.mp hy).1 hPmem
        (by rw [eq_of_beq hyp, hPid])
    have hperm : List.Perm ((sortByLe delRowLe (st.parts.filter
        (fun r => r.motorcycleId == mid && !(seen.contains r.id)
          && r.isDeleted == 0))).filter (fun r => r.id == pid)) [rP] := by
      have hp0 := (perm_sortByLe delRowLe (st.parts.filter
        (fun r => r.motorcycleId == mid && !(seen.contains r.id)
          && r.isDeleted == 0))).filter (fun r => r.id == pid)
      rw [hC] at hp0
      exact hp0
    rw [List.perm_singleton.mp hperm]
    rfl

theorem markDeleted_foreign (mid : String) (seen : List String) (ts : Nat)
    (st : St) (pid : String) (rP : PartRow)
    (hPmem : rP ∈ st.parts) (hPid : rP.id = pid) (hseenP : pid ∈ seen) :
    rP ∈ (markDeletedParts mid seen ts st).parts
    ∧ (markDeletedParts mid seen ts st).history.filter (fun h => h.partId == pid)
        = st.history.filter (fun h => h.partId == pid) := by
  have hcontP : (seen.contains rP.id) = true := by
    rw [hPid]
    simpa using hseenP
  have hmemin : rP.id ∈ seen := by
    rw [hPid]
    exact hseenP
  have hcondF : ¬ (rP.motorcycleId == mid && !(seen.contains rP.id)
      && rP.isDeleted == 0) = true := by
    simp [hmemin]
  obtain ⟨hp, hpi, hfs, hni, hs, hh, hmem, -⟩ :=
    insertDeletedHist_spec ts mid (sortByLe delRowLe (st.parts.filter
      (fun r => r.motorcycleId == mid && !(seen.contains r.id)
        && r.isDeleted == 0))) st
  have hsnil : hs.filter (fun h => h.partId == pid) = [] := by
    apply List.filter_eq_nil_iff.mpr
    intro h hhs hpred
    obtain ⟨row, hrow, hrid⟩ := hmem h hhs
    have hrowF := List.mem_filter.mp ((mem_sortByLe _ _ _).mp hrow)
    have hcond := hrowF.2
    simp only [Bool.and_eq_true] at hcond
    have hcontrow : (seen.contains row.id) = false := by
      have := hcond.1.2
      simpa using this
    have hrowpid : row.id = pid := by
      rw [← hrid]
      exact eq_of_beq hpred
    rw [hrowpid] at hcontrow
    have hni : pid ∉ seen := by
      simpa using hcontrow
    exact hni hseenP
  unfold markDeletedParts
  dsimp only
  split
  · exact ⟨hPmem, rfl⟩
  · split
    · constructor
      · show rP ∈ List.map _ _
        rw [hp]
        refine mem_map_self _ _ _ hPmem ?_
        rw [if_neg hcondF]
      · show (List.filter _ _) = _
        rw [hh, List.filter_append, hsnil, List.append_nil]
    · exact ⟨by rw [hp]; exact hPmem,
        by rw [hh, List.filter_append, hsnil, List.append_nil]⟩

theorem processExisting_restore (ctx : PassCtx) (mid pageUrl : String) (st : St)
    (q : ExtractedPart) (ex : PartRow)
    (hdel : ex.isDeleted = 1) (hexmem : ex ∈ st.parts)
    (hinv : partsInv mid pageUrl st.parts) :
    (∃ rP3 ∈ (processExisting ctx pageUrl st q ex).parts,
      rP3.id = ex.id ∧ rP3.partNumber = ex.partNumber
      ∧ rP3.motorcycleId = ex.motorcycleId ∧ rP3.isDeleted = 0)
    ∧ partsInv mid pageUrl (processExisting ctx pageUrl st q ex).parts
    ∧ ∃ hist : HistRow,
        (processExisting ctx pageUrl st q ex).history.filter
          (fun h => h.partId == ex.id)
        = st.history.filter (fun h => h.partId == ex.id) ++ [hist]
        ∧ hist.historyEvent = HistEvent.restored ∧ hist.recordedAt = ctx.ts := by
  have hsyncP := (syncPartImages_frame ctx st ex.id q.imageUrls).1
  have hsyncH := (syncPartImages_frame ctx st ex.id q.imageUrls).2.1
  simp only [processExisting]
  rw [if_pos (by simp [hdel])]
  have hexmem2 : ex ∈ (syncPartImages ctx st ex.id q.imageUrls).1.parts := by
    rw [hsyncP]
    exact hexmem
  refine ⟨?hrow, ?hinv2, ?hfil⟩
  case hrow =>
    simp only [applyFinalUpdate]
    refine ⟨_, List.mem_map_of_mem _ (List.mem_map_of_mem _ hexmem2), ?_, ?_, ?_, ?_⟩
    · simp
    · simp
    · simp
    · simp
  case hinv2 =>
    simp only [applyFinalUpdate]
    rw [hsyncP, List.map_map]
    refine partsInv_map mid pageUrl st.parts _ ?_ ?_ ?_ ?_ hinv
    · intro r
      by_cases h1 : r.id = ex.id
      · simp [h1]
      · simp [h1]
    · intro r
      by_cases h1 : r.id = ex.id
      · simp [h1]
      · simp [h1]
    · intro r
      by_cases h1 : r.id = ex.id
      · simp [h1]
      · simp [h1]
    · intro r
      by_cases h1 : r.id = ex.id
      · right
        simp [h1]
      · left
        simp [h1]
  case hfil =>
    simp only [applyFinalUpdate]
    refine ⟨?hist0, ?heq, ?hev, ?hrec⟩
    case hist0 =>
      exact
        { id := generateId (ex.id ++ "-" ++ "uuid:" ++
            toString (syncPartImages ctx st ex.id q.imageUrls).1.nextUuid),
          partId := ex.id, motorcycleId := ex.motorcycleId, name := ex.name,
          partNumber := ex.partNumber, description := ex.description,
          price := ex.price, currency := ex.currency, imageUrl := ex.imageUrl,
          imagePath :=
            match List.find? (fun img =>
                img.status == DlStatus.downloaded_updated
                && optStrTruthy img.previousPath
                && (optStrTruthy ex.imageUrl && img.url == ex.imageUrl.getD ""
                  || optStrTruthy ex.imagePath
                    && img.path == ex.imagePath.getD ""))
              (syncPartImages ctx st ex.id q.imageUrls).2 with
            | some img => if optStrTruthy img.previousPath = true
                          then img.previousPath else ex.imagePath
            | none => ex.imagePath,
          url := some ex.url,
          historyEvent := if (!(ex.isDeleted == 0)) = true
                          then HistEvent.restored else HistEvent.updated,
          isDeleted := ex.isDeleted, deletedAt := ex.deletedAt,
          recordedAt := ctx.ts }
    case heq =>
      rw [hsyncH, List.filter_append]
      rw [List.filter_cons, if_pos (by simp), List.filter_nil]
    case hev =>
      simp [hdel]
    case hrec =>
      rfl

theorem pass1_fold_basic (ctx : PassCtx) (mid pageUrl : String) (st0 : St)
    (all : List ExtractedPart)
    (hfresh : ∀ r ∈ st0.parts, r.motorcycleId ≠ mid)
    (hkeys : (all.map partKey).Nodup)
    (hpids : (all.map (fun p => partIdOf mid p.partNumber p.name)).Nodup)
    (hpn : ∀ p ∈ all, p.partNumber ≠ "")
    (hdisj : ∀ r ∈ st0.parts, ∀ p ∈ all, r.id ≠ partIdOf mid p.partNumber p.name) :
    ∀ (rest done : List ExtractedPart) (rows : List PartRow) (st : St),
      all = done ++ rest →
      st.parts = st0.parts ++ rows →
      List.Forall₂ (rowMatches mid pageUrl) done rows →
      st.history = st0.history →
      ∃ rows2,
        (rest.foldl (processPart ctx mid pageUrl) st).parts = st0.parts ++ rows2
        ∧ List.Forall₂ (rowMatches mid pageUrl) all rows2
        ∧ (rest.foldl (processPart ctx mid pageUrl) st).history = st0.history := by
  intro rest
  induction rest with
  | nil =>
    intro done rows st hall hparts hrows hhist
    rw [List.append_nil] at hall
    exact ⟨rows, hparts, by rw [hall]; exact hrows, hhist⟩
  | cons p t ih =>
    intro done rows st hall hparts hrows hhist
    have hpmem : p ∈ all := by
      rw [hall]
      simp
    have hpnp : p.partNumber ≠ "" := hpn p hpmem
    have hkeysplit : ((done.map partKey) ++ ((p :: t).map partKey)).Nodup := by
      rw [← List.map_append, ← hall]
      exact hkeys
    have hpidsplit : ((done.map (fun q => partIdOf mid q.partNumber q.name)) ++
        ((p :: t).map (fun q => partIdOf mid q.partNumber q.name))).Nodup := by
      rw [← List.map_append, ← hall]
      exact hpids
    have hdonemem : ∀ q ∈ done, q ∈ all := by
      intro q hq
      rw [hall]
      exact List.mem_append.mpr (Or.inl hq)
    have hkeyne : ∀ q ∈ done, q.partNumber ≠ p.partNumber := by
      intro q hq hcontra
      have hdisj2 := List.disjoint_of_nodup_append hkeysplit
      have hqk : partKey q ∈ done.map partKey := List.mem_map_of_mem _ hq
      have hpk : partKey q ∈ (p :: t).map partKey := by
        rw [List.map_cons]
        rw [partKey_eq_pn q (hpn q (hdonemem q hq)), hcontra, ← partKey_eq_pn p hpnp]
        simp
      exact hdisj2 hqk hpk
    have hidne : ∀ q ∈ done,
        partIdOf mid q.partNumber q.name ≠ partIdOf mid p.partNumber p.name := by
      intro q hq hcontra
      have hdisj2 := List.disjoint_of_nodup_append hpidsplit
      have hqk : partIdOf mid q.partNumber q.name ∈
          done.map (fun q => partIdOf mid q.partNumber q.name) :=
        List.mem_map_of_mem _ hq
      have hpk : partIdOf mid q.partNumber q.name ∈
          (p :: t).map (fun q => partIdOf mid q.partNumber q.name) := by
        rw [List.map_cons, hcontra]
        simp
      exact hdisj2 hqk hpk
    have hfreshst : ∀ r ∈ st.parts,
        r.motorcycleId ≠ mid ∨ r.partNumber ≠ p.partNumber := by
      intro r hr
      rw [hparts] at hr
      rcases List.mem_append.mp hr with h0 | hrow
      · exact Or.inl (hfresh r h0)
      · obtain ⟨q, hq, hmatch⟩ := forall2_mem_right hrows r hrow
        right
        rw [hmatch.2.2.1]
        exact hkeyne q hq
    have hidst : ∀ r ∈ st.parts, r.id ≠ partIdOf mid p.partNumber p.name := by
      intro r hr
      rw [hparts] at hr
      rcases List.mem_append.mp hr with h0 | hrow
      · exact hdisj r h0 p hpmem
      · obtain ⟨q, hq, hmatch⟩ := forall2_mem_right hrows r hrow
        rw [hmatch.1]
        exact hidne q hq
    obtain ⟨row2, stIns, hins, hinsFs, hstepParts, hstepMatch, hstepHist, hstepFs⟩ :=
      processPart_insert_step ctx mid pageUrl st p hpnp hfreshst hidst
    rw [List.foldl_cons]
    have hall2 : all = (done ++ [p]) ++ t := by
      rw [hall, List.append_assoc]
      rfl
    refine ih (done ++ [p]) (rows ++ [row2]) (processPart ctx mid pageUrl st p)
      hall2 ?hparts2 ?hrows2 ?hhist2
    case hparts2 =>
      rw [hstepParts, hparts, List.append_assoc]
    case hrows2 =>
      exact forall2_append hrows (List.Forall₂.cons hstepMatch List.Forall₂.nil)
    case hhist2 =>
      rw [hstepHist, hhist]

theorem processPart_restore (ctx : PassCtx) (mid pageUrl : String) (st : St)
    (q : ExtractedPart) (rP : PartRow) (pid : String)
    (hqpn : q.partNumber ≠ "")
    (hinv : partsInv mid pageUrl st.parts)
    (hPmem : rP ∈ st.parts) (hPid : rP.id = pid)
    (hPpn : rP.partNumber = q.partNumber) (hPmid : rP.motorcycleId = mid)
    (hPdel : rP.isDeleted = 1) :
    (∃ rP3 ∈ (processPart ctx mid pageUrl st q).parts,
      rP3.id = pid ∧ rP3.partNumber = rP.partNumber
      ∧ rP3.motorcycleId = mid ∧ rP3.isDeleted = 0)
    ∧ partsInv mid pageUrl (processPart ctx mid pageUrl st q).parts
    ∧ ∃ hist : HistRow,
        (processPart ctx mid pageUrl st q).history.filter
          (fun h => h.partId == pid)
        = st.history.filter (fun h => h.partId == pid) ++ [hist]
        ∧ hist.historyEvent = HistEvent.restored ∧ hist.recordedAt = ctx.ts := by
  have hfind : findExisting st.parts mid q = some rP :=
    findExisting_eq_some st.parts mid q hqpn rP hPmem hPmid hPpn
      (fun x hx hxm hxp =>
        hinv.2.2 x hx rP hPmem hxm hPmid (hxp.trans hPpn.symm))
  have hpp : processPart ctx mid pageUrl st q =
      processExisting ctx pageUrl st q rP := by
    unfold processPart
    rw [hfind]
  rw [hpp]
  obtain ⟨⟨rP3, h3mem, h3id, h3pn, h3mid, h3del⟩, hinv2, hist, hfil, hev, hrec⟩ :=
    processExisting_restore ctx mid pageUrl st q rP hPdel hPmem hinv
  refine ⟨⟨rP3, h3mem, by rw [h3id, hPid], h3pn,
    by rw [h3mid, hPmid], h3del⟩, hinv2, hist, ?_, hev, hrec⟩
  rw [← hPid]
  exact hfil

theorem partsInv_markDeleted (mid pageUrl : String) (seen : List String)
    (ts : Nat) (st : St)
    (hurlall : ∀ r ∈ st.parts, r.motorcycleId = mid → r.url ≠ "")
    (hinv : partsInv mid pageUrl st.parts) :
    partsInv mid pageUrl (markDeletedParts mid seen ts st).parts := by
  obtain ⟨hpp, -⟩ := markDeletedParts_exact mid seen ts st hurlall
  rw [hpp]
  refine partsInv_map mid pageUrl st.parts _ ?_ ?_ ?_ ?_ hinv
  · intro r
    by_cases h1 : (r.motorcycleId == mid && !(seen.contains r.id)
        && r.isDeleted == 0) = true
    · rw [if_pos h1]
    · rw [if_neg h1]
  · intro r
    by_cases h1 : (r.motorcycleId == mid && !(seen.contains r.id)
        && r.isDeleted == 0) = true
    · rw [if_pos h1]
    · rw [if_neg h1]
  · intro r
    by_cases h1 : (r.motorcycleId == mid && !(seen.contains r.id)
        && r.isDeleted == 0) = true
    · rw [if_pos h1]
    · rw [if_neg h1]
  · intro r
    left
    by_cases h1 : (r.motorcycleId == mid && !(seen.contains r.id)
        && r.isDeleted == 0) = true
    · rw [if_pos h1]
    · rw [if_neg h1]

/-- C2 (amended): a part present in pass 1, absent in pass 2 and present again
in pass 3 of the same model page — starting from a state with no rows of the
vehicle, with a non-empty page url, non-empty part numbers and collision-free
derived ids — gets exactly a deleted event stamped with the second pass's
timestamp and then a restored event stamped with the third pass's timestamp,
and its stored row ends with is_deleted 0. -/
theorem c2_deletion_restoration_roundtrip
    (ctx1 ctx2 ctx3 : PassCtx) (mid pageUrl : String)
    (ps1 ps2 ps3 : List ExtractedPart) (st0 : St) (P : ExtractedPart)
    (hpage : pageUrl ≠ "")
    (hfresh : ∀ r ∈ st0.parts, r.motorcycleId ≠ mid)
    (hids0 : (st0.parts.map (fun r => r.id)).Nodup)
    (hhist0 : ∀ h ∈ st0.history, h.partId ≠ partIdOf mid P.partNumber P.name)
    (hpn1 : ∀ p ∈ dedupParts ps1, p.partNumber ≠ "")
    (hseen1 : (seenIdsOf mid ps1).Nodup)
    (hdisj1 : ∀ r ∈ st0.parts, r.id ∉ seenIdsOf mid ps1)
    (hP : P ∈ dedupParts ps1)
    (hpn2 : ∀ q ∈ dedupParts ps2, q.partNumber ≠ "")
    (habs2 : ∀ q ∈ dedupParts ps2, q.partNumber ≠ P.partNumber)
    (hid2 : partIdOf mid P.partNumber P.name ∉ seenIdsOf mid ps2)
    (hpn3 : ∀ q ∈ dedupParts ps3, q.partNumber ≠ "")
    (hq3ex : ∃ q3 ∈ dedupParts ps3, q3.partNumber = P.partNumber) :
    (((runPass ctx3 mid pageUrl ps3 (runPass ctx2 mid pageUrl ps2
        (runPass ctx1 mid pageUrl ps1 st0))).history.filter
        (fun h => h.partId == partIdOf mid P.partNumber P.name)).map
        (fun h => (h.historyEvent, h.recordedAt)))
      = [(HistEvent.deleted, ctx2.ts), (HistEvent.restored, ctx3.ts)]
    ∧ ∃ r ∈ (runPass ctx3 mid pageUrl ps3 (runPass ctx2 mid pageUrl ps2
        (runPass ctx1 mid pageUrl ps1 st0))).parts,
        r.id = partIdOf mid P.partNumber P.name ∧ r.isDeleted = 0 := by
  have hpnP : P.partNumber ≠ "" := hpn1 P hP
  have hkeys1 := dedupParts_keys_nodup ps1
  have hpids1 : ((dedupParts ps1).map
      (fun p => partIdOf mid p.partNumber p.name)).Nodup := hseen1
  have hdisjAll1 : ∀ r ∈ st0.parts, ∀ p ∈ dedupParts ps1,
      r.id ≠ partIdOf mid p.partNumber p.name := by
    intro r hr p hp hc
    exact hdisj1 r hr (by rw [hc]; exact List.mem_map_of_mem _ hp)
  obtain ⟨rowsA, hparts1, hrows1, hhist1⟩ :=
    pass1_fold_basic ctx1 mid pageUrl st0 (dedupParts ps1) hfresh hkeys1 hpids1
      hpn1 hdisjAll1 (dedupParts ps1) [] [] st0 (by simp) (by simp)
      List.Forall₂.nil rfl
  have hnoop1 : markDeletedParts mid (seenIdsOf mid ps1) ctx1.ts
      ((dedupParts ps1).foldl (processPart ctx1 mid pageUrl) st0) =
      (dedupParts ps1).foldl (processPart ctx1 mid pageUrl) st0 := by
    apply markDeletedParts_noop
    intro r hr hcond
    rw [hparts1] at hr
    simp only [Bool.and_eq_true] at hcond
    rcases List.mem_append.mp hr with h0 | hA
    · exact hfresh r h0 (eq_of_beq hcond.1.1)
    · obtain ⟨q, hq, hmq⟩ := forall2_mem_right hrows1 r hA
      have hrid : r.id ∈ seenIdsOf mid ps1 := by
        rw [hmq.1]
        exact List.mem_map_of_mem _ hq
      have hcont := hcond.1.2
      simp only [Bool.not_eq_true'] at hcont
      have hnmem : r.id ∉ seenIdsOf mid ps1 := by
        simpa using hcont
      exact absurd hrid hnmem
  have hrp1 : runPass ctx1 mid pageUrl ps1 st0 =
      (dedupParts ps1).foldl (processPart ctx1 mid pageUrl) st0 := by
    unfold runPass processParts
    exact hnoop1
  have hmaprows : rowsA.map (fun r => r.id) =
      (dedupParts ps1).map (fun p => partIdOf mid p.partNumber p.name) :=
    (forall2_map_eq (fun p => partIdOf mid p.partNumber p.name) (fun r => r.id)
      (fun a b hab => hab.1.symm) hrows1).symm
  have hidsA : (((dedupParts ps1).foldl (processPart ctx1 mid pageUrl)
      st0).parts.map (fun r => r.id)).Nodup := by
    rw [hparts1, List.map_append, List.nodup_append]
    refine ⟨hids0, by rw [hmaprows]; exact hpids1, ?_⟩
    intro a ha hb
    obtain ⟨r, hr, hrid⟩ := List.mem_map.mp ha
    rw [hmaprows] at hb
    exact hdisj1 r hr (by rw [hrid]; exact hb)
  have hpnsAll1 : ((dedupParts ps1).map (fun q => q.partNumber)).Nodup := by
    have hmapeq : (dedupParts ps1).map partKey =
        (dedupParts ps1).map (fun q => q.partNumber) :=
      List.map_congr_left (fun q hq => partKey_eq_pn q (hpn1 q hq))
    rw [← hmapeq]
    exact hkeys1
  have hpnsA : rowsA.map (fun r => r.partNumber) =
      (dedupParts ps1).map (fun q => q.partNumber) :=
    (forall2_map_eq (fun q => q.partNumber) (fun r => r.partNumber)
      (fun a b hab => hab.2.2.1.symm) hrows1).symm
  have hpnsANodup : (rowsA.map (fun r => r.partNumber)).Nodup := by
    rw [hpnsA]
    exact hpnsAll1
  have hinvA : partsInv mid pageUrl (((dedupParts ps1).foldl
      (processPart ctx1 mid pageUrl) st0).parts) := by
    refine ⟨hidsA, ?_, ?_⟩
    · intro r hr hrm
      rw [hparts1] at hr
      rcases List.mem_append.mp hr with h0 | hA
      · exact absurd hrm (hfresh r h0)
      · obtain ⟨q, hq, hmq⟩ := forall2_mem_right hrows1 r hA
        exact hmq.2.2.2.2.2.2.2.2
    · intro r hr r2 hr2 hm hm2 hpe
      rw [hparts1] at hr hr2
      rcases List.mem_append.mp hr with h0 | hA
      · exact absurd hm (hfresh r h0)
      · rcases List.mem_append.mp hr2 with h02 | hA2
        · exact absurd hm2 (hfresh r2 h02)
        · exact List.inj_on_of_nodup_map hpnsANodup hA hA2 hpe
  obtain ⟨rP0, hrP0A, hmP⟩ := forall2_mem_left hrows1 P hP
  obtain ⟨hm1, hm2, hm3, hm4, hm5, hm6, hm7, hm8, hm9⟩ := hmP
  have hrP0mem : rP0 ∈ ((dedupParts ps1).foldl (processPart ctx1 mid pageUrl)
      st0).parts := by
    rw [hparts1]
    exact List.mem_append.mpr (Or.inr hrP0A)
  obtain ⟨hinvB, hrP0B, hfilB⟩ :=
    foreign_fold ctx2 mid pageUrl (partIdOf mid P.partNumber P.name)
      P.partNumber (dedupParts ps2)
      ((dedupParts ps1).foldl (processPart ctx1 mid pageUrl) st0) rP0
      (fun q hq => ⟨hpn2 q hq, habs2 q hq⟩) hinvA hrP0mem hm1 hm3
  have hfil0 : st0.history.filter
      (fun h => h.partId == partIdOf mid P.partNumber P.name) = [] := by
    apply List.filter_eq_nil_iff.mpr
    intro h hh
    simpa using hhist0 h hh
  have hfilA : (((dedupParts ps1).foldl (processPart ctx1 mid pageUrl)
      st0).history).filter
      (fun h => h.partId == partIdOf mid P.partNumber P.name) = [] := by
    rw [hhist1]
    exact hfil0
  have hfilB2 : (((dedupParts ps2).foldl (processPart ctx2 mid pageUrl)
      ((dedupParts ps1).foldl (processPart ctx1 mid pageUrl) st0)).history).filter
      (fun h => h.partId == partIdOf mid P.partNumber P.name) = [] :=
    hfilB.trans hfilA
  obtain ⟨hrP2mem, hfilC⟩ :=
    markDeleted_flip_pid mid (seenIdsOf mid ps2) ctx2.ts
      ((dedupParts ps2).foldl (processPart ctx2 mid pageUrl)
        ((dedupParts ps1).foldl (processPart ctx1 mid pageUrl) st0))
      (partIdOf mid P.partNumber P.name) rP0 hinvB.1
      (fun r hr hrm => by rw [hinvB.2.1 r hr hrm]; exact hpage)
      hrP0B hm1 hm2 hid2 hm8
  have hfilCC : (((markDeletedParts mid (seenIdsOf mid ps2) ctx2.ts
      ((dedupParts ps2).foldl (processPart ctx2 mid pageUrl)
        ((dedupParts ps1).foldl (processPart ctx1 mid pageUrl) st0))).history.filter
      (fun h => h.partId == partIdOf mid P.partNumber P.name)).map
      (fun h => (h.historyEvent, h.recordedAt)))
      = [(HistEvent.deleted, ctx2.ts)] := by
    rw [hfilC, hfilB2]
    rfl
  have hinvC : partsInv mid pageUrl ((markDeletedParts mid (seenIdsOf mid ps2)
      ctx2.ts ((dedupParts ps2).foldl (processPart ctx2 mid pageUrl)
        ((dedupParts ps1).foldl (processPart ctx1 mid pageUrl) st0))).parts) :=
    partsInv_markDeleted mid pageUrl (seenIdsOf mid ps2) ctx2.ts _
      (fun r hr hrm => by rw [hinvB.2.1 r hr hrm]; exact hpage) hinvB
  have hrp2 : runPass ctx2 mid pageUrl ps2
      ((dedupParts ps1).foldl (processPart ctx1 mid pageUrl) st0) =
      markDeletedParts mid (seenIdsOf mid ps2) ctx2.ts
        ((dedupParts ps2).foldl (processPart ctx2 mid pageUrl)
          ((dedupParts ps1).foldl (processPart ctx1 mid pageUrl) st0)) := by
    unfold runPass processParts
    rfl
  obtain ⟨q3, hq3mem, hq3pn⟩ := hq3ex
  obtain ⟨pre, post, hsplit3⟩ := List.append_of_mem hq3mem
  have hq3pnne : q3.partNumber ≠ "" := hpn3 q3 hq3mem
  have hkeys3 : ((pre.map partKey) ++ ((q3 :: post).map partKey)).Nodup := by
    rw [← List.map_append, ← hsplit3]
    exact dedupParts_keys_nodup ps3
  have hpre : ∀ q ∈ pre, q.partNumber ≠ "" ∧ q.partNumber ≠ P.partNumber := by
    intro q hq
    have hqmem : q ∈ dedupParts ps3 := by
      rw [hsplit3]
      exact List.mem_append.mpr (Or.inl hq)
    refine ⟨hpn3 q hqmem, ?_⟩
    intro hcontra
    have hdisj2 := List.disjoint_of_nodup_append hkeys3
    apply hdisj2 (List.mem_map_of_mem partKey hq)
    rw [List.map_cons]
    rw [partKey_eq_pn q (hpn3 q hqmem), hcontra, ← hq3pn,
      ← partKey_eq_pn q3 hq3pnne]
    simp
  have hkeysq3 : ((q3 :: post).map partKey).Nodup :=
    (List.nodup_append.mp hkeys3).2.1
  have hpost : ∀ q ∈ post, q.partNumber ≠ "" ∧ q.partNumber ≠ P.partNumber := by
    intro q hq
    have hqmem : q ∈ dedupParts ps3 := by
      rw [hsplit3]
      exact List.mem_append.mpr (Or.inr (List.mem_cons.mpr (Or.inr hq)))
    refine ⟨hpn3 q hqmem, ?_⟩
    intro hcontra
    rw [List.map_cons] at hkeysq3
    apply (List.nodup_cons.mp hkeysq3).1
    have : partKey q3 = partKey q := by
      rw [partKey_eq_pn q (hpn3 q hqmem), partKey_eq_pn q3 hq3pnne, hq3pn,
        hcontra]
    rw [this]
    exact List.mem_map_of_mem partKey hq
  obtain ⟨hinvD, hrP2D, hfilD⟩ :=
    foreign_fold ctx3 mid pageUrl (partIdOf mid P.partNumber P.name)
      P.partNumber pre
      (markDeletedParts mid (seenIdsOf mid ps2) ctx2.ts
        ((dedupParts ps2).foldl (processPart ctx2 mid pageUrl)
          ((dedupParts ps1).foldl (processPart ctx1 mid pageUrl) st0)))
      { rP0 with isDeleted := 1, deletedAt := some ctx2.ts }
      hpre hinvC hrP2mem hm1 hm3
  obtain ⟨⟨rP3, h3mem, h3id, h3pn, h3mid, h3del⟩, hinvE, hist, hfilE, hev, hrec⟩ :=
    processPart_restore ctx3 mid pageUrl
      (pre.foldl (processPart ctx3 mid pageUrl)
        (markDeletedParts mid (seenIdsOf mid ps2) ctx2.ts
          ((dedupParts ps2).foldl (processPart ctx2 mid pageUrl)
            ((dedupParts ps1).foldl (processPart ctx1 mid pageUrl) st0))))
      q3 { rP0 with isDeleted := 1, deletedAt := some ctx2.ts }
      (partIdOf mid P.partNumber P.name)
      hq3pnne hinvD hrP2D hm1 (by rw [hq3pn]; exact hm3) hm2 rfl
  obtain ⟨hinvF, hrP3F, hfilF⟩ :=
    foreign_fold ctx3 mid pageUrl (partIdOf mid P.partNumber P.name)
      P.partNumber post
      (processPart ctx3 mid pageUrl
        (pre.foldl (processPart ctx3 mid pageUrl)
          (markDeletedParts mid (seenIdsOf mid ps2) ctx2.ts
            ((dedupParts ps2).foldl (processPart ctx2 mid pageUrl)
              ((dedupParts ps1).foldl (processPart ctx1 mid pageUrl) st0)))) q3)
      rP3 hpost hinvE h3mem h3id (h3pn.trans hm3)
  have hpidq3 : partIdOf mid q3.partNumber q3.name =
      partIdOf mid P.partNumber P.name := by
    unfold partIdOf
    rw [hq3pn, if_neg hpnP, if_neg hpnP]
  have hseen3P : partIdOf mid P.partNumber P.name ∈ seenIdsOf mid ps3 := by
    rw [← hpidq3]
    exact List.mem_map_of_mem _ hq3mem
  obtain ⟨hrfin, hfilG⟩ :=
    markDeleted_foreign mid (seenIdsOf mid ps3) ctx3.ts
      (post.foldl (processPart ctx3 mid pageUrl)
        (processPart ctx3 mid pageUrl
          (pre.foldl (processPart ctx3 mid pageUrl)
            (markDeletedParts mid (seenIdsOf mid ps2) ctx2.ts
              ((dedupParts ps2).foldl (processPart ctx2 mid pageUrl)
                ((dedupParts ps1).foldl (processPart ctx1 mid pageUrl) st0))))
          q3))
      (partIdOf mid P.partNumber P.name) rP3 hrP3F h3id hseen3P
  have hrp3 : runPass ctx3 mid pageUrl ps3
      (markDeletedParts mid (seenIdsOf mid ps2) ctx2.ts
        ((dedupParts ps2).foldl (processPart ctx2 mid pageUrl)
          ((dedupParts ps1).foldl (processPart ctx1 mid pageUrl) st0))) =
      markDeletedParts mid (seenIdsOf mid ps3) ctx3.ts
        (post.foldl (processPart ctx3 mid pageUrl)
          (processPart ctx3 mid pageUrl
            (pre.foldl (processPart ctx3 mid pageUrl)
              (markDeletedParts mid (seenIdsOf mid ps2) ctx2.ts
                ((dedupParts ps2).foldl (processPart ctx2 mid pageUrl)
                  ((dedupParts ps1).foldl (processPart ctx1 mid pageUrl) st0))))
            q3)) := by
    unfold runPass processParts
    rw [hsplit3, List.foldl_append, List.foldl_cons]
  rw [hrp1, hrp2, hrp3]
  constructor
  · rw [hfilG, hfilF, hfilE, hfilD, List.map_append, hfilCC]
    simp [hev, hrec]
  · exact ⟨rP3, hrfin, h3id, h3del⟩

/-- C2 exhibit: a part whose extracted part number is empty; its insert fails
silently, so the roundtrip never materializes. -/
def exPartC2 : ExtractedPart :=
  { name := "N2", partNumber := "", description := "d", price := 100,
    currency := "EUR", imageUrl := none, imageUrls := [] }

/-- C2, counterexample to the unamended claim: a part present in pass 1,
absent in pass 2 and present again in pass 3 whose part number is empty never
reaches the parts table (part_number NOT NULL), so its history receives no
deleted and no restored event — after the three passes both the history and
the parts table are still empty. -/
theorem c2_deletion_restoration_roundtrip_cex :
    ((runPass exCtxC1 "m" "http://x" [exPartC2]
        (runPass exCtxC1 "m" "http://x" []
          (runPass exCtxC1 "m" "http://x" [exPartC2] exStEmptyC1))).history,
     (runPass exCtxC1 "m" "http://x" [exPartC2]
        (runPass exCtxC1 "m" "http://x" []
          (runPass exCtxC1 "m" "http://x" [exPartC2] exStEmptyC1))).parts)
      = ([], []) := by
  decide

/-- C2 witness: the amended theorem applied to a one-part page present,
absent, present again over an empty database. -/
theorem c2_deletion_restoration_roundtrip_witness :
    ("http://x" : String) ≠ ""
    ∧ ((((runPass exCtxC1 "m" "http://x" [exPartC1]
          (runPass exCtxC1 "m" "http://x" []
            (runPass exCtxC1 "m" "http://x" [exPartC1]
              exStEmptyC1))).history.filter
          (fun h => h.partId ==
            partIdOf "m" exPartC1.partNumber exPartC1.name)).map
          (fun h => (h.historyEvent, h.recordedAt)))
        = [(HistEvent.deleted, exCtxC1.ts), (HistEvent.restored, exCtxC1.ts)]
       ∧ ∃ r ∈ (runPass exCtxC1 "m" "http://x" [exPartC1]
            (runPass exCtxC1 "m" "http://x" []
              (runPass exCtxC1 "m" "http://x" [exPartC1] exStEmptyC1))).parts,
          r.id = partIdOf "m" exPartC1.partNumber exPartC1.name
          ∧ r.isDeleted = 0) :=
  ⟨by decide,
   c2_deletion_restoration_roundtrip exCtxC1 exCtxC1 exCtxC1 "m" "http://x"
     [exPartC1] [] [exPartC1] exStEmptyC1 exPartC1
     (by decide) (by simp [exStEmptyC1]) (by simp [exStEmptyC1])
     (by simp [exStEmptyC1]) (by decide) (by decide) (by simp [exStEmptyC1])
     (by decide) (by decide) (by decide) (by decide) (by decide) (by decide)⟩

end MpPitstop
